import Mathlib

/-!
# GTThreads: a shallow embedding of `gtthread_sched.c` and `gtthread_mutex.c`

The scheduler keeps four queues of the course-supplied `steque` type and a
counter of thread ids.  Thread records live in caller-owned memory and the
queues hold pointers to them, so the embedding has an explicit memory
`mem : Nat → gtthread_t` indexed by addresses, and the queues are lists of
addresses (the cancel queue is a list of ids).

Conventions.
* `unsigned long` values are natural numbers; `-1L` stored in an `unsigned long`
  is `2 ^ 64 - 1` (LP64).  `long` and `int` values are integers.
* `NULL` is `0` for `void *` values; a nullable record pointer is an `Option`.
* The saved machine context, the stacks and the interval timer are not modelled.
  `swapcontext` ends the current activation: a function that reaches it yields
  the outcome `switched`, which names the thread suspended and the thread resumed.
* Loops carry an iteration budget; the callers pass a budget that the
  totality lemmas below show to be sufficient.
-/

namespace GTThreads

/-! ## The steque -/

/-- Modelled from the spec: `steque_size` of the FIFO queue of section 4.1
(`steque.h` and `steque.c` are not among the sources); the number of elements. -/
def steque_size {α : Type} (q : List α) : Nat := q.length

/-- Modelled from the spec: `steque_enqueue` of section 4.1, enqueue at the tail. -/
def steque_enqueue {α : Type} (q : List α) (x : α) : List α := q ++ [x]

/-- Modelled from the spec: `steque_front` of section 4.1, the element at the head;
the spec does not say what happens on an empty queue, so no element is returned. -/
def steque_front {α : Type} (q : List α) : Option α :=
  match q with
  | [] => none
  | x :: _ => some x

/-- Modelled from the spec: `steque_pop` of section 4.1, remove and return the head;
the spec does not say what happens on an empty queue, so nothing is returned. -/
def steque_pop {α : Type} (q : List α) : Option (α × List α) :=
  match q with
  | [] => none
  | x :: t => some (x, t)

/-- Modelled from the spec: `steque_cycle` of section 4.1, detach the front and
re-attach it at the tail; an empty queue is left as it is. -/
def steque_cycle {α : Type} (q : List α) : List α :=
  match q with
  | [] => []
  | x :: t => t ++ [x]

/-! ## Thread records and scheduler state -/

/-- The null `void *`. -/
def NULL : Nat := 0

/-- The value of `-1L` stored in an `unsigned long` (`wait_tid` of a thread that waits on nothing). -/
def NO_TID : Nat := 2 ^ 64 - 1

/-- The value of `(void *) -1`, stored as the return value of a cancelled thread. -/
def CANCELED : Nat := 2 ^ 64 - 1

/-- The record `struct gtthread_s` without its machine context. -/
structure gtthread_t where
  id : Nat
  is_finished : Int
  retval : Nat
  is_joined : Int
  wait_tid : Nat
  joinee : Option Nat

/-- The globals of `gtthread_sched.c`, the signal mask bit of `SIGVTALRM`, and the
memory that holds the thread records. -/
structure Sched where
  g_threads_steque : List Nat
  g_dead_threads_steque : List Nat
  g_join_steque : List Nat
  g_cancelatorium : List Nat
  g_thread_id : Nat
  vtalrm_blocked : Bool
  mem : Nat → gtthread_t

/-- What stops a run of the model: an operation the queue leaves undefined, a
dereference of `NULL`, or an exhausted iteration budget. -/
inductive Err where
  | underflow
  | nullptr
  | nofuel
  deriving DecidableEq, Repr

/-- How a call of a library function ends. -/
inductive Outcome (α : Type) where
  | returned (r : α) (s : Sched)
  | switched (s : Sched) (old_thread new_thread : Nat)
  | exited (code : Int) (s : Sched)
  | err (e : Err)

/-- The continuation `k` runs when the call returns; every other outcome ends the activation. -/
def Outcome.andThen {α β : Type} (o : Outcome α) (k : α → Sched → Outcome β) : Outcome β :=
  match o with
  | .returned r s => k r s
  | .switched s o n => .switched s o n
  | .exited c s => .exited c s
  | .err e => .err e

/-- The state an outcome leaves behind, when there is one. -/
def Outcome.state? {α : Type} (o : Outcome α) : Option Sched :=
  match o with
  | .returned _ s => some s
  | .switched s _ _ => some s
  | .exited _ s => some s
  | .err _ => none

/-- The call came back to its caller. -/
def Outcome.isReturned {α : Type} (o : Outcome α) : Bool :=
  match o with
  | .returned _ _ => true
  | _ => false

/-- `sigprocmask(SIG_BLOCK, &vtalrm, NULL)`. -/
def sigprocmask_block (s : Sched) : Sched := { s with vtalrm_blocked := true }

/-- `sigprocmask(SIG_UNBLOCK, &vtalrm, NULL)`. -/
def sigprocmask_unblock (s : Sched) : Sched := { s with vtalrm_blocked := false }

/-- A write through the record pointer `p`. -/
def store (s : Sched) (p : Nat) (f : gtthread_t → gtthread_t) : Sched :=
  { s with mem := Function.update s.mem p (f (s.mem p)) }

/-- `gtthread_equal`: compares ids. -/
def gtthread_equal (t1 t2 : gtthread_t) : Bool := decide (t1.id = t2.id)

/-- `gtthread_self`: a copy of the record at the front of the run queue. -/
def gtthread_self (s : Sched) : Option gtthread_t :=
  match steque_front s.g_threads_steque with
  | none => none
  | some self => some (s.mem self)

/-! ## Dispatch -/

/-- The `for` loop of `joininator`; `i` is the loop counter. -/
def joininator_loop (joinee : Nat) : Nat → Nat → Sched → Except Err Sched
  | 0, _, _ => .error .nofuel
  | fuel + 1, i, s =>
    if i < steque_size s.g_join_steque then
      match steque_front s.g_join_steque with
      | none => .error .underflow
      | some curr =>
        let s1 :=
          if (s.mem curr).wait_tid = (s.mem joinee).id then
            store (store s curr (fun t => { t with is_joined := 1 })) curr
              (fun t => { t with joinee := some joinee })
          else s
        joininator_loop joinee fuel (i + 1)
          { s1 with g_join_steque := steque_cycle s1.g_join_steque }
    else .ok s

/-- `joininator`: marks every waiter of `joinee` in the join queue. -/
def joininator (joinee : Nat) (s : Sched) : Except Err Sched :=
  joininator_loop joinee (steque_size s.g_join_steque + 1) 0 s

/-- The `for` loop over the cancel queue inside `yield_helper`; the flag is `canceled`. -/
def cancel_scan (new_thread : Nat) : Nat → Nat → Sched → Except Err (Sched × Bool)
  | 0, _, _ => .error .nofuel
  | fuel + 1, i, s =>
    if i < steque_size s.g_cancelatorium then
      match steque_front s.g_cancelatorium with
      | none => .error .underflow
      | some c =>
        if c = (s.mem new_thread).id then
          let s1 := store s new_thread (fun t => { t with is_finished := 1 })
          let s2 := store s1 new_thread (fun t => { t with retval := CANCELED })
          match steque_pop s2.g_cancelatorium with
          | none => .error .underflow
          | some (_, cq) =>
            match steque_pop s2.g_threads_steque with
            | none => .error .underflow
            | some (_, rq) =>
              let s3 := { s2 with
                g_cancelatorium := cq
                g_threads_steque := rq
                g_dead_threads_steque := steque_enqueue s2.g_dead_threads_steque new_thread }
              match joininator new_thread s3 with
              | .error e => .error e
              | .ok s4 => .ok (s4, true)
        else
          let s1 :=
            if 0 < steque_size s.g_cancelatorium then
              { s with g_cancelatorium := steque_cycle s.g_cancelatorium }
            else s
          cancel_scan new_thread fuel (i + 1) s1
    else .ok (s, false)

/-- The `while` loop of `yield_helper` that looks for a thread not queued for
cancellation; the second component is the local `new_thread`. -/
def cancel_sweep : Nat → Sched → Option Nat → Except Err (Sched × Option Nat)
  | 0, _, _ => .error .nofuel
  | fuel + 1, s, new_thread =>
    if 0 < steque_size s.g_threads_steque then
      match steque_front s.g_threads_steque with
      | none => .error .underflow
      | some nt =>
        match cancel_scan nt (steque_size s.g_cancelatorium + 1) 0 s with
        | .error e => .error e
        | .ok (s1, canceled) =>
          if canceled then cancel_sweep fuel s1 (some nt) else .ok (s1, some nt)
    else .ok (s, new_thread)

/-- `yield_helper`: the dispatch routine shared by the alarm handler and the cooperative callers. -/
def yield_helper (is_alarm_safe : Bool) (s : Sched) : Outcome Unit :=
  let s0 := if is_alarm_safe then sigprocmask_block s else s
  if steque_size s0.g_threads_steque = 1 then .returned () s0
  else
    match steque_pop s0.g_threads_steque with
    | none => .err .underflow
    | some (old_thread, rq) =>
      let s1 := { s0 with g_threads_steque := rq }
      let s2 := if !is_alarm_safe then sigprocmask_block s1 else s1
      match cancel_sweep (steque_size s2.g_threads_steque + 1) s2 none with
      | .error e => .err e
      | .ok (s3, new_thread) =>
        let moved : Except Err Sched :=
          if (s3.mem old_thread).is_finished ≠ 0 then
            joininator old_thread
              { s3 with g_dead_threads_steque :=
                  steque_enqueue s3.g_dead_threads_steque old_thread }
          else
            .ok { s3 with g_threads_steque := steque_enqueue s3.g_threads_steque old_thread }
        match moved with
        | .error e => .err e
        | .ok s4 =>
          let s5 := if !is_alarm_safe then sigprocmask_unblock s4 else s4
          if steque_size s5.g_threads_steque = 0 then .exited 0 s5
          else
            match steque_front s5.g_threads_steque with
            | none => .err .underflow
            | some front =>
              if gtthread_equal (s5.mem front) (s5.mem old_thread) then .returned () s5
              else
                let s6 := if is_alarm_safe then sigprocmask_unblock s5 else s5
                match new_thread with
                | none => .err .nullptr
                | some nt => .switched s6 old_thread nt

/-- `alarm_safe_yield`. -/
def alarm_safe_yield (s : Sched) : Outcome Unit := yield_helper true s

/-- `alarm_handler`. -/
def alarm_handler (s : Sched) : Outcome Unit := yield_helper false s

/-- `gtthread_yield`. -/
def gtthread_yield (s : Sched) : Outcome Unit := alarm_safe_yield s

/-! ## Join -/

/-- The `for` loop of `gtthread_join` over the dead queue; the flag is `found_among_dead`. -/
def join_dead_loop (self : Nat) : Nat → Nat → Sched → Except Err (Sched × Bool)
  | 0, _, _ => .error .nofuel
  | fuel + 1, i, s =>
    if i < steque_size s.g_dead_threads_steque then
      let s1 := sigprocmask_block s
      match steque_front s1.g_dead_threads_steque with
      | none => .error .underflow
      | some curr =>
        let s2 := sigprocmask_unblock s1
        if (s2.mem curr).id = (s2.mem self).wait_tid then
          let s3 := sigprocmask_block s2
          let s4 := store s3 self (fun t => { t with joinee := some curr })
          let s5 := store s4 self (fun t => { t with is_joined := 1 })
          .ok (sigprocmask_unblock s5, true)
        else
          let s3 := sigprocmask_block s2
          let s4 := { s3 with g_dead_threads_steque := steque_cycle s3.g_dead_threads_steque }
          join_dead_loop self fuel (i + 1) (sigprocmask_unblock s4)
    else .ok (s, false)

/-- The `for` loop of `gtthread_join` that looks for the target waiting on the caller;
the flag says that the loop left through `return 1`. -/
def join_mutual_loop (self : Nat) : Nat → Nat → Sched → Except Err (Sched × Bool)
  | 0, _, _ => .error .nofuel
  | fuel + 1, i, s =>
    if i < steque_size s.g_join_steque then
      let s1 := sigprocmask_block s
      match steque_front s1.g_join_steque with
      | none => .error .underflow
      | some curr =>
        let s2 := sigprocmask_unblock s1
        if (s2.mem curr).wait_tid = (s2.mem self).id ∧ (s2.mem curr).id = (s2.mem self).wait_tid then
          let s3 := sigprocmask_block s2
          let s4 := store s3 self (fun t => { t with is_joined := -1 })
          let s5 := store s4 self (fun t => { t with wait_tid := NO_TID })
          .ok (sigprocmask_unblock s5, true)
        else
          let s3 := sigprocmask_block s2
          let s4 := { s3 with g_join_steque := steque_cycle s3.g_join_steque }
          join_mutual_loop self fuel (i + 1) (sigprocmask_unblock s4)
    else .ok (s, false)

/-- The `for` loop of `gtthread_join` that takes the caller out of the join queue. -/
def join_remove_loop (self : Nat) : Nat → Nat → Sched → Except Err Sched
  | 0, _, _ => .error .nofuel
  | fuel + 1, i, s =>
    if i < steque_size s.g_join_steque then
      let s1 := sigprocmask_block s
      match steque_front s1.g_join_steque with
      | none => .error .underflow
      | some curr =>
        let s2 := sigprocmask_unblock s1
        if gtthread_equal (s2.mem self) (s2.mem curr) then
          match steque_pop s2.g_join_steque with
          | none => .error .underflow
          | some (_, jq) => .ok { s2 with g_join_steque := jq }
        else
          let s3 :=
            if 0 < steque_size s2.g_join_steque then
              sigprocmask_unblock
                { sigprocmask_block s2 with
                    g_join_steque := steque_cycle (sigprocmask_block s2).g_join_steque }
            else s2
          join_remove_loop self fuel (i + 1) s3
    else .ok s

/-- The end of `gtthread_join`, from `if(status)` on.  `status` is `none` for a null
pointer and otherwise holds the value stored at `*status`; the second component of the
result is that value when the call returns. -/
def gtthread_join_finish (self : Nat) (status : Option Nat) (found_among_dead : Bool)
    (s : Sched) : Outcome (Int × Option Nat) :=
  let written : Except Err (Option Nat) :=
    match status with
    | none => .ok none
    | some _ =>
      match (s.mem self).joinee with
      | none => .error .nullptr
      | some joinee => .ok (some (s.mem joinee).retval)
  match written with
  | .error e => .err e
  | .ok status1 =>
    let s1 := sigprocmask_block s
    let s2 := store s1 self (fun t => { t with joinee := none })
    let s3 := store s2 self (fun t => { t with wait_tid := NO_TID })
    let s4 := store s3 self (fun t => { t with is_joined := -1 })
    let s5 := sigprocmask_unblock s4
    if !found_among_dead then
      match join_remove_loop self (steque_size s5.g_join_steque + 1) 0 s5 with
      | .error e => .err e
      | .ok s6 => .returned (0, status1) s6
    else .returned (0, status1) s5

/-- The loop `while(!self->is_joined) alarm_safe_yield();` followed by the end of
`gtthread_join`.  A thread that a later dispatch resumes inside the loop continues here. -/
def gtthread_join_wait (self : Nat) (status : Option Nat) : Nat → Sched → Outcome (Int × Option Nat)
  | 0, _ => .err .nofuel
  | fuel + 1, s =>
    if (s.mem self).is_joined = 0 then
      (alarm_safe_yield s).andThen (fun _ s1 => gtthread_join_wait self status fuel s1)
    else gtthread_join_finish self status false s

/-- `gtthread_join`.  `fuel` bounds the iterations of the waiting loop. -/
def gtthread_join (fuel : Nat) (thread : gtthread_t) (status : Option Nat) (s : Sched) :
    Outcome (Int × Option Nat) :=
  let s1 := sigprocmask_block s
  match steque_front s1.g_threads_steque with
  | none => .err .underflow
  | some self =>
    let s2 := sigprocmask_unblock s1
    if thread.id ≥ s2.g_thread_id ∨ thread.id = (s2.mem self).id then .returned (1, status) s2
    else
      let s3 := sigprocmask_block s2
      let s4 := store s3 self (fun t => { t with is_joined := 0 })
      let s5 := store s4 self (fun t => { t with wait_tid := thread.id })
      let s6 := sigprocmask_block s5
      match join_dead_loop self (steque_size s6.g_dead_threads_steque + 1) 0 s6 with
      | .error e => .err e
      | .ok (s7, found_among_dead) =>
        if !found_among_dead then
          match join_mutual_loop self (steque_size s7.g_join_steque + 1) 0 s7 with
          | .error e => .err e
          | .ok (s8, true) => .returned (1, status) s8
          | .ok (s8, false) =>
            let s9 := sigprocmask_block s8
            let s10 := { s9 with g_join_steque := steque_enqueue s9.g_join_steque self }
            gtthread_join_wait self status fuel (sigprocmask_unblock s10)
        else gtthread_join_finish self status true s7

/-! ## Exit, cancel, trampoline -/

/-- Modelled from the spec: `steque_destroy` of section 4.1; the queue holds nothing afterwards. -/
def steque_destroy {α : Type} (_q : List α) : List α := []

/-- The `while(num > 0)` loop of `gtthread_exit` that walks the dead queue. -/
def exit_reap : Nat → Sched → Except Err Sched
  | 0, s => .ok s
  | num + 1, s =>
    match steque_front s.g_dead_threads_steque with
    | none => .error .underflow
    | some _ =>
      let s1 :=
        if 1 < steque_size s.g_dead_threads_steque then
          { s with g_dead_threads_steque := steque_cycle s.g_dead_threads_steque }
        else s
      exit_reap num s1

/-- `gtthread_exit`. -/
def gtthread_exit (retval : Nat) (s : Sched) : Outcome Unit :=
  let s1 := sigprocmask_block s
  match steque_front s1.g_threads_steque with
  | none => .err .underflow
  | some thread =>
    let s2 := store s1 thread (fun t => { t with is_finished := 1 })
    let s3 := if retval ≠ NULL then store s2 thread (fun t => { t with retval := retval }) else s2
    if steque_size s3.g_threads_steque = 1 then
      match exit_reap (steque_size s3.g_dead_threads_steque) s3 with
      | .error e => .err e
      | .ok s4 =>
        .exited 0 { s4 with
          g_threads_steque := steque_destroy s4.g_threads_steque
          g_dead_threads_steque := steque_destroy s4.g_dead_threads_steque
          g_cancelatorium := steque_destroy s4.g_cancelatorium
          g_join_steque := steque_destroy s4.g_join_steque }
    else alarm_safe_yield (sigprocmask_unblock s3)

/-- `gtthread_cancel`.  When the dispatch of a self-cancel switches away, the call is
suspended before its `return 0`. -/
def gtthread_cancel (thread : gtthread_t) (s : Sched) : Outcome Int :=
  let s1 := { s with g_cancelatorium := steque_enqueue s.g_cancelatorium thread.id }
  match gtthread_self s1 with
  | none => .err .underflow
  | some self =>
    if gtthread_equal thread self then
      (alarm_safe_yield s1).andThen (fun _ s2 => .returned 0 s2)
    else .returned 0 s1

/-- The trampoline `apply`, from the point where the start routine has returned
`func_result` in state `s`. -/
def apply (func_result : Nat) (runner_thread : Nat) (s : Sched) : Outcome Unit :=
  gtthread_exit NULL (store s runner_thread (fun t => { t with retval := func_result }))

/-! ## Mutex -/

/-- The record `struct gtthread_mutex_s`; `waiting_steque` is `none` for a null pointer. -/
structure gtthread_mutex_t where
  waiting_steque : Option (List Nat)
  locker_id : Int

/-- The conversion of an `unsigned long` to `long` (two's complement, 64 bits). -/
def long_of_ulong (x : Nat) : Int :=
  if x % 2 ^ 64 < 2 ^ 63 then ((x % 2 ^ 64 : Nat) : Int) else ((x % 2 ^ 64 : Nat) : Int) - 2 ^ 64

/-- `gtthread_mutex_init`. -/
def gtthread_mutex_init (_mutex : gtthread_mutex_t) : Int × gtthread_mutex_t :=
  (0, { waiting_steque := some [], locker_id := -1 })

/-- How the entry part of `gtthread_mutex_lock` ends: with `return 1`, or in the spin
loop with the local `curr.id`. -/
inductive LockEntry where
  | failed (mutex : gtthread_mutex_t)
  | spinning (curr_id : Nat) (mutex : gtthread_mutex_t)

/-- `gtthread_mutex_lock` up to the spin loop. -/
def gtthread_mutex_lock_enter (s : Sched) (mutex : gtthread_mutex_t) : Except Err LockEntry :=
  match mutex.waiting_steque with
  | none => .ok (.failed mutex)
  | some q =>
    match gtthread_self s with
    | none => .error .underflow
    | some curr =>
      .ok (.spinning curr.id { mutex with waiting_steque := some (steque_enqueue q curr.id) })

/-- One evaluation of the spin loop of `gtthread_mutex_lock`: `none` while the inner
`while(mutex->locker_id != -1);` holds the thread or the front is another id (the mutex is
not written), `some` with the claimed mutex when the loop is left through `break`. -/
def gtthread_mutex_lock_spin (curr_id : Nat) (mutex : gtthread_mutex_t) :
    Except Err (Option gtthread_mutex_t) :=
  if mutex.locker_id ≠ -1 then .ok none
  else
    match mutex.waiting_steque with
    | none => .error .nullptr
    | some q =>
      match steque_front q with
      | none => .error .underflow
      | some front =>
        if front = curr_id then .ok (some { mutex with locker_id := long_of_ulong curr_id })
        else .ok none

/-- `gtthread_mutex_unlock`. -/
def gtthread_mutex_unlock (s : Sched) (mutex : gtthread_mutex_t) :
    Except Err (Int × gtthread_mutex_t) :=
  match mutex.waiting_steque with
  | none => .ok (1, mutex)
  | some q =>
    if steque_size q = 0 then .ok (1, mutex)
    else if mutex.locker_id = -1 then .ok (1, mutex)
    else
      match gtthread_self s with
      | none => .error .underflow
      | some curr =>
        match steque_front q with
        | none => .error .underflow
        | some front =>
          if curr.id ≠ front then .ok (1, mutex)
          else
            match steque_pop q with
            | none => .error .underflow
            | some (_, q1) => .ok (0, { waiting_steque := some q1, locker_id := -1 })

/-! ## Histories of a mutex -/

/-- One step on a mutex: the entry part of a `gtthread_mutex_lock` call made in scheduler
state `s`, one evaluation of the spin loop by the thread whose local `curr.id` is
`curr_id`, or a `gtthread_mutex_unlock` call made in scheduler state `s`. -/
inductive MutexStep where
  | lock_enter (s : Sched)
  | lock_spin (curr_id : Nat)
  | unlock (s : Sched)

/-- A mutex with its history: the ids that lock entries appended to the waiters queue and
the ids of the threads that left the spin loop holding the lock, both oldest first. -/
structure MutexRun where
  mutex : gtthread_mutex_t
  entries : List Nat
  grants : List Nat

/-- The effect of one step.  A step that writes nothing to the mutex (a `return 1`, a spin
evaluation that does not claim the lock, a call the model cannot run) leaves the history
as it is. -/
def mutex_step (h : MutexRun) : MutexStep → MutexRun
  | .lock_enter s =>
    match gtthread_mutex_lock_enter s h.mutex with
    | .ok (.spinning curr_id m) => { mutex := m, entries := h.entries ++ [curr_id], grants := h.grants }
    | _ => h
  | .lock_spin curr_id =>
    match gtthread_mutex_lock_spin curr_id h.mutex with
    | .ok (some m) => { mutex := m, entries := h.entries, grants := h.grants ++ [curr_id] }
    | _ => h
  | .unlock s =>
    match gtthread_mutex_unlock s h.mutex with
    | .ok (_, m) => { mutex := m, entries := h.entries, grants := h.grants }
    | .error _ => h

/-- The history after the steps given, from a mutex that `gtthread_mutex_init` has set up. -/
def mutex_run (steps : List MutexStep) : MutexRun :=
  steps.foldl mutex_step
    { mutex := (gtthread_mutex_init { waiting_steque := none, locker_id := 0 }).2
      entries := [], grants := [] }

/-- The invariant of a mutex history: the entries are the ids already unlocked followed by
the waiters queue, and the grants are the ids already unlocked, followed by the front of
the waiters queue when the lock is held. -/
def MutexInv (h : MutexRun) : Prop :=
  ∃ (served q : List Nat), h.mutex.waiting_steque = some q ∧ h.entries = served ++ q ∧
    ((h.mutex.locker_id = -1 ∧ h.grants = served) ∨
      (h.mutex.locker_id ≠ -1 ∧ ∃ f q1, q = f :: q1 ∧ h.grants = served ++ [f]))

/-! ## Closed forms used by the proofs -/

/-- The memory after `joininator` has visited the waiters `q` in order: a waiter whose
`wait_tid` is the id of `joinee` is marked as joined. -/
def join_marks (joinee : Nat) : List Nat → (Nat → gtthread_t) → (Nat → gtthread_t)
  | [], m => m
  | curr :: t, m =>
    join_marks joinee t
      (if (m curr).wait_tid = (m joinee).id then
        Function.update m curr { m curr with is_joined := 1, joinee := some joinee }
      else m)

/-- The state after the sweep has cancelled the head `nt` of the run queue: `cq` is what
is left of the cancel queue and `rq` the rest of the run queue. -/
def cancel_head (s : Sched) (nt : Nat) (cq rq : List Nat) : Sched :=
  { s with
      g_cancelatorium := cq
      g_threads_steque := rq
      g_dead_threads_steque := s.g_dead_threads_steque ++ [nt]
      mem := join_marks nt s.g_join_steque
        (Function.update s.mem nt { s.mem nt with is_finished := 1, retval := CANCELED }) }

/-- What a cancel sweep from `s` to `s'` that cancelled the threads `gone` (in this order)
has done and has left alone. -/
structure SweepFrame (s s' : Sched) (gone : List Nat) : Prop where
  run_eq : s.g_threads_steque = gone ++ s'.g_threads_steque
  dead_eq : s'.g_dead_threads_steque = s.g_dead_threads_steque ++ gone
  join_eq : s'.g_join_steque = s.g_join_steque
  next_id_eq : s'.g_thread_id = s.g_thread_id
  mask_eq : s'.vtalrm_blocked = s.vtalrm_blocked
  id_eq : ∀ p, (s'.mem p).id = (s.mem p).id
  wait_tid_eq : ∀ p, (s'.mem p).wait_tid = (s.mem p).wait_tid
  gone_marked : ∀ p ∈ gone, (s'.mem p).is_finished = 1 ∧ (s'.mem p).retval = CANCELED
  others_kept : ∀ p, p ∉ gone →
    (s'.mem p).is_finished = (s.mem p).is_finished ∧ (s'.mem p).retval = (s.mem p).retval
  cancel_perm : s.g_cancelatorium.Perm (gone.map (fun p => (s.mem p).id) ++ s'.g_cancelatorium)
  stops : ∀ h rq, s'.g_threads_steque = h :: rq → (s.mem h).id ∉ s'.g_cancelatorium

/-- The part of `yield_helper` after the sweep, as a function of the state `s3` the sweep
left, the thread `old_thread` that was popped and the local `new_thread`. -/
def dispatch_tail (is_alarm_safe : Bool) (old_thread : Nat) (new_thread : Option Nat)
    (s3 : Sched) : Outcome Unit :=
  let moved : Except Err Sched :=
    if (s3.mem old_thread).is_finished ≠ 0 then
      joininator old_thread
        { s3 with g_dead_threads_steque :=
            steque_enqueue s3.g_dead_threads_steque old_thread }
    else
      .ok { s3 with g_threads_steque := steque_enqueue s3.g_threads_steque old_thread }
  match moved with
  | .error e => .err e
  | .ok s4 =>
    let s5 := if !is_alarm_safe then sigprocmask_unblock s4 else s4
    if steque_size s5.g_threads_steque = 0 then .exited 0 s5
    else
      match steque_front s5.g_threads_steque with
      | none => .err .underflow
      | some front =>
        if gtthread_equal (s5.mem front) (s5.mem old_thread) then .returned () s5
        else
          let s6 := if is_alarm_safe then sigprocmask_unblock s5 else s5
          match new_thread with
          | none => .err .nullptr
          | some nt => .switched s6 old_thread nt

/-- The state after `yield_helper` has put the popped thread where it belongs: a finished
thread at the tail of the dead queue, with its waiters marked, and any other thread at the
tail of the run queue. -/
def dispatch_moved (old_thread : Nat) (s3 : Sched) : Sched :=
  if (s3.mem old_thread).is_finished ≠ 0 then
    { s3 with
        g_dead_threads_steque := s3.g_dead_threads_steque ++ [old_thread]
        mem := join_marks old_thread s3.g_join_steque s3.mem }
  else { s3 with g_threads_steque := s3.g_threads_steque ++ [old_thread] }

/-- The state in which `gtthread_exit` calls `alarm_safe_yield`: the caller is marked
finished and has the return value passed, unless that is null. -/
def exit_marked (retval : Nat) (s : Sched) (caller : Nat) : Sched :=
  { s with
      vtalrm_blocked := false
      mem := Function.update s.mem caller
        { s.mem caller with
            is_finished := 1
            retval := if retval ≠ NULL then retval else (s.mem caller).retval } }

/-! ## Runs of dispatches -/

/-- The threads a dispatch switched between, when the outcome is a context switch. -/
def Outcome.switch? {α : Type} (o : Outcome α) : Option (Nat × Nat) :=
  match o with
  | .switched _ old_thread new_thread => some (old_thread, new_thread)
  | _ => none

/-- The state `s` with the cancel queue replaced. -/
def with_cancel (s : Sched) (c : List Nat) : Sched := { s with g_cancelatorium := c }

/-- The ids of the records that a queue points to. -/
def ids_of (s : Sched) (q : List Nat) : List Nat := q.map (fun p => (s.mem p).id)

/-- The record as `gtthread_init` and `gtthread_create` fill it in for the id given (both
leave `joinee` unset; it is null here). -/
def fresh_record (id : Nat) : gtthread_t :=
  { id := id, is_finished := 0, retval := NULL, is_joined := -1, wait_tid := NO_TID, joinee := none }

/-- A memory with the fresh records of threads 0, 1, 2, ... at the addresses 100, 101, 102, ... -/
def fresh_mem : Nat → gtthread_t := fun p => fresh_record (p - 100)

/-- The state after `gtthread_init`: the initial thread alone. -/
def ex_single : Sched :=
  { g_threads_steque := [100], g_dead_threads_steque := [], g_join_steque := [],
    g_cancelatorium := [], g_thread_id := 1, vtalrm_blocked := false, mem := fresh_mem }

/-- Threads 0 and 1 are runnable and thread 0 is running. -/
def ex_two : Sched :=
  { g_threads_steque := [100, 101], g_dead_threads_steque := [], g_join_steque := [],
    g_cancelatorium := [], g_thread_id := 2, vtalrm_blocked := false, mem := fresh_mem }

/-- Threads 0 and 1 are runnable and thread 1 is running. -/
def ex_second_runs : Sched :=
  { g_threads_steque := [101, 100], g_dead_threads_steque := [], g_join_steque := [],
    g_cancelatorium := [], g_thread_id := 2, vtalrm_blocked := false, mem := fresh_mem }

/-- Threads 0 and 1 are runnable, thread 0 is running, and a cancel is pending for thread 1. -/
def ex_two_pending : Sched :=
  { g_threads_steque := [100, 101], g_dead_threads_steque := [], g_join_steque := [],
    g_cancelatorium := [1], g_thread_id := 2, vtalrm_blocked := false, mem := fresh_mem }

/-- Thread 0 runs while thread 1 sits in the join queue, waiting on thread 0. -/
def ex_mutual : Sched :=
  { g_threads_steque := [100, 101], g_dead_threads_steque := [], g_join_steque := [101],
    g_cancelatorium := [], g_thread_id := 2, vtalrm_blocked := false,
    mem := Function.update fresh_mem 101 { fresh_record 1 with is_joined := 0, wait_tid := 0 } }

/-- Thread 0 runs; thread 1 has finished with the value 42 and is in the dead queue. -/
def ex_dead : Sched :=
  { g_threads_steque := [100], g_dead_threads_steque := [101], g_join_steque := [],
    g_cancelatorium := [], g_thread_id := 2, vtalrm_blocked := false,
    mem := Function.update fresh_mem 101 { fresh_record 1 with is_finished := 1, retval := 42 } }

/-- A mutex held by thread 0, with thread 1 queued behind it. -/
def ex_mutex_held : gtthread_mutex_t := { waiting_steque := some [0, 1], locker_id := 0 }

/-- Thread 0 and then thread 1 enter `gtthread_mutex_lock`; thread 1 spins without
success, thread 0 claims the lock and unlocks, thread 1 claims the lock. -/
def ex_lock_steps : List MutexStep :=
  [.lock_enter ex_single, .lock_enter ex_second_runs, .lock_spin 1, .lock_spin 0,
   .unlock ex_single, .lock_spin 1]

/-- The invariant of the holder field: the mutex has a waiters queue, and `locker_id` is
-1 or is the id at the front of the waiters queue, stored as a `long`. -/
def MutexHolderInv (m : gtthread_mutex_t) : Prop :=
  ∃ q : List Nat, m.waiting_steque = some q ∧
    (m.locker_id = -1 ∨ ∃ f q1, q = f :: q1 ∧ m.locker_id = long_of_ulong f)

/-- The state in which the process goes on after a call: the one a return or a context
switch leaves; none after an exit of the process or a stop of the model. -/
def Outcome.next? {α : Type} (o : Outcome α) : Option Sched :=
  match o with
  | .returned _ s => some s
  | .switched s _ _ => some s
  | _ => none

/-- The state after `n` calls of `gtthread_yield`, each made by the thread that is running
then. -/
def yields : Nat → Sched → Option Sched
  | 0, s => some s
  | n + 1, s =>
    match (gtthread_yield s).next? with
    | none => none
    | some s1 => yields n s1

/-- The setting of round-robin fairness: the run queue is not empty, its threads have
distinct ids, none of them is finished and no cancel is pending for any of them. -/
def AllYielding (s : Sched) : Prop :=
  s.g_threads_steque ≠ [] ∧ (ids_of s s.g_threads_steque).Nodup ∧
    ∀ p ∈ s.g_threads_steque, (s.mem p).is_finished = 0 ∧ (s.mem p).id ∉ s.g_cancelatorium

/-- Two states that differ in the order of the run queue and the signal mask only. -/
def SameButRun (s s' : Sched) : Prop :=
  s'.mem = s.mem ∧ s'.g_cancelatorium = s.g_cancelatorium ∧
    s'.g_dead_threads_steque = s.g_dead_threads_steque ∧
    s'.g_join_steque = s.g_join_steque ∧ s'.g_thread_id = s.g_thread_id

/-- What a cancel sweep from `s` to `s'` that cancelled the threads `gone` has done to the
join state of the records: a waiter in the join queue of one of the cancelled threads is
marked and has a cancelled thread with the awaited id as its joinee, and the join state
of every other record is as it was. -/
structure SweepJoined (s s' : Sched) (gone : List Nat) : Prop where
  marked : ∀ w ∈ s.g_join_steque, ∀ g ∈ gone, (s.mem w).wait_tid = (s.mem g).id →
    (s'.mem w).is_joined = 1 ∧
      ∃ g' ∈ gone, (s'.mem w).joinee = some g' ∧ (s.mem g').id = (s.mem w).wait_tid
  kept : ∀ p, (p ∉ s.g_join_steque ∨ ∀ g ∈ gone, (s.mem p).wait_tid ≠ (s.mem g).id) →
    (s'.mem p).is_joined = (s.mem p).is_joined ∧ (s'.mem p).joinee = (s.mem p).joinee

/-- Two states that differ in the signal mask only. -/
def SameButMask (a b : Sched) : Prop :=
  a.g_threads_steque = b.g_threads_steque ∧
    a.g_dead_threads_steque = b.g_dead_threads_steque ∧
    a.g_join_steque = b.g_join_steque ∧ a.g_cancelatorium = b.g_cancelatorium ∧
    a.g_thread_id = b.g_thread_id ∧ a.mem = b.mem

/-! ## The whole lock call -/

/-- The spin loop of `gtthread_mutex_lock`, run for at most `n` evaluations in the
scheduler state `s`.  The loop calls no library function, so the scheduler state is
passed on as it is, and no other thread runs unless the timer preempts the caller: with
the timer off every evaluation sees the mutex as the previous one left it.  The third
component is the value returned, or `none` while the call is still in the loop. -/
def gtthread_mutex_lock_loop (curr_id : Nat) :
    Nat → Sched → gtthread_mutex_t → Except Err (Sched × gtthread_mutex_t × Option Int)
  | 0, s, mutex => .ok (s, mutex, none)
  | n + 1, s, mutex =>
    match gtthread_mutex_lock_spin curr_id mutex with
    | .error e => .error e
    | .ok (some m) => .ok (s, m, some 0)
    | .ok none => gtthread_mutex_lock_loop curr_id n s mutex

/-- `gtthread_mutex_lock`, followed for at most `n` evaluations of its spin loop. -/
def gtthread_mutex_lock (n : Nat) (s : Sched) (mutex : gtthread_mutex_t) :
    Except Err (Sched × gtthread_mutex_t × Option Int) :=
  match gtthread_mutex_lock_enter s mutex with
  | .error e => .error e
  | .ok (.failed m) => .ok (s, m, some 1)
  | .ok (.spinning curr_id m) => gtthread_mutex_lock_loop curr_id n s m

/-- What a bounded run of `gtthread_mutex_lock` shows of the scheduler and the mutex: the
run queue, the waiters queue, the holder and the value returned. -/
def lock_view (r : Except Err (Sched × gtthread_mutex_t × Option Int)) :
    Option (List Nat × Option (List Nat) × Int × Option Int) :=
  match r with
  | .error _ => none
  | .ok (s, m, v) => some (s.g_threads_steque, m.waiting_steque, m.locker_id, v)

/-- A mutex held by thread 0, with no other waiter. -/
def ex_mutex_owned : gtthread_mutex_t := { waiting_steque := some [0], locker_id := 0 }

/-- What a dispatch from `s` to `s'` has done when its caller `old` had at least one thread
behind it in the run queue: `gone` are the threads the sweep cancelled, in this order, and
`rest` the threads it left.  A thread is `done` when the dispatch has put it into the dead
queue: the cancelled ones, and the caller when it is finished. -/
structure DispatchFrame (s s' : Sched) (old : Nat) (gone rest : List Nat) : Prop where
  run_split : s.g_threads_steque = old :: (gone ++ rest)
  run_eq : s'.g_threads_steque =
    rest ++ (if (s'.mem old).is_finished ≠ 0 then [] else [old])
  dead_eq : s'.g_dead_threads_steque =
    s.g_dead_threads_steque ++ gone ++ (if (s'.mem old).is_finished ≠ 0 then [old] else [])
  join_eq : s'.g_join_steque = s.g_join_steque
  next_id_eq : s'.g_thread_id = s.g_thread_id
  id_eq : ∀ p, (s'.mem p).id = (s.mem p).id
  wait_tid_eq : ∀ p, (s'.mem p).wait_tid = (s.mem p).wait_tid
  gone_marked : ∀ p ∈ gone, (s'.mem p).is_finished = 1 ∧ (s'.mem p).retval = CANCELED
  others_kept : ∀ p, p ∉ gone →
    (s'.mem p).is_finished = (s.mem p).is_finished ∧ (s'.mem p).retval = (s.mem p).retval
  cancel_perm : s.g_cancelatorium.Perm (ids_of s gone ++ s'.g_cancelatorium)
  stops : ∀ f rest', rest = f :: rest' → (s.mem f).id ∉ s'.g_cancelatorium
  marked : ∀ w ∈ s.g_join_steque, ∀ g,
    (g ∈ gone ∨ (g = old ∧ (s'.mem old).is_finished ≠ 0)) →
    (s.mem w).wait_tid = (s.mem g).id →
    (s'.mem w).is_joined = 1 ∧
      ∃ j, (s'.mem w).joinee = some j ∧
        (j ∈ gone ∨ (j = old ∧ (s'.mem old).is_finished ≠ 0)) ∧
        (s.mem j).id = (s.mem w).wait_tid
  kept : ∀ p,
    (p ∉ s.g_join_steque ∨
      ∀ g, (g ∈ gone ∨ (g = old ∧ (s'.mem old).is_finished ≠ 0)) →
        (s.mem p).wait_tid ≠ (s.mem g).id) →
    (s'.mem p).is_joined = (s.mem p).is_joined ∧ (s'.mem p).joinee = (s.mem p).joinee

/-- The longest prefix of the queue `q` all of whose threads have an entry with their id
in the cancel queue of `s`. -/
def cancelled_heads (s : Sched) (q : List Nat) : List Nat :=
  q.takeWhile (fun p => decide ((s.mem p).id ∈ s.g_cancelatorium))

/-- What is left of the queue `q` behind `cancelled_heads s q`. -/
def spared_tail (s : Sched) (q : List Nat) : List Nat :=
  q.dropWhile (fun p => decide ((s.mem p).id ∈ s.g_cancelatorium))

/-- Threads 0, 1 and 2 are runnable and thread 0 is running; thread 2 is in the waiting
loop of a join on thread 1, and a cancel is pending for thread 1. -/
def ex_sweep_waiter : Sched :=
  { g_threads_steque := [100, 101, 102], g_dead_threads_steque := [], g_join_steque := [102],
    g_cancelatorium := [1], g_thread_id := 3, vtalrm_blocked := false,
    mem := Function.update fresh_mem 102 { fresh_record 2 with is_joined := 0, wait_tid := 1 } }

/-- Modelled from the spec: `steque_init` of section 4.1; the queue is empty afterwards. -/
def steque_init {α : Type} (_q : List α) : List α := []

/-- `set_up_alarm`, with `sigaction` succeeding: `SIGVTALRM` is unblocked; the timer and
the handler installed are not part of the state. -/
def set_up_alarm (s : Sched) : Int × Sched := (0, sigprocmask_unblock s)

/-- `gtthread_init`, with `set_up_alarm` and `getcontext` succeeding.  `main_thread` is the
address that `malloc` returns for the record of the initial thread. -/
def gtthread_init (_period : Int) (main_thread : Nat) (s : Sched) : Sched :=
  let s1 := { s with
    g_threads_steque := steque_init s.g_threads_steque
    g_dead_threads_steque := steque_init s.g_dead_threads_steque
    g_cancelatorium := steque_init s.g_cancelatorium
    g_join_steque := steque_init s.g_join_steque }
  let s2 := (set_up_alarm s1).2
  let s3 := { store s2 main_thread (fun t => { t with id := s2.g_thread_id }) with
    g_thread_id := s2.g_thread_id + 1 }
  let s4 := store s3 main_thread (fun t => { t with is_finished := 0 })
  let s5 := store s4 main_thread (fun t => { t with is_joined := -1 })
  let s6 := store s5 main_thread (fun t => { t with wait_tid := NO_TID })
  let s7 := store s6 main_thread (fun t => { t with retval := NULL })
  { s7 with g_threads_steque := steque_enqueue s7.g_threads_steque main_thread }

/-- `gtthread_create`, with `getcontext` succeeding.  `thread` is the address of the record
that the caller passes; the start routine and its argument go into the machine context,
which is not modelled. -/
def gtthread_create (thread : Nat) (s : Sched) : Int × Sched :=
  let s1 := { store s thread (fun t => { t with id := s.g_thread_id }) with
    g_thread_id := s.g_thread_id + 1 }
  let s2 := store s1 thread (fun t => { t with is_finished := 0 })
  let s3 := store s2 thread (fun t => { t with is_joined := -1 })
  let s4 := store s3 thread (fun t => { t with wait_tid := NO_TID })
  let s5 := store s4 thread (fun t => { t with retval := NULL })
  (0, { s5 with g_threads_steque := steque_enqueue s5.g_threads_steque thread })

/-! ## Reachable states -/

/-- One step of the running thread, from the state in which it is made to the state in
which the process goes on: a call of a library function, the return of a start routine
into the trampoline, the resumption of a thread that a dispatch suspended in the waiting
loop of `gtthread_join`, or a dispatch from the alarm handler while the signal is
unblocked.  Calls are taken as a whole; the alarm is not delivered inside them. -/
inductive Step : Sched → Sched → Prop
  | yield {s s' : Sched} : (gtthread_yield s).next? = some s' → Step s s'
  | alarm {s s' : Sched} : s.vtalrm_blocked = false →
      (alarm_handler s).next? = some s' → Step s s'
  | join {s s' : Sched} (fuel : Nat) (thread : gtthread_t) (status : Option Nat) :
      (gtthread_join fuel thread status s).next? = some s' → Step s s'
  | join_resume {s s' : Sched} (fuel : Nat) (self : Nat) (status : Option Nat) :
      steque_front s.g_threads_steque = some self → self ∈ s.g_join_steque →
      (gtthread_join_wait self status fuel s).next? = some s' → Step s s'
  | exit {s s' : Sched} (retval : Nat) : (gtthread_exit retval s).next? = some s' → Step s s'
  | cancel {s s' : Sched} (thread : gtthread_t) :
      (gtthread_cancel thread s).next? = some s' → Step s s'
  | start_routine_returns {s s' : Sched} (func_result runner_thread : Nat) :
      steque_front s.g_threads_steque = some runner_thread →
      (apply func_result runner_thread s).next? = some s' → Step s s'

/-- The states the process passes through from `s0`, with the number of `gtthread_create`
calls made on the way.  Every `gtthread_create` is given a record that is in neither the
run queue nor the dead queue (the record of a thread that the library does not know). -/
inductive RunN (s0 : Sched) : Nat → Sched → Prop
  | start : RunN s0 0 s0
  | create {n : Nat} {s : Sched} (thread : Nat) : RunN s0 n s →
      thread ∉ s.g_threads_steque → thread ∉ s.g_dead_threads_steque →
      RunN s0 (n + 1) (gtthread_create thread s).2
  | step {n : Nat} {s s' : Sched} : RunN s0 n s → Step s s' → RunN s0 n s'

/-- The states reachable from a `gtthread_init` at program start, where the counter
`g_thread_id` has its static initial value 0, with the number of `gtthread_create` calls
made since. -/
def Reachable (n : Nat) (s : Sched) : Prop :=
  ∃ (period : Int) (main_thread : Nat) (s0 : Sched),
    s0.g_thread_id = 0 ∧ RunN (gtthread_init period main_thread s0) n s

/-- What no step changes: the id of a record, the id counter, and the records that the run
queue and the dead queue hold together. -/
def StepFrame (s s' : Sched) : Prop :=
  (∀ p, (s'.mem p).id = (s.mem p).id) ∧ s'.g_thread_id = s.g_thread_id ∧
    (s'.g_threads_steque ++ s'.g_dead_threads_steque).Perm
      (s.g_threads_steque ++ s.g_dead_threads_steque)

/-- The invariant of join completion: the records of the dead queue are finished, and a
record of the run queue or the dead queue whose join state is 1 has a joinee in the dead
queue whose id is its wait target. -/
def JoinInv (s : Sched) : Prop :=
  (∀ p ∈ s.g_dead_threads_steque, (s.mem p).is_finished ≠ 0) ∧
  (∀ p ∈ s.g_threads_steque ++ s.g_dead_threads_steque, (s.mem p).is_joined = 1 →
    ∃ j, (s.mem p).joinee = some j ∧ j ∈ s.g_dead_threads_steque ∧
      (s.mem j).id = (s.mem p).wait_tid)

/-- A transition that keeps the frame of a step and the invariant of join completion. -/
def Keeps (s s' : Sched) : Prop := StepFrame s s' ∧ (JoinInv s → JoinInv s')

/-- The invariant of thread ids after `n` calls of `gtthread_create`: the records of the
run queue and the dead queue have distinct ids, each below the id counter, and the counter
is `n + 1`. -/
def ThreadIdsInv (n : Nat) (s : Sched) : Prop :=
  (ids_of s (s.g_threads_steque ++ s.g_dead_threads_steque)).Nodup ∧
  (∀ p ∈ s.g_threads_steque ++ s.g_dead_threads_steque, (s.mem p).id < s.g_thread_id) ∧
  s.g_thread_id = n + 1

/-- The state in which the process goes on after a call, or `d` when it does not go on. -/
def Outcome.next_or {α : Type} (o : Outcome α) (d : Sched) : Sched :=
  match o.next? with
  | some s => s
  | none => d

/-- A state at program start: the queues are empty and no id has been issued. -/
def ex_boot : Sched :=
  { g_threads_steque := [], g_dead_threads_steque := [], g_join_steque := [],
    g_cancelatorium := [], g_thread_id := 0, vtalrm_blocked := false, mem := fresh_mem }

/-- The state after `gtthread_init(0)`, with the record of the initial thread at 100. -/
def ex_run_init : Sched := gtthread_init 0 100 ex_boot

/-- The state after the initial thread has created a thread with the record at 101. -/
def ex_run_created : Sched := (gtthread_create 101 ex_run_init).2

/-- The state after the initial thread has, instead, called `gtthread_join` on the new
thread and has been suspended in the waiting loop. -/
def ex_run_joining : Sched :=
  (gtthread_join 1 (ex_run_created.mem 101) none ex_run_created).next_or ex_run_created

/-- The state after the new thread, running while the initial thread waits in
`gtthread_join` for it, has called `gtthread_cancel` on the handle of the initial thread. -/
def ex_run_waiter_pending : Sched :=
  (gtthread_cancel (ex_run_joining.mem 100) ex_run_joining).next_or ex_run_joining

/-- The state after the new thread has then called `gtthread_yield`. -/
def ex_run_waiter_cancelled : Sched :=
  (gtthread_yield ex_run_waiter_pending).next_or ex_run_waiter_pending

/-! ## Named steps -/

/-- The steps of `Step`, by name: the call made, with its arguments. -/
inductive Call where
  | yield
  | alarm
  | join (fuel : Nat) (thread : gtthread_t) (status : Option Nat)
  | join_resume (fuel : Nat) (self : Nat) (status : Option Nat)
  | exit (retval : Nat)
  | cancel (thread : gtthread_t)
  | start_routine_returns (func_result runner_thread : Nat)

/-- The state in which the process goes on after the step `c` made in state `s`; none when
the step cannot be made in `s` or the process does not go on. -/
def Call.next (c : Call) (s : Sched) : Option Sched :=
  match c with
  | .yield => (gtthread_yield s).next?
  | .alarm => if s.vtalrm_blocked = false then (alarm_handler s).next? else none
  | .join fuel thread status => (gtthread_join fuel thread status s).next?
  | .join_resume fuel self status =>
    if steque_front s.g_threads_steque = some self ∧ self ∈ s.g_join_steque then
      (gtthread_join_wait self status fuel s).next?
    else none
  | .exit retval => (gtthread_exit retval s).next?
  | .cancel thread => (gtthread_cancel thread s).next?
  | .start_routine_returns func_result runner_thread =>
    if steque_front s.g_threads_steque = some runner_thread then
      (apply func_result runner_thread s).next?
    else none

/-- The state after the initial thread has called `gtthread_create` a second time on the
record at 101, which is in the run queue. -/
def ex_reuse_created : Sched := (gtthread_create 101 ex_run_created).2

/-- The state after the initial thread has then called `gtthread_yield`: the thread of
the record at 101 runs. -/
def ex_reuse_yielded : Sched := (gtthread_yield ex_reuse_created).next_or ex_reuse_created

/-- The thread that runs after a call made by the thread `r`: the thread switched to when
the call ended in a context switch, and `r` itself otherwise. -/
def resumed_of (sw : Option (Nat × Nat)) (r : Nat) : Nat :=
  match sw with
  | some (_, new_thread) => new_thread
  | none => r

/-- The threads that the step `c`, made in state `s`, switches between, when it ends in a
context switch. -/
def Call.switch? (c : Call) (s : Sched) : Option (Nat × Nat) :=
  match c with
  | .yield => (gtthread_yield s).switch?
  | .alarm => (alarm_handler s).switch?
  | .join fuel thread status => (gtthread_join fuel thread status s).switch?
  | .join_resume fuel self status => (gtthread_join_wait self status fuel s).switch?
  | .exit retval => (gtthread_exit retval s).switch?
  | .cancel thread => (gtthread_cancel thread s).switch?
  | .start_routine_returns func_result runner_thread =>
    (apply func_result runner_thread s).switch?

/-- The thread that runs after the step `c`, made in state `s` by the thread `r`. -/
def Call.resumed (c : Call) (s : Sched) (r : Nat) : Nat := resumed_of (c.switch? s) r

/-- The states the process passes through from `s0`, where the thread `r0` runs, together
with the number of `gtthread_create` calls made on the way and the thread that runs.  The
thread that runs changes with the context switches only.  `ok s thread` says which records
a `gtthread_create` made in state `s` may be given. -/
inductive Runs (ok : Sched → Nat → Prop) (s0 : Sched) (r0 : Nat) : Nat → Sched → Nat → Prop
  | start : Runs ok s0 r0 0 s0 r0
  | create {n : Nat} {s : Sched} {r : Nat} (thread : Nat) : Runs ok s0 r0 n s r →
      ok s thread → Runs ok s0 r0 (n + 1) (gtthread_create thread s).2 r
  | call {n : Nat} {s s' : Sched} {r : Nat} (c : Call) : Runs ok s0 r0 n s r →
      c.next s = some s' → Runs ok s0 r0 n s' (c.resumed s r)

/-- Every record may be given to `gtthread_create`, as in the code. -/
def any_record : Sched → Nat → Prop := fun _ _ => True

/-- The record given to `gtthread_create` is in neither the run queue nor the dead queue. -/
def new_record : Sched → Nat → Prop :=
  fun s thread => thread ∉ s.g_threads_steque ∧ thread ∉ s.g_dead_threads_steque

/-- The record given to `gtthread_create` is not the record `t`. -/
def other_record (t : Nat) : Sched → Nat → Prop := fun _ thread => thread ≠ t

/-- The runs of `Runs` in which the thread `j` stays suspended: every step and every
`gtthread_create` is made while another thread runs. -/
inductive RunsAway (j : Nat) (ok : Sched → Nat → Prop) (s0 : Sched) (r0 : Nat) :
    Nat → Sched → Nat → Prop
  | start : RunsAway j ok s0 r0 0 s0 r0
  | create {n : Nat} {s : Sched} {r : Nat} (thread : Nat) : RunsAway j ok s0 r0 n s r →
      r ≠ j → ok s thread → RunsAway j ok s0 r0 (n + 1) (gtthread_create thread s).2 r
  | call {n : Nat} {s s' : Sched} {r : Nat} (c : Call) : RunsAway j ok s0 r0 n s r →
      r ≠ j → c.next s = some s' → RunsAway j ok s0 r0 n s' (c.resumed s r)

/-- Different records of the run queue and the dead queue bear different ids. -/
def IdsInj (s : Sched) : Prop :=
  ∀ p ∈ s.g_threads_steque ++ s.g_dead_threads_steque,
    ∀ q ∈ s.g_threads_steque ++ s.g_dead_threads_steque,
      (s.mem p).id = (s.mem q).id → p = q

/-- The ids of the records of the run queue and the dead queue are below the id counter. -/
def IdsBelow (s : Sched) : Prop :=
  ∀ p ∈ s.g_threads_steque ++ s.g_dead_threads_steque, (s.mem p).id < s.g_thread_id

/-- A finished record of the run queue is in the dead queue as well. -/
def FinInDead (s : Sched) : Prop :=
  ∀ p ∈ s.g_threads_steque, (s.mem p).is_finished ≠ 0 → p ∈ s.g_dead_threads_steque

/-- What a call made by the thread `a` leaves alone, from the state `s` in which it is made
to a state `s'` it passes through: the run queue gets no new record and the dead queue
loses none, the two queues together hold the records they held, no id is written, the
finished flag and the return value of a record outside the run queue are not written, and
of a record other than `a` the wait target is not written and the join state is written
only by a dispatch that marks the record as joined, with a joinee from the run queue that
bears the awaited id. -/
structure ActFrame (a : Nat) (s s' : Sched) : Prop where
  perm : (s'.g_threads_steque ++ s'.g_dead_threads_steque).Perm
    (s.g_threads_steque ++ s.g_dead_threads_steque)
  run_sub : ∀ p ∈ s'.g_threads_steque, p ∈ s.g_threads_steque
  dead_sub : ∀ p ∈ s.g_dead_threads_steque, p ∈ s'.g_dead_threads_steque
  next_id_eq : s'.g_thread_id = s.g_thread_id
  id_eq : ∀ p, (s'.mem p).id = (s.mem p).id
  result_kept : ∀ p, p ∉ s.g_threads_steque →
    (s'.mem p).retval = (s.mem p).retval ∧ (s'.mem p).is_finished = (s.mem p).is_finished
  wait_kept : ∀ p, p ≠ a → (s'.mem p).wait_tid = (s.mem p).wait_tid
  join_kept : ∀ p, p ≠ a →
    ((s'.mem p).is_joined = (s.mem p).is_joined ∧ (s'.mem p).joinee = (s.mem p).joinee) ∨
    ((s'.mem p).is_joined = 1 ∧ ∃ g ∈ s.g_threads_steque,
      (s'.mem p).joinee = some g ∧ (s.mem g).id = (s.mem p).wait_tid)

/-- A part of a call by the thread `a` that is no dispatch: the run queue and the id
counter are as they were, the dead queue holds the records it held, and only the record
`a` is written, in other fields than the id, the finished flag and the return value. -/
structure Quiet (a : Nat) (s s' : Sched) : Prop where
  run_eq : s'.g_threads_steque = s.g_threads_steque
  dead_perm : s'.g_dead_threads_steque.Perm s.g_dead_threads_steque
  next_id_eq : s'.g_thread_id = s.g_thread_id
  others : ∀ p, p ≠ a → s'.mem p = s.mem p
  id_eq : (s'.mem a).id = (s.mem a).id
  finished_eq : (s'.mem a).is_finished = (s.mem a).is_finished
  retval_eq : (s'.mem a).retval = (s.mem a).retval

/-- What a step made by the running thread `a` in state `s` does, when it ends with the
context switch `sw`, if any, and the process goes on in `s'`: it leaves alone what
`ActFrame` says, keeps the finished records of the run queue in the dead queue, and the
thread that runs afterwards is at the front of the run queue. -/
def StepFacts (a : Nat) (s : Sched) (sw : Option (Nat × Nat)) (s' : Sched) : Prop :=
  ActFrame a s s' ∧ (FinInDead s → FinInDead s') ∧
    steque_front s'.g_threads_steque = some (resumed_of sw a)

/-- The invariant of every run, whatever records `gtthread_create` is given, when the
thread `r` runs and `next_id` is the next id to issue: `r` is at the front of the run
queue, different records of the run queue and the dead queue bear different ids, all below
`next_id`, which is the id counter, and the finished records of the run queue are in the
dead queue as well. -/
def RunInv (next_id : Nat) (s : Sched) (r : Nat) : Prop :=
  steque_front s.g_threads_steque = some r ∧ IdsInj s ∧ IdsBelow s ∧
    s.g_thread_id = next_id ∧ FinInDead s

/-- The state after the initial thread has created a second thread, with the record
at 102. -/
def ex_three : Sched := (gtthread_create 102 ex_run_created).2

/-- The state after the initial thread has then called `gtthread_yield`: thread 1 runs. -/
def ex_three_yielded : Sched := (gtthread_yield ex_three).next_or ex_three

/-- The state after the initial thread, having created the thread with the record at 101,
has called `gtthread_exit` with a null argument: the created thread runs alone. -/
def ex_run_main_left : Sched := (gtthread_exit 0 ex_run_created).next_or ex_run_created

/-- The state after the thread of the record at 101, which the run queue holds twice, has
called `gtthread_exit` with the value 7 and the call has returned to it. -/
def ex_reuse_exit_returned : Sched :=
  (gtthread_exit 7 ex_reuse_yielded).next_or ex_reuse_yielded

/-- The state after that thread has then called `gtthread_exit` with the value 9: the
initial thread runs. -/
def ex_reuse_exit_left : Sched :=
  (gtthread_exit 9 ex_reuse_exit_returned).next_or ex_reuse_exit_returned

/-- The state after the initial thread, having created the thread with the record at 101,
has called `gtthread_join` on it with a status pointer and has been suspended in the
waiting loop: the created thread runs. -/
def ex_wait_joining : Sched :=
  (gtthread_join 1 (ex_run_created.mem 101) (some 7) ex_run_created).next_or ex_run_created

/-- The state after the start routine of the created thread has then returned 42: the
initial thread runs. -/
def ex_wait_returned : Sched := (apply 42 101 ex_wait_joining).next_or ex_wait_joining

/-- The state after the initial thread has gone on in its waiting loop and its
`gtthread_join` has returned. -/
def ex_wait_done : Sched :=
  (gtthread_join_wait 100 (some 7) 1 ex_wait_returned).next_or ex_wait_returned

/-- The state after thread 1, of the three threads, has called `gtthread_join` on thread 2
with a status pointer and has been suspended in the waiting loop: thread 2 runs. -/
def ex_lost_joining : Sched :=
  (gtthread_join 1 (ex_three_yielded.mem 102) (some 5) ex_three_yielded).next_or
    ex_three_yielded

/-- The state after the start routine of thread 2 has then returned 7: the initial thread
runs. -/
def ex_lost_returned : Sched := (apply 7 102 ex_lost_joining).next_or ex_lost_joining

/-- The state after the initial thread has called `gtthread_create` on the record at 102,
which is in the dead queue. -/
def ex_lost_recreated : Sched := (gtthread_create 102 ex_lost_returned).2

/-- The state after the initial thread has then called `gtthread_yield`: thread 1 goes on
in its waiting loop. -/
def ex_lost_resumed : Sched := (gtthread_yield ex_lost_recreated).next_or ex_lost_recreated

/-! # Theorems -/

/-! ## Join: the rejected calls -/

/-- C1. A join whose target id was never issued (`thread.id ≥ g_thread_id`) or is the id of
the caller (the record at the front of the run queue) returns 1; the state it leaves is the
state it found with `SIGVTALRM` unblocked, so that no queue and no thread record is changed,
and the value at `*status` is the one it was. -/
theorem gtthread_join_rejects_invalid (fuel : Nat) (thread : gtthread_t) (status : Option Nat)
    (s : Sched) (self : Nat) (rest : List Nat)
    (hrun : s.g_threads_steque = self :: rest)
    (hbad : thread.id ≥ s.g_thread_id ∨ thread.id = (s.mem self).id) :
    gtthread_join fuel thread status s = .returned (1, status) (sigprocmask_unblock s) ∧
      (sigprocmask_unblock s).g_threads_steque = s.g_threads_steque ∧
      (sigprocmask_unblock s).g_dead_threads_steque = s.g_dead_threads_steque ∧
      (sigprocmask_unblock s).g_join_steque = s.g_join_steque ∧
      (sigprocmask_unblock s).g_cancelatorium = s.g_cancelatorium ∧
      (sigprocmask_unblock s).g_thread_id = s.g_thread_id ∧
      (sigprocmask_unblock s).mem = s.mem := by
  refine ⟨?_, rfl, rfl, rfl, rfl, rfl, rfl⟩
  simp only [gtthread_join, sigprocmask_block, sigprocmask_unblock, hrun, steque_front]
  rw [if_pos hbad]

/-- The dead-queue scan of `gtthread_join` when no dead record has the awaited id: the
queue is cycled once round and comes back in its order. -/
theorem join_dead_loop_none (self : Nat) :
    ∀ (todo done : List Nat) (fuel i : Nat) (s : Sched),
      s.g_dead_threads_steque = todo ++ done → i = done.length → todo.length < fuel →
      (∀ p ∈ todo, (s.mem p).id ≠ (s.mem self).wait_tid) →
      join_dead_loop self fuel i s =
        .ok ({ s with
                g_dead_threads_steque := done ++ todo
                vtalrm_blocked := if todo = [] then s.vtalrm_blocked else false }, false) := by
  intro todo
  induction todo with
  | nil =>
    intro done fuel i s hq hi hf _
    obtain ⟨f, rfl⟩ : ∃ f, fuel = f + 1 := ⟨fuel - 1, by simp at hf; omega⟩
    simp only [List.nil_append] at hq
    subst hq
    simp [join_dead_loop, steque_size, hi]
  | cons x t ih =>
    intro done fuel i s hq hi hf hno
    obtain ⟨f, rfl⟩ : ∃ f, fuel = f + 1 := ⟨fuel - 1, by simp at hf; omega⟩
    have hx : (s.mem x).id ≠ (s.mem self).wait_tid := hno x (List.mem_cons_self _ _)
    have hlt : i < (x :: (t ++ done)).length := by simp [hi]; omega
    simp only [join_dead_loop, steque_size, hq, sigprocmask_block,
      sigprocmask_unblock, steque_front, List.cons_append, hx, if_false, steque_cycle]
    rw [if_pos hlt]
    refine (ih (done ++ [x]) f (i + 1) _ ?_ ?_ ?_ ?_).trans ?_
    · simp
    · simp [hi]
    · simp at hf; omega
    · exact fun p hp => hno p (List.mem_cons_of_mem _ hp)
    · simp

/-- The dead-queue scan of `gtthread_join` when a dead record has the awaited id: the
scan stops at the first such record `curr`, with the queue cycled up to it, and records
it as the caller's joinee. -/
theorem join_dead_loop_found (self : Nat) :
    ∀ (pre : List Nat) (curr : Nat) (post done : List Nat) (fuel i : Nat) (s : Sched),
      s.g_dead_threads_steque = pre ++ curr :: post ++ done → i = done.length →
      pre.length + 1 < fuel →
      (∀ p ∈ pre, (s.mem p).id ≠ (s.mem self).wait_tid) →
      (s.mem curr).id = (s.mem self).wait_tid →
      join_dead_loop self fuel i s =
        .ok ({ s with
                g_dead_threads_steque := curr :: post ++ done ++ pre
                vtalrm_blocked := false
                mem := Function.update s.mem self
                  { s.mem self with joinee := some curr, is_joined := 1 } }, true) := by
  intro pre
  induction pre with
  | nil =>
    intro curr post done fuel i s hq hi hf _ hc
    obtain ⟨f, rfl⟩ : ∃ f, fuel = f + 1 := ⟨fuel - 1, by simp at hf; omega⟩
    have hlt : i < (curr :: (post ++ done)).length := by simp [hi]; omega
    simp only [List.nil_append, List.cons_append] at hq
    simp only [join_dead_loop, steque_size, hq, sigprocmask_block, sigprocmask_unblock,
      steque_front, hc, if_true, store]
    rw [if_pos hlt]
    simp
  | cons x t ih =>
    intro curr post done fuel i s hq hi hf hno hc
    obtain ⟨f, rfl⟩ : ∃ f, fuel = f + 1 := ⟨fuel - 1, by simp at hf; omega⟩
    have hx : (s.mem x).id ≠ (s.mem self).wait_tid := hno x (List.mem_cons_self _ _)
    have hlt : i < (x :: (t ++ curr :: (post ++ done))).length := by simp [hi]; omega
    simp only [List.cons_append, List.append_assoc] at hq
    simp only [join_dead_loop, steque_size, hq, sigprocmask_block,
      sigprocmask_unblock, steque_front, hx, if_false, steque_cycle]
    rw [if_pos hlt]
    refine (ih curr post (done ++ [x]) f (i + 1) _ ?_ ?_ ?_ ?_ ?_).trans ?_
    · simp
    · simp [hi]
    · simp at hf; omega
    · exact fun p hp => hno p (List.mem_cons_of_mem _ hp)
    · exact hc
    · simp

/-- The mutual-join scan of `gtthread_join` when no waiter is the target waiting on the
caller: the join queue is cycled once round and comes back in its order. -/
theorem join_mutual_loop_none (self : Nat) :
    ∀ (todo done : List Nat) (fuel i : Nat) (s : Sched),
      s.g_join_steque = todo ++ done → i = done.length → todo.length < fuel →
      (∀ p ∈ todo, ¬ ((s.mem p).wait_tid = (s.mem self).id ∧
        (s.mem p).id = (s.mem self).wait_tid)) →
      join_mutual_loop self fuel i s =
        .ok ({ s with
                g_join_steque := done ++ todo
                vtalrm_blocked := if todo = [] then s.vtalrm_blocked else false }, false) := by
  intro todo
  induction todo with
  | nil =>
    intro done fuel i s hq hi hf _
    obtain ⟨f, rfl⟩ : ∃ f, fuel = f + 1 := ⟨fuel - 1, by simp at hf; omega⟩
    simp only [List.nil_append] at hq
    subst hq
    simp [join_mutual_loop, steque_size, hi]
  | cons x t ih =>
    intro done fuel i s hq hi hf hno
    obtain ⟨f, rfl⟩ : ∃ f, fuel = f + 1 := ⟨fuel - 1, by simp at hf; omega⟩
    have hx := hno x (List.mem_cons_self _ _)
    have hlt : i < (x :: (t ++ done)).length := by simp [hi]; omega
    simp only [join_mutual_loop, steque_size, hq, sigprocmask_block,
      sigprocmask_unblock, steque_front, List.cons_append, hx, if_false, steque_cycle]
    rw [if_pos hlt]
    refine (ih (done ++ [x]) f (i + 1) _ ?_ ?_ ?_ ?_).trans ?_
    · simp
    · simp [hi]
    · simp at hf; omega
    · exact fun p hp => hno p (List.mem_cons_of_mem _ hp)
    · simp

/-- The mutual-join scan of `gtthread_join` when the target waits on the caller: the scan
stops at the first such waiter, with the join queue cycled up to it, and clears the
caller's wait state. -/
theorem join_mutual_loop_found (self : Nat) :
    ∀ (pre : List Nat) (curr : Nat) (post done : List Nat) (fuel i : Nat) (s : Sched),
      s.g_join_steque = pre ++ curr :: post ++ done → i = done.length →
      pre.length + 1 < fuel →
      (∀ p ∈ pre, ¬ ((s.mem p).wait_tid = (s.mem self).id ∧
        (s.mem p).id = (s.mem self).wait_tid)) →
      ((s.mem curr).wait_tid = (s.mem self).id ∧ (s.mem curr).id = (s.mem self).wait_tid) →
      join_mutual_loop self fuel i s =
        .ok ({ s with
                g_join_steque := curr :: post ++ done ++ pre
                vtalrm_blocked := false
                mem := Function.update s.mem self
                  { s.mem self with is_joined := -1, wait_tid := NO_TID } }, true) := by
  intro pre
  induction pre with
  | nil =>
    intro curr post done fuel i s hq hi hf _ hc
    obtain ⟨f, rfl⟩ : ∃ f, fuel = f + 1 := ⟨fuel - 1, by simp at hf; omega⟩
    have hlt : i < (curr :: (post ++ done)).length := by simp [hi]; omega
    simp only [List.nil_append, List.cons_append] at hq
    simp only [join_mutual_loop, steque_size, hq, sigprocmask_block, sigprocmask_unblock,
      steque_front, hc, store]
    rw [if_pos hlt]
    simp
  | cons x t ih =>
    intro curr post done fuel i s hq hi hf hno hc
    obtain ⟨f, rfl⟩ : ∃ f, fuel = f + 1 := ⟨fuel - 1, by simp at hf; omega⟩
    have hx := hno x (List.mem_cons_self _ _)
    have hlt : i < (x :: (t ++ curr :: (post ++ done))).length := by simp [hi]; omega
    simp only [List.cons_append, List.append_assoc] at hq
    simp only [join_mutual_loop, steque_size, hq, sigprocmask_block,
      sigprocmask_unblock, steque_front, hx, if_false, steque_cycle]
    rw [if_pos hlt]
    refine (ih curr post (done ++ [x]) f (i + 1) _ ?_ ?_ ?_ ?_ ?_).trans ?_
    · simp
    · simp [hi]
    · simp at hf; omega
    · exact fun p hp => hno p (List.mem_cons_of_mem _ hp)
    · exact hc
    · simp

/-- A list in which some element satisfies `P` splits at the first such element. -/
theorem split_at_first {α : Type} (P : α → Prop) (l : List α) (h : ∃ a ∈ l, P a) :
    ∃ pre a post, l = pre ++ a :: post ∧ (∀ b ∈ pre, ¬ P b) ∧ P a := by
  induction l with
  | nil => simp at h
  | cons x t ih =>
    by_cases hx : P x
    · exact ⟨[], x, t, rfl, by simp, hx⟩
    · have ht : ∃ a ∈ t, P a := by
        obtain ⟨a, ha, hPa⟩ := h
        rcases List.mem_cons.mp ha with rfl | ha
        · exact absurd hPa hx
        · exact ⟨a, ha, hPa⟩
      obtain ⟨pre, a, post, rfl, hpre, ha⟩ := ih ht
      refine ⟨x :: pre, a, post, rfl, ?_, ha⟩
      intro b hb
      rcases List.mem_cons.mp hb with rfl | hb
      · exact hx
      · exact hpre b hb

/-- The state of `gtthread_join` when the scans begin: the caller waits on `tid`. -/
theorem gtthread_join_unfold (fuel : Nat) (thread : gtthread_t) (status : Option Nat)
    (s : Sched) (self : Nat) (rest : List Nat)
    (hrun : s.g_threads_steque = self :: rest)
    (hvalid : thread.id < s.g_thread_id) (hnotself : thread.id ≠ (s.mem self).id) :
    gtthread_join fuel thread status s =
      (let s6 : Sched := { s with
          vtalrm_blocked := true
          mem := Function.update s.mem self
            { s.mem self with is_joined := 0, wait_tid := thread.id } }
       match join_dead_loop self (steque_size s6.g_dead_threads_steque + 1) 0 s6 with
       | .error e => .err e
       | .ok (s7, found_among_dead) =>
         if !found_among_dead then
           match join_mutual_loop self (steque_size s7.g_join_steque + 1) 0 s7 with
           | .error e => .err e
           | .ok (s8, true) => .returned (1, status) s8
           | .ok (s8, false) =>
             let s9 := sigprocmask_block s8
             let s10 := { s9 with g_join_steque := steque_enqueue s9.g_join_steque self }
             gtthread_join_wait self status fuel (sigprocmask_unblock s10)
         else gtthread_join_finish self status true s7) := by
  have hbad : ¬ (thread.id ≥ s.g_thread_id ∨ thread.id = (s.mem self).id) := by
    rintro (h | h)
    · omega
    · exact hnotself h
  simp only [gtthread_join, sigprocmask_block, sigprocmask_unblock, hrun, steque_front, store]
  rw [if_neg hbad]
  simp

/-- C2. Mutual join.  When the target is valid, is not the caller, has no record in the
dead queue, and the join queue holds a record with the target's id that waits on the
caller, `gtthread_join` returns 1 without a dispatch: the caller's record ends with
`is_joined = -1` and `wait_tid = -1` and is otherwise as it was, the join queue is a
rotation of what it was (the caller is not enqueued), the other queues, the id counter
and every other record are unchanged, and `*status` is not written. -/
theorem gtthread_join_rejects_mutual (fuel : Nat) (thread : gtthread_t) (status : Option Nat)
    (s : Sched) (self : Nat) (rest : List Nat)
    (hrun : s.g_threads_steque = self :: rest)
    (hvalid : thread.id < s.g_thread_id) (hnotself : thread.id ≠ (s.mem self).id)
    (hnotdead : ∀ p ∈ s.g_dead_threads_steque, (s.mem p).id ≠ thread.id)
    (hmutual : ∃ p ∈ s.g_join_steque,
      (s.mem p).id = thread.id ∧ (s.mem p).wait_tid = (s.mem self).id) :
    ∃ (s' : Sched) (k : Nat),
      gtthread_join fuel thread status s = .returned (1, status) s' ∧
      s'.mem self = { s.mem self with is_joined := -1, wait_tid := NO_TID } ∧
      (∀ p, p ≠ self → s'.mem p = s.mem p) ∧
      s'.g_join_steque = s.g_join_steque.rotate k ∧
      s'.g_threads_steque = s.g_threads_steque ∧
      s'.g_dead_threads_steque = s.g_dead_threads_steque ∧
      s'.g_cancelatorium = s.g_cancelatorium ∧
      s'.g_thread_id = s.g_thread_id := by
  rw [gtthread_join_unfold fuel thread status s self rest hrun hvalid hnotself]
  have hid : ∀ p, ((Function.update s.mem self
      { s.mem self with is_joined := 0, wait_tid := thread.id }) p).id = (s.mem p).id := by
    intro p
    by_cases hp : p = self
    · subst hp; simp
    · simp [Function.update_noteq hp]
  have hmatch : ∃ p ∈ s.g_join_steque,
      ((Function.update s.mem self { s.mem self with is_joined := 0, wait_tid := thread.id }) p).wait_tid
          = ((Function.update s.mem self
              { s.mem self with is_joined := 0, wait_tid := thread.id }) self).id ∧
        ((Function.update s.mem self { s.mem self with is_joined := 0, wait_tid := thread.id }) p).id
          = ((Function.update s.mem self
              { s.mem self with is_joined := 0, wait_tid := thread.id }) self).wait_tid := by
    obtain ⟨p, hp, hpid, hpw⟩ := hmutual
    have hne : p ≠ self := by
      rintro rfl
      exact hnotself hpid.symm
    exact ⟨p, hp, by simp [Function.update_noteq hne, hpw], by simp [Function.update_noteq hne, hpid]⟩
  obtain ⟨pre, curr, post, hsplit, hpre, hcurr⟩ := split_at_first _ _ hmatch
  simp only
  rw [join_dead_loop_none self s.g_dead_threads_steque [] _ 0 _ (by simp) rfl
    (by simp [steque_size]) (by
      intro p hp
      simp only [hid, Function.update_same]
      exact hnotdead p hp)]
  simp only [Bool.not_false, if_true, List.nil_append]
  rw [join_mutual_loop_found self pre curr post [] _ 0 _ (by simp [hsplit]) rfl
    (by simp [steque_size, hsplit]) hpre hcurr]
  refine ⟨_, pre.length, rfl, ?_, ?_, ?_, rfl, rfl, rfl, rfl⟩
  · simp
  · intro p hp
    simp [Function.update_noteq hp]
  · simp [hsplit, List.rotate_append_length_eq]

/-- The join on a target whose first record in the dead queue is `curr`: the value the
call returns and the state it leaves. -/
theorem gtthread_join_dead_eq (fuel : Nat) (thread : gtthread_t) (status : Option Nat)
    (s : Sched) (self : Nat) (rest pre : List Nat) (curr : Nat) (post : List Nat)
    (hrun : s.g_threads_steque = self :: rest)
    (hvalid : thread.id < s.g_thread_id) (hnotself : thread.id ≠ (s.mem self).id)
    (hsplit : s.g_dead_threads_steque = pre ++ curr :: post)
    (hpre : ∀ p ∈ pre, ¬ (s.mem p).id = thread.id) (hcurr : (s.mem curr).id = thread.id) :
    gtthread_join fuel thread status s =
      .returned (0, status.map (fun _ => (s.mem curr).retval))
        { s with
            g_dead_threads_steque := curr :: post ++ pre
            vtalrm_blocked := false
            mem := Function.update s.mem self
              { s.mem self with is_joined := -1, wait_tid := NO_TID, joinee := none } } := by
  have hne : curr ≠ self := by
    rintro rfl
    exact hnotself hcurr.symm
  have hid : ∀ p, ((Function.update s.mem self
      { s.mem self with is_joined := 0, wait_tid := thread.id }) p).id = (s.mem p).id := by
    intro p
    by_cases hp : p = self
    · subst hp; simp
    · simp [Function.update_noteq hp]
  rw [gtthread_join_unfold fuel thread status s self rest hrun hvalid hnotself]
  simp only
  rw [join_dead_loop_found self pre curr post [] _ 0 _ (by simp [hsplit]) rfl
    (by simp [steque_size, hsplit]) (by
      intro p hp
      simp only [hid, Function.update_same]
      exact hpre p hp) (by simp only [hid, Function.update_same]; exact hcurr)]
  simp only [Bool.not_true, gtthread_join_finish, Function.update_same, store,
    sigprocmask_block, sigprocmask_unblock]
  cases status <;> simp [Function.update_noteq hne]

/-- C3. Join on a dead target.  When the target is valid, is not the caller, and a record
with its id is in the dead queue, `gtthread_join` returns 0 without a dispatch.  With
`curr` the first such record of the dead queue: a supplied `*status` receives the `retval`
of `curr`; the caller's record ends with `wait_tid = -1`, `joinee = NULL` and
`is_joined = -1` and is otherwise as it was; the join queue and the run queue are
unchanged (the caller is never enqueued); the dead queue is a rotation of what it was, so
it holds the same records; the cancel queue, the id counter and every other record are
unchanged. -/
theorem gtthread_join_dead_target (fuel : Nat) (thread : gtthread_t) (status : Option Nat)
    (s : Sched) (self : Nat) (rest : List Nat)
    (hrun : s.g_threads_steque = self :: rest)
    (hvalid : thread.id < s.g_thread_id) (hnotself : thread.id ≠ (s.mem self).id)
    (hdead : ∃ p ∈ s.g_dead_threads_steque, (s.mem p).id = thread.id) :
    ∃ (s' : Sched) (pre : List Nat) (curr : Nat) (post : List Nat),
      s.g_dead_threads_steque = pre ++ curr :: post ∧
      (∀ p ∈ pre, (s.mem p).id ≠ thread.id) ∧ (s.mem curr).id = thread.id ∧
      gtthread_join fuel thread status s =
        .returned (0, status.map (fun _ => (s.mem curr).retval)) s' ∧
      s'.mem self = { s.mem self with is_joined := -1, wait_tid := NO_TID, joinee := none } ∧
      (∀ p, p ≠ self → s'.mem p = s.mem p) ∧
      s'.g_join_steque = s.g_join_steque ∧
      s'.g_threads_steque = s.g_threads_steque ∧
      s'.g_dead_threads_steque = s.g_dead_threads_steque.rotate pre.length ∧
      s'.g_cancelatorium = s.g_cancelatorium ∧
      s'.g_thread_id = s.g_thread_id := by
  obtain ⟨pre, curr, post, hsplit, hpre, hcurr⟩ :=
    split_at_first (fun p => (s.mem p).id = thread.id) _ hdead
  have hj := gtthread_join_dead_eq fuel thread status s self rest pre curr post hrun hvalid
    hnotself hsplit hpre hcurr
  refine ⟨_, pre, curr, post, hsplit, hpre, hcurr, hj, ?_, ?_, rfl, rfl, ?_, rfl, rfl⟩
  · simp
  · intro p hp
    simp [Function.update_noteq hp]
  · simp [hsplit, List.rotate_append_length_eq]

/-- C1 at a concrete input: the initial thread joins its own handle. -/
theorem gtthread_join_rejects_invalid_witness :
    gtthread_join 0 (fresh_record 0) none ex_single =
      .returned (1, none) (sigprocmask_unblock ex_single) :=
  (gtthread_join_rejects_invalid 0 (fresh_record 0) none ex_single 100 [] rfl (Or.inr rfl)).1

/-- C2 at a concrete input: thread 0 joins thread 1, which already waits on thread 0. -/
theorem gtthread_join_rejects_mutual_witness :
    ∃ s' : Sched, gtthread_join 0 (fresh_record 1) (some 7) ex_mutual = .returned (1, some 7) s' ∧
      (s'.mem 100).is_joined = -1 ∧ s'.g_join_steque = [101] := by
  obtain ⟨s', k, h, hself, _, hq, _⟩ :=
    gtthread_join_rejects_mutual 0 (fresh_record 1) (some 7) ex_mutual 100 [101] rfl
      (by decide) (by decide) (by simp [ex_mutual]) ⟨101, by simp [ex_mutual], rfl, rfl⟩
  refine ⟨s', h, by rw [hself], ?_⟩
  rw [hq]
  simp [ex_mutual]

/-- C3 at a concrete input: thread 0 joins thread 1, which is dead with the value 42. -/
theorem gtthread_join_dead_target_witness :
    ∃ s' : Sched, gtthread_join 0 (fresh_record 1) (some 7) ex_dead = .returned (0, some 42) s' ∧
      (s'.mem 100).is_joined = -1 ∧ s'.g_join_steque = [] := by
  obtain ⟨s', pre, curr, post, hsplit, _, _, h, hself, _, hq, _⟩ :=
    gtthread_join_dead_target 0 (fresh_record 1) (some 7) ex_dead 100 [] rfl
      (by decide) (by decide) ⟨101, by simp [ex_dead], rfl⟩
  have hc : curr = 101 := by
    have hmem : curr ∈ ex_dead.g_dead_threads_steque := by
      rw [hsplit]
      simp
    simpa [ex_dead] using hmem
  subst hc
  exact ⟨s', h, by rw [hself], hq⟩

/-! ## Mutex -/

/-- C9. `gtthread_mutex_unlock`, called by the thread at the front of the run queue,
returns 1 or 0.  It returns 1 exactly when the mutex has no waiters queue, or the waiters
queue is empty, or `locker_id = -1`, or the caller's id is not at the front of the waiters
queue; then the mutex is unchanged.  When it returns 0 the front of the waiters queue has
been removed, the remaining waiters keep their order, and `locker_id` is -1. -/
theorem gtthread_mutex_unlock_spec (s : Sched) (mutex : gtthread_mutex_t) (self : Nat)
    (rest : List Nat) (hrun : s.g_threads_steque = self :: rest) :
    ∃ (r : Int) (m' : gtthread_mutex_t),
      gtthread_mutex_unlock s mutex = .ok (r, m') ∧
      (r = 1 ∨ r = 0) ∧
      (r = 1 ↔ (mutex.waiting_steque = none ∨ mutex.waiting_steque = some [] ∨
        mutex.locker_id = -1 ∨
        ∀ q, mutex.waiting_steque = some q → steque_front q ≠ some (s.mem self).id)) ∧
      (r = 1 → m' = mutex) ∧
      (r = 0 → ∃ front q1, mutex.waiting_steque = some (front :: q1) ∧
        front = (s.mem self).id ∧ mutex.locker_id ≠ -1 ∧
        m' = { waiting_steque := some q1, locker_id := -1 }) := by
  obtain ⟨w, l⟩ := mutex
  cases w with
  | none => exact ⟨1, _, rfl, by simp, by simp, by simp, by simp⟩
  | some q =>
    cases q with
    | nil => exact ⟨1, _, rfl, by simp, by simp, by simp, by simp⟩
    | cons front q1 =>
      by_cases hl : l = -1
      · refine ⟨1, ⟨some (front :: q1), l⟩, ?_, by simp, by simp [hl], by simp, by simp⟩
        simp [gtthread_mutex_unlock, steque_size, hl]
      · by_cases hf : (s.mem self).id = front
        · refine ⟨0, ⟨some q1, -1⟩, ?_, by simp, ?_, by simp, ?_⟩
          · simp [gtthread_mutex_unlock, steque_size, hl, gtthread_self, steque_front, hrun, hf,
              steque_pop]
          · simp [hl, steque_front, hf]
          · intro _
            exact ⟨front, q1, rfl, hf.symm, hl, rfl⟩
        · refine ⟨1, ⟨some (front :: q1), l⟩, ?_, by simp, ?_, by simp, by simp⟩
          · simp [gtthread_mutex_unlock, steque_size, hl, gtthread_self, steque_front, hrun, hf]
          · simp only [true_iff]
            right; right; right
            intro q hq
            simp only [Option.some.injEq] at hq
            subst hq
            simp only [steque_front, ne_eq, Option.some.injEq]
            exact fun h => hf h.symm

/-- C9 at concrete inputs: thread 0 holds the mutex and unlocks it. -/
theorem gtthread_mutex_unlock_spec_witness :
    ∃ (r : Int) (m' : gtthread_mutex_t),
      gtthread_mutex_unlock ex_single ex_mutex_held = .ok (r, m') ∧ r = 0 ∧
        m' = { waiting_steque := some [1], locker_id := -1 } := by
  obtain ⟨r, m', h, hr, hiff, _, h0⟩ := gtthread_mutex_unlock_spec ex_single ex_mutex_held 100 [] rfl
  have hr0 : r = 0 := by
    rcases hr with h1 | h0
    · exfalso
      rcases hiff.mp h1 with h | h | h | h
      · simp [ex_mutex_held] at h
      · simp [ex_mutex_held] at h
      · simp [ex_mutex_held] at h
      · exact h [0, 1] rfl rfl
    · exact h0
  obtain ⟨front, q1, hq, _, _, hm⟩ := h0 hr0
  simp only [ex_mutex_held, Option.some.injEq, List.cons.injEq] at hq
  obtain ⟨_, rfl⟩ := hq
  exact ⟨r, m', h, hr0, hm⟩

/-- An id below `2 ^ 63` stored in `locker_id` is not -1. -/
theorem long_of_ulong_ne_neg_one (x : Nat) (hx : x < 2 ^ 63) : long_of_ulong x ≠ -1 := by
  unfold long_of_ulong
  have h1 : x % 2 ^ 64 = x := Nat.mod_eq_of_lt (by omega)
  rw [h1, if_pos hx]
  omega

/-- The spin loop claims the lock only when it is free and the caller is the front waiter. -/
theorem gtthread_mutex_lock_spin_claims (curr_id : Nat) (m m' : gtthread_mutex_t)
    (h : gtthread_mutex_lock_spin curr_id m = .ok (some m')) :
    m.locker_id = -1 ∧ (∃ q, m.waiting_steque = some (curr_id :: q)) ∧
      m' = { m with locker_id := long_of_ulong curr_id } := by
  obtain ⟨w, l⟩ := m
  unfold gtthread_mutex_lock_spin at h
  by_cases hl : l = -1
  · subst hl
    cases w with
    | none => simp at h
    | some q =>
      cases q with
      | nil => simp [steque_front] at h
      | cons f q1 =>
        by_cases hf : f = curr_id
        · subst hf
          simp [steque_front] at h
          exact ⟨rfl, ⟨q1, rfl⟩, h.symm⟩
        · simp [steque_front, hf] at h
  · simp [hl] at h

/-- Every step keeps the invariant of mutex histories. -/
theorem mutex_step_inv (h : MutexRun) (st : MutexStep) (hinv : MutexInv h)
    (hid : ∀ id, st = .lock_spin id → id < 2 ^ 63) : MutexInv (mutex_step h st) := by
  obtain ⟨served, q, hw, he, hcase⟩ := hinv
  cases st with
  | lock_enter s =>
    simp only [mutex_step, gtthread_mutex_lock_enter, hw]
    cases hs : gtthread_self s with
    | none => exact ⟨served, q, hw, he, hcase⟩
    | some curr =>
      refine ⟨served, q ++ [curr.id], rfl, by simp [he, steque_enqueue], ?_⟩
      rcases hcase with ⟨hl, hg⟩ | ⟨hl, f, q1, hq, hg⟩
      · exact Or.inl ⟨hl, hg⟩
      · exact Or.inr ⟨hl, f, q1 ++ [curr.id], by simp [hq], hg⟩
  | lock_spin id =>
    simp only [mutex_step]
    cases hsp : gtthread_mutex_lock_spin id h.mutex with
    | error e => exact ⟨served, q, hw, he, hcase⟩
    | ok r =>
      cases r with
      | none => exact ⟨served, q, hw, he, hcase⟩
      | some m =>
        obtain ⟨hl, ⟨q1, hq⟩, hm⟩ := gtthread_mutex_lock_spin_claims id h.mutex m hsp
        rcases hcase with ⟨_, hg⟩ | ⟨hl', _⟩
        · have hqq : q = id :: q1 := by
            rw [hw] at hq
            exact Option.some.inj hq
          refine ⟨served, q, by simp [hm, hw], he, Or.inr ⟨?_, id, q1, hqq, by simp [hg]⟩⟩
          simp only [hm]
          exact long_of_ulong_ne_neg_one id (hid id rfl)
        · exact absurd hl hl'
  | unlock s =>
    simp only [mutex_step]
    cases hu : gtthread_mutex_unlock s h.mutex with
    | error e => exact ⟨served, q, hw, he, hcase⟩
    | ok r =>
      obtain ⟨r, m⟩ := r
      unfold gtthread_mutex_unlock at hu
      simp only [hw] at hu
      cases q with
      | nil =>
        simp [steque_size] at hu
        refine ⟨served, [], by rw [← hu.2]; exact hw, he, ?_⟩
        rw [← hu.2]
        exact hcase
      | cons f q1 =>
        by_cases hl : h.mutex.locker_id = -1
        · simp [steque_size, hl] at hu
          refine ⟨served, f :: q1, by rw [← hu.2]; exact hw, he, ?_⟩
          rw [← hu.2]
          exact hcase
        · cases hs : gtthread_self s with
          | none => simp [steque_size, hl, hs] at hu
          | some curr =>
            by_cases hc : curr.id = f
            · simp [steque_size, hl, hs, steque_front, hc, steque_pop] at hu
              rcases hcase with ⟨hl', _⟩ | ⟨_, f', q1', hq, hg⟩
              · exact absurd hl' hl
              · simp only [List.cons.injEq] at hq
                obtain ⟨rfl, rfl⟩ := hq
                refine ⟨served ++ [f], q1, by simp [← hu.2], by simp [he], Or.inl ⟨by simp [← hu.2], hg⟩⟩
            · simp [steque_size, hl, hs, steque_front, hc] at hu
              refine ⟨served, f :: q1, by rw [← hu.2]; exact hw, he, ?_⟩
              rw [← hu.2]
              exact hcase

/-- The invariant of mutex histories holds along every sequence of steps. -/
theorem mutex_foldl_inv (steps : List MutexStep) :
    ∀ h : MutexRun, MutexInv h → (∀ id, MutexStep.lock_spin id ∈ steps → id < 2 ^ 63) →
      MutexInv (steps.foldl mutex_step h) := by
  induction steps with
  | nil => intro h hinv _; exact hinv
  | cons st t ih =>
    intro h hinv hid
    simp only [List.foldl_cons]
    refine ih _ (mutex_step_inv h st hinv ?_) ?_
    · intro id hst
      exact hid id (by rw [hst]; exact List.mem_cons_self _ _)
    · intro id hmem
      exact hid id (List.mem_cons_of_mem _ hmem)

/-- C10. Mutex grants are FIFO.  From an initialised mutex, along every sequence of lock
entries, spin-loop evaluations and unlock calls by threads whose ids are below `2 ^ 63`
(ids come from the `long` counter), the sequence of ids that acquired the lock is an
initial segment of the sequence of ids that lock entries appended to the waiters queue.
And no lock is stolen: whenever the spin loop claims the lock, `locker_id` was -1 and the
claiming id was at the front of the waiters queue. -/
theorem mutex_grants_fifo (steps : List MutexStep)
    (hid : ∀ id, MutexStep.lock_spin id ∈ steps → id < 2 ^ 63) :
    (mutex_run steps).grants <+: (mutex_run steps).entries ∧
      ∀ (curr_id : Nat) (m m' : gtthread_mutex_t),
        gtthread_mutex_lock_spin curr_id m = .ok (some m') →
        m.locker_id = -1 ∧ (∃ q, m.waiting_steque = some (curr_id :: q)) ∧
          m' = { m with locker_id := long_of_ulong curr_id } := by
  refine ⟨?_, gtthread_mutex_lock_spin_claims⟩
  have hinv : MutexInv (mutex_run steps) :=
    mutex_foldl_inv steps _ ⟨[], [], rfl, rfl, Or.inl ⟨rfl, rfl⟩⟩ hid
  obtain ⟨served, q, _, he, hcase⟩ := hinv
  rcases hcase with ⟨_, hg⟩ | ⟨_, f, q1, hq, hg⟩
  · exact ⟨q, by rw [hg, he]⟩
  · exact ⟨q1, by rw [hg, he, hq]; simp⟩

/-- C10 at a concrete input: two threads take the lock in the order of their entries. -/
theorem mutex_grants_fifo_witness :
    (mutex_run ex_lock_steps).entries = [0, 1] ∧ (mutex_run ex_lock_steps).grants = [0, 1] ∧
      (mutex_run ex_lock_steps).grants <+: (mutex_run ex_lock_steps).entries :=
  ⟨by decide, by decide, (mutex_grants_fifo ex_lock_steps (by
    intro id hmem
    simp only [ex_lock_steps, List.mem_cons, List.mem_singleton, MutexStep.lock_spin.injEq,
      reduceCtorEq, false_or, or_false, List.not_mem_nil] at hmem
    rcases hmem with rfl | rfl | rfl <;> norm_num)).1⟩

/-! ## The wakeup loop -/

/-- The loop of `joininator` visits the waiters still to come and leaves the queue cycled
back into its order. -/
theorem joininator_loop_eq (joinee : Nat) :
    ∀ (todo done : List Nat) (fuel i : Nat) (s : Sched),
      s.g_join_steque = todo ++ done → i = done.length → todo.length < fuel →
      joininator_loop joinee fuel i s =
        .ok { s with g_join_steque := done ++ todo, mem := join_marks joinee todo s.mem } := by
  intro todo
  induction todo with
  | nil =>
    intro done fuel i s hq hi hf
    obtain ⟨f, rfl⟩ : ∃ f, fuel = f + 1 := ⟨fuel - 1, by simp at hf; omega⟩
    simp only [List.nil_append] at hq
    subst hq
    simp [joininator_loop, steque_size, hi, join_marks]
  | cons x t ih =>
    intro done fuel i s hq hi hf
    obtain ⟨f, rfl⟩ : ∃ f, fuel = f + 1 := ⟨fuel - 1, by simp at hf; omega⟩
    have hlt : i < (x :: (t ++ done)).length := by simp [hi]; omega
    simp only [List.cons_append] at hq
    simp only [joininator_loop, steque_size, hq, steque_front]
    rw [if_pos hlt]
    refine (ih (done ++ [x]) f (i + 1) _ ?_ ?_ ?_).trans ?_
    · by_cases hc : (s.mem x).wait_tid = (s.mem joinee).id <;>
        simp [hc, store, hq, steque_cycle]
    · simp [hi]
    · simp at hf; omega
    · by_cases hc : (s.mem x).wait_tid = (s.mem joinee).id <;>
        simp [hc, store, join_marks]

/-- `joininator` returns, with the join queue in its order and the waiters of `joinee` marked. -/
theorem joininator_eq (joinee : Nat) (s : Sched) :
    joininator joinee s = .ok { s with mem := join_marks joinee s.g_join_steque s.mem } := by
  unfold joininator
  rw [joininator_loop_eq joinee s.g_join_steque [] _ 0 s (by simp) rfl (by simp [steque_size])]
  simp

/-- The marks of `joininator` leave the id, the finished flag, the return value and the
awaited id of every record as they are. -/
theorem join_marks_frame (joinee : Nat) :
    ∀ (q : List Nat) (m : Nat → gtthread_t) (p : Nat),
      (join_marks joinee q m p).id = (m p).id ∧
      (join_marks joinee q m p).is_finished = (m p).is_finished ∧
      (join_marks joinee q m p).retval = (m p).retval ∧
      (join_marks joinee q m p).wait_tid = (m p).wait_tid := by
  intro q
  induction q with
  | nil => intro m p; simp [join_marks]
  | cons x t ih =>
    intro m p
    simp only [join_marks]
    by_cases hc : (m x).wait_tid = (m joinee).id
    · rw [if_pos hc]
      obtain ⟨h1, h2, h3, h4⟩ := ih (Function.update m x { m x with is_joined := 1, joinee := some joinee }) p
      rw [h1, h2, h3, h4]
      by_cases hp : p = x
      · subst hp; simp
      · simp [Function.update_noteq hp]
    · rw [if_neg hc]
      exact ih m p

/-- The marks of `joininator` in closed form: exactly the waiters in the queue whose
`wait_tid` is the id of `joinee` get `is_joined = 1` and `joinee` set; every other record
is unchanged. -/
theorem join_marks_apply (joinee : Nat) :
    ∀ (q : List Nat) (m : Nat → gtthread_t) (p : Nat),
      join_marks joinee q m p =
        if p ∈ q ∧ (m p).wait_tid = (m joinee).id then
          { m p with is_joined := 1, joinee := some joinee }
        else m p := by
  intro q
  induction q with
  | nil => intro m p; simp [join_marks]
  | cons x t ih =>
    intro m p
    simp only [join_marks]
    by_cases hc : (m x).wait_tid = (m joinee).id
    · rw [if_pos hc, ih]
      have hj : ((Function.update m x { m x with is_joined := 1, joinee := some joinee }) joinee).id
          = (m joinee).id := by
        by_cases hjx : joinee = x
        · subst hjx; simp
        · simp [Function.update_noteq hjx]
      by_cases hp : p = x
      · subst hp
        simp [hc, hj]
      · simp [Function.update_noteq hp, hj, hp]
    · rw [if_neg hc, ih]
      by_cases hp : p = x
      · subst hp
        simp [hc]
      · simp [hp]

/-! ## The cancel sweep -/

/-- The scan of the cancel queue when no entry is the id of `new_thread`: the queue is
cycled once round and nothing else happens. -/
theorem cancel_scan_miss (new_thread : Nat) :
    ∀ (todo done : List Nat) (fuel i : Nat) (s : Sched),
      s.g_cancelatorium = todo ++ done → i = done.length → todo.length < fuel →
      (∀ c ∈ todo, c ≠ (s.mem new_thread).id) →
      cancel_scan new_thread fuel i s =
        .ok ({ s with g_cancelatorium := done ++ todo }, false) := by
  intro todo
  induction todo with
  | nil =>
    intro done fuel i s hq hi hf _
    obtain ⟨f, rfl⟩ : ∃ f, fuel = f + 1 := ⟨fuel - 1, by simp at hf; omega⟩
    simp only [List.nil_append] at hq
    subst hq
    simp [cancel_scan, steque_size, hi]
  | cons x t ih =>
    intro done fuel i s hq hi hf hno
    obtain ⟨f, rfl⟩ : ∃ f, fuel = f + 1 := ⟨fuel - 1, by simp at hf; omega⟩
    have hx : x ≠ (s.mem new_thread).id := hno x (List.mem_cons_self _ _)
    have hlt : i < (x :: (t ++ done)).length := by simp [hi]; omega
    have hpos : 0 < (x :: (t ++ done)).length := by simp
    simp only [List.cons_append] at hq
    simp only [cancel_scan, steque_size, hq, steque_front, hx, if_false, steque_cycle]
    rw [if_pos hlt, if_pos hpos]
    refine (ih (done ++ [x]) f (i + 1) _ ?_ ?_ ?_ ?_).trans ?_
    · simp
    · simp [hi]
    · simp at hf; omega
    · exact fun c hc => hno c (List.mem_cons_of_mem _ hc)
    · simp

/-- The scan of the cancel queue when an entry is the id of `new_thread`, the head of the
run queue: the first such entry is consumed (the entries before it go to the tail), the
thread is marked finished with the cancelled value, leaves the run queue, is appended to
the dead queue, and its waiters are marked. -/
theorem cancel_scan_hit (new_thread : Nat) :
    ∀ (pre : List Nat) (y : Nat) (post done : List Nat) (fuel i : Nat) (s : Sched)
      (h : Nat) (rq : List Nat),
      s.g_cancelatorium = pre ++ y :: post ++ done → i = done.length →
      pre.length + 1 < fuel →
      (∀ c ∈ pre, c ≠ (s.mem new_thread).id) → y = (s.mem new_thread).id →
      s.g_threads_steque = h :: rq →
      cancel_scan new_thread fuel i s =
        .ok ({ s with
                g_cancelatorium := post ++ done ++ pre
                g_threads_steque := rq
                g_dead_threads_steque := s.g_dead_threads_steque ++ [new_thread]
                mem := join_marks new_thread s.g_join_steque
                  (Function.update s.mem new_thread
                    { s.mem new_thread with is_finished := 1, retval := CANCELED }) }, true) := by
  intro pre
  induction pre with
  | nil =>
    intro y post done fuel i s h rq hq hi hf _ hy hrun
    obtain ⟨f, rfl⟩ : ∃ f, fuel = f + 1 := ⟨fuel - 1, by simp at hf; omega⟩
    have hlt : i < (y :: (post ++ done)).length := by simp [hi]; omega
    simp only [List.nil_append, List.cons_append] at hq
    simp only [cancel_scan, steque_size, hq, steque_front, store, steque_pop, hrun,
      steque_enqueue, joininator_eq]
    rw [if_pos hlt, if_pos hy]
    simp
  | cons x t ih =>
    intro y post done fuel i s h rq hq hi hf hno hy hrun
    obtain ⟨f, rfl⟩ : ∃ f, fuel = f + 1 := ⟨fuel - 1, by simp at hf; omega⟩
    have hx : x ≠ (s.mem new_thread).id := hno x (List.mem_cons_self _ _)
    have hlt : i < (x :: (t ++ y :: (post ++ done))).length := by simp [hi]; omega
    have hpos : 0 < (x :: (t ++ y :: (post ++ done))).length := by simp
    simp only [List.cons_append, List.append_assoc] at hq
    simp only [cancel_scan, steque_size, hq, steque_front, hx, if_false, steque_cycle]
    rw [if_pos hlt, if_pos hpos]
    refine (ih y post (done ++ [x]) f (i + 1) _ h rq ?_ ?_ ?_ ?_ ?_ ?_).trans ?_
    · simp
    · simp [hi]
    · simp at hf; omega
    · exact fun c hc => hno c (List.mem_cons_of_mem _ hc)
    · exact hy
    · exact hrun
    · simp

/-- The scan from the start of the cancel queue, nothing pending for `new_thread`. -/
theorem cancel_scan_top_miss (new_thread : Nat) (s : Sched)
    (hno : (s.mem new_thread).id ∉ s.g_cancelatorium) :
    cancel_scan new_thread (steque_size s.g_cancelatorium + 1) 0 s = .ok (s, false) := by
  rw [cancel_scan_miss new_thread s.g_cancelatorium [] _ 0 s (by simp) rfl
    (by simp [steque_size]) (fun c hc h => hno (h ▸ hc))]
  simp

/-- The scan from the start of the cancel queue, a cancel pending for the head `new_thread`. -/
theorem cancel_scan_top_hit (new_thread : Nat) (s : Sched) (pre post rq : List Nat) (h : Nat)
    (hq : s.g_cancelatorium = pre ++ (s.mem new_thread).id :: post)
    (hpre : (s.mem new_thread).id ∉ pre) (hrun : s.g_threads_steque = h :: rq) :
    cancel_scan new_thread (steque_size s.g_cancelatorium + 1) 0 s =
      .ok (cancel_head s new_thread (post ++ pre) rq, true) := by
  rw [cancel_scan_hit new_thread pre _ post [] _ 0 s h rq (by simp [hq]) rfl
    (by simp [steque_size, hq]) (fun c hc h => hpre (h ▸ hc)) rfl hrun]
  simp [cancel_head]

/-- The sweep on an empty run queue does nothing. -/
theorem cancel_sweep_nil (fuel : Nat) (s : Sched) (nt : Option Nat)
    (hrun : s.g_threads_steque = []) : cancel_sweep (fuel + 1) s nt = .ok (s, nt) := by
  simp [cancel_sweep, steque_size, hrun]

/-- The sweep stops at a head for which no cancel is pending. -/
theorem cancel_sweep_miss (fuel : Nat) (s : Sched) (nt : Option Nat) (h : Nat) (rq : List Nat)
    (hrun : s.g_threads_steque = h :: rq) (hno : (s.mem h).id ∉ s.g_cancelatorium) :
    cancel_sweep (fuel + 1) s nt = .ok (s, some h) := by
  unfold cancel_sweep
  simp only [hrun, steque_front]
  rw [if_pos (by simp [steque_size]), cancel_scan_top_miss h s hno]
  simp

/-- The sweep cancels a head for which a cancel is pending and goes on. -/
theorem cancel_sweep_hit (fuel : Nat) (s : Sched) (nt : Option Nat) (h : Nat)
    (rq pre post : List Nat) (hrun : s.g_threads_steque = h :: rq)
    (hq : s.g_cancelatorium = pre ++ (s.mem h).id :: post) (hpre : (s.mem h).id ∉ pre) :
    cancel_sweep (fuel + 1) s nt =
      cancel_sweep fuel (cancel_head s h (post ++ pre) rq) (some h) := by
  conv_lhs => rw [cancel_sweep]
  simp only [hrun, steque_front]
  rw [if_pos (by simp [steque_size]), cancel_scan_top_hit h s pre post rq h hq hpre hrun]
  simp

/-- The records after one cancellation by the sweep. -/
theorem cancel_head_mem (s : Sched) (nt : Nat) (cq rq : List Nat) (p : Nat) :
    ((cancel_head s nt cq rq).mem p).id = (s.mem p).id ∧
    ((cancel_head s nt cq rq).mem p).wait_tid = (s.mem p).wait_tid ∧
    (p = nt → ((cancel_head s nt cq rq).mem p).is_finished = 1 ∧
      ((cancel_head s nt cq rq).mem p).retval = CANCELED) ∧
    (p ≠ nt → ((cancel_head s nt cq rq).mem p).is_finished = (s.mem p).is_finished ∧
      ((cancel_head s nt cq rq).mem p).retval = (s.mem p).retval) := by
  obtain ⟨h1, h2, h3, h4⟩ := join_marks_frame nt s.g_join_steque
    (Function.update s.mem nt { s.mem nt with is_finished := 1, retval := CANCELED }) p
  simp only [cancel_head]
  rw [h1, h2, h3, h4]
  by_cases hp : p = nt
  · subst hp
    simp
  · simp [Function.update_noteq hp, hp]

/-- The cancel sweep returns when its budget exceeds the length of the run queue, and
`SweepFrame` describes what it did; the local `new_thread` ends as the head of the run
queue when the sweep leaves one. -/
theorem cancel_sweep_frame :
    ∀ (fuel : Nat) (s : Sched) (nt0 : Option Nat), s.g_threads_steque.length < fuel →
      ∃ (s' : Sched) (nt : Option Nat) (gone : List Nat),
        cancel_sweep fuel s nt0 = .ok (s', nt) ∧ SweepFrame s s' gone ∧
        (s.g_threads_steque = [] → nt = nt0) ∧
        (∀ h rq, s'.g_threads_steque = h :: rq → nt = some h) := by
  intro fuel
  induction fuel with
  | zero => intro s nt0 h; omega
  | succ f ih =>
    intro s nt0 hlen
    cases hrun : s.g_threads_steque with
    | nil =>
      refine ⟨s, nt0, [], cancel_sweep_nil f s nt0 hrun, ?_, fun _ => rfl, ?_⟩
      · exact
          { run_eq := by simp
            dead_eq := by simp
            join_eq := rfl
            next_id_eq := rfl
            mask_eq := rfl
            id_eq := fun _ => rfl
            wait_tid_eq := fun _ => rfl
            gone_marked := by simp
            others_kept := fun _ _ => ⟨rfl, rfl⟩
            cancel_perm := by simp
            stops := by intro h rq hh; rw [hrun] at hh; cases hh }
      · intro h rq hh
        rw [hrun] at hh
        cases hh
    | cons h rq =>
      by_cases hmem : (s.mem h).id ∈ s.g_cancelatorium
      · obtain ⟨pre, y, post, hq, hpre, hy⟩ :=
          split_at_first (fun c => c = (s.mem h).id) s.g_cancelatorium ⟨_, hmem, rfl⟩
        subst hy
        have hpre' : (s.mem h).id ∉ pre := fun hin => hpre _ hin rfl
        have hlen1 : (cancel_head s h (post ++ pre) rq).g_threads_steque.length < f := by
          simp only [cancel_head]
          rw [hrun] at hlen
          simp at hlen
          omega
        obtain ⟨s', nt, gone, hsw, hfr, _, hnt⟩ :=
          ih (cancel_head s h (post ++ pre) rq) (some h) hlen1
        refine ⟨s', nt, h :: gone, ?_, ?_, ?_, hnt⟩
        · rw [cancel_sweep_hit f s nt0 h rq pre post hrun hq hpre', hsw]
        · exact
            { run_eq := by
                have := hfr.run_eq
                simp only [cancel_head] at this
                rw [hrun, List.cons_append, ← this]
              dead_eq := by
                have := hfr.dead_eq
                simp only [cancel_head] at this
                simp [this]
              join_eq := hfr.join_eq
              next_id_eq := hfr.next_id_eq
              mask_eq := hfr.mask_eq
              id_eq := fun p => (hfr.id_eq p).trans (cancel_head_mem s h _ _ p).1
              wait_tid_eq := fun p => (hfr.wait_tid_eq p).trans (cancel_head_mem s h _ _ p).2.1
              gone_marked := by
                intro p hp
                by_cases hpg : p ∈ gone
                · exact hfr.gone_marked p hpg
                · have hph : p = h := by
                    rcases List.mem_cons.mp hp with h1 | h1
                    · exact h1
                    · exact absurd h1 hpg
                  obtain ⟨k1, k2⟩ := hfr.others_kept p hpg
                  obtain ⟨m1, m2⟩ := (cancel_head_mem s h (post ++ pre) rq p).2.2.1 hph
                  exact ⟨k1.trans m1, k2.trans m2⟩
              others_kept := by
                intro p hp
                have hph : p ≠ h := fun e => hp (e ▸ List.mem_cons_self _ _)
                have hpg : p ∉ gone := fun e => hp (List.mem_cons_of_mem _ e)
                obtain ⟨k1, k2⟩ := hfr.others_kept p hpg
                obtain ⟨m1, m2⟩ := (cancel_head_mem s h (post ++ pre) rq p).2.2.2 hph
                exact ⟨k1.trans m1, k2.trans m2⟩
              cancel_perm := by
                have hp1 := hfr.cancel_perm
                have hids : (fun p => ((cancel_head s h (post ++ pre) rq).mem p).id)
                    = (fun p => (s.mem p).id) := by
                  funext p
                  exact (cancel_head_mem s h _ _ p).1
                rw [hids] at hp1
                have hp2 : (post ++ pre).Perm
                    (List.map (fun p => (s.mem p).id) gone ++ s'.g_cancelatorium) := by
                  simpa [cancel_head] using hp1
                rw [hq]
                have hp3 : (pre ++ (s.mem h).id :: post).Perm ((s.mem h).id :: (post ++ pre)) := by
                  refine List.perm_middle.trans (List.Perm.cons _ List.perm_append_comm)
                simpa using hp3.trans (List.Perm.cons _ hp2)
              stops := by
                intro h' rq' hh
                have := hfr.stops h' rq' hh
                rwa [(cancel_head_mem s h _ _ h').1] at this }
        · intro hnil
          cases hnil
      · refine ⟨s, some h, [], cancel_sweep_miss f s nt0 h rq hrun hmem, ?_, ?_, ?_⟩
        · exact
            { run_eq := by simp
              dead_eq := by simp
              join_eq := rfl
              next_id_eq := rfl
              mask_eq := rfl
              id_eq := fun _ => rfl
              wait_tid_eq := fun _ => rfl
              gone_marked := by simp
              others_kept := fun _ _ => ⟨rfl, rfl⟩
              cancel_perm := by simp
              stops := by
                intro h' rq' hh
                rw [hrun] at hh
                cases hh
                exact hmem }
        · intro hnil
          cases hnil
        · intro h' rq' hh
          rw [hrun] at hh
          cases hh
          rfl

/-! ## Dispatch -/

/-- A dispatch with a single thread in the run queue returns at once; a cooperative
caller has blocked the signal by then. -/
theorem yield_helper_single (is_alarm_safe : Bool) (s : Sched) (old : Nat)
    (hrun : s.g_threads_steque = [old]) :
    yield_helper is_alarm_safe s =
      .returned () (if is_alarm_safe then sigprocmask_block s else s) := by
  cases is_alarm_safe <;> simp [yield_helper, sigprocmask_block, steque_size, hrun]

/-- A dispatch with at least two threads in the run queue pops the caller, runs the sweep
with the signal blocked, and ends as `dispatch_tail` says. -/
theorem yield_helper_eq (is_alarm_safe : Bool) (s : Sched) (old h : Nat) (rq : List Nat)
    (hrun : s.g_threads_steque = old :: h :: rq) :
    yield_helper is_alarm_safe s =
      match cancel_sweep (steque_size (h :: rq) + 1)
          { s with g_threads_steque := h :: rq, vtalrm_blocked := true } none with
      | .error e => .err e
      | .ok (s3, new_thread) => dispatch_tail is_alarm_safe old new_thread s3 := by
  cases is_alarm_safe <;>
    simp [yield_helper, dispatch_tail, sigprocmask_block, steque_size, hrun, steque_pop]

/-- The end of a dispatch in closed form: the process exits when no thread is runnable; the
call returns when the front of the run queue has the id of the popped thread; otherwise the
dispatch switches to the local `new_thread` with the signal unblocked. -/
theorem dispatch_tail_eq (is_alarm_safe : Bool) (old : Nat) (nt : Option Nat) (s3 : Sched) :
    dispatch_tail is_alarm_safe old nt s3 =
      match (dispatch_moved old s3).g_threads_steque with
      | [] =>
        .exited 0 (if is_alarm_safe then dispatch_moved old s3
          else sigprocmask_unblock (dispatch_moved old s3))
      | front :: _ =>
        if ((dispatch_moved old s3).mem front).id = ((dispatch_moved old s3).mem old).id then
          .returned () (if is_alarm_safe then dispatch_moved old s3
            else sigprocmask_unblock (dispatch_moved old s3))
        else
          match nt with
          | none => .err .nullptr
          | some n => .switched (sigprocmask_unblock (dispatch_moved old s3)) old n := by
  unfold dispatch_tail dispatch_moved
  by_cases hfin : (s3.mem old).is_finished ≠ 0
  · simp only [hfin, if_true, ne_eq, not_false_eq_true, joininator_eq, steque_enqueue]
    cases hq : s3.g_threads_steque with
    | nil => cases is_alarm_safe <;> simp [steque_size, sigprocmask_unblock, hq]
    | cons f rq =>
      cases is_alarm_safe <;> cases nt <;>
        simp [steque_size, sigprocmask_unblock, hq, steque_front, gtthread_equal]
  · simp only [hfin, if_false, steque_enqueue]
    cases hq : s3.g_threads_steque with
    | nil =>
      cases is_alarm_safe <;> cases nt <;>
        simp [steque_size, sigprocmask_unblock, hq, steque_front, gtthread_equal]
    | cons f rq =>
      cases is_alarm_safe <;> cases nt <;>
        simp [steque_size, sigprocmask_unblock, hq, steque_front, gtthread_equal]

/-- A dispatch with at least two threads in the run queue: the sweep returns, framed by
`SweepFrame`, and the dispatch ends as `dispatch_tail` says. -/
theorem yield_helper_frame (is_alarm_safe : Bool) (s : Sched) (old h : Nat) (rq : List Nat)
    (hrun : s.g_threads_steque = old :: h :: rq) :
    ∃ (s3 : Sched) (nt : Option Nat) (gone : List Nat),
      SweepFrame { s with g_threads_steque := h :: rq, vtalrm_blocked := true } s3 gone ∧
      (∀ f rq', s3.g_threads_steque = f :: rq' → nt = some f) ∧
      yield_helper is_alarm_safe s = dispatch_tail is_alarm_safe old nt s3 := by
  obtain ⟨s3, nt, gone, hsw, hfr, _, hnt⟩ :=
    cancel_sweep_frame (steque_size (h :: rq) + 1)
      { s with g_threads_steque := h :: rq, vtalrm_blocked := true } none
      (by simp [steque_size])
  refine ⟨s3, nt, gone, hfr, hnt, ?_⟩
  rw [yield_helper_eq is_alarm_safe s old h rq hrun, hsw]

/-- `gtthread_exit` with other threads in the run queue: the caller is marked finished,
keeps its return value unless the argument is not null, and a cooperative dispatch follows. -/
theorem gtthread_exit_eq (retval : Nat) (s : Sched) (caller h : Nat) (rq : List Nat)
    (hrun : s.g_threads_steque = caller :: h :: rq) :
    gtthread_exit retval s =
      yield_helper true
        { s with
            vtalrm_blocked := false
            mem := Function.update s.mem caller
              { s.mem caller with
                  is_finished := 1
                  retval := if retval ≠ NULL then retval else (s.mem caller).retval } } := by
  by_cases hv : retval ≠ NULL <;>
    simp [gtthread_exit, sigprocmask_block, sigprocmask_unblock, hrun, steque_front, store, hv,
      steque_size, alarm_safe_yield]

/-- The walk of `gtthread_exit` over the dead queue returns. -/
theorem exit_reap_ok : ∀ (num : Nat) (s : Sched), (s.g_dead_threads_steque = [] → num = 0) →
    ∃ s', exit_reap num s = .ok s' := by
  intro num
  induction num with
  | zero => intro s _; exact ⟨s, rfl⟩
  | succ n ih =>
    intro s hs
    cases hq : s.g_dead_threads_steque with
    | nil => exact absurd (hs hq) (by simp)
    | cons x t =>
      simp only [exit_reap, hq, steque_front]
      apply ih
      intro hnil
      exfalso
      by_cases h1 : 1 < steque_size (x :: t)
      · rw [if_pos h1] at hnil
        cases t with
        | nil => simp [steque_size] at h1
        | cons y t' => simp [steque_cycle] at hnil
      · rw [if_neg h1] at hnil
        rw [hq] at hnil
        cases hnil

/-- The dispatch issued by a finished thread `old` whose id no other runnable thread has:
the sweep cancels the threads `gone`; then `old` goes to the dead queue behind them with
its return value intact and its waiters marked, and the dispatch either exits the process
(no thread is left) or switches to the new front of the run queue, never back to `old`. -/
theorem dispatch_of_finished (is_alarm_safe : Bool) (s : Sched) (old h : Nat) (rq : List Nat)
    (hrun : s.g_threads_steque = old :: h :: rq)
    (hfin : (s.mem old).is_finished = 1)
    (hids : ∀ p ∈ h :: rq, (s.mem p).id ≠ (s.mem old).id) :
    ∃ (s' : Sched) (gone : List Nat),
      ((yield_helper is_alarm_safe s = .exited 0 s' ∧ gone = h :: rq ∧
          s'.g_threads_steque = []) ∨
        (∃ f rq', h :: rq = gone ++ f :: rq' ∧
          yield_helper is_alarm_safe s = .switched s' old f ∧
          s'.g_threads_steque = f :: rq' ∧ s'.vtalrm_blocked = false)) ∧
      s'.g_dead_threads_steque = s.g_dead_threads_steque ++ gone ++ [old] ∧
      s'.g_join_steque = s.g_join_steque ∧ s'.g_thread_id = s.g_thread_id ∧
      (∀ p, (s'.mem p).id = (s.mem p).id ∧ (s'.mem p).wait_tid = (s.mem p).wait_tid) ∧
      (s'.mem old).retval = (s.mem old).retval ∧ (s'.mem old).is_finished = 1 ∧
      (∀ p ∈ gone, (s'.mem p).is_finished = 1 ∧ (s'.mem p).retval = CANCELED) ∧
      (∀ p, p ∉ gone → (s'.mem p).is_finished = (s.mem p).is_finished ∧
        (s'.mem p).retval = (s.mem p).retval) ∧
      (∀ j ∈ s.g_join_steque, (s.mem j).wait_tid = (s.mem old).id →
        (s'.mem j).is_joined = 1 ∧ (s'.mem j).joinee = some old) ∧
      (∀ p ∈ gone, (s.mem p).id ∈ s.g_cancelatorium) := by
  obtain ⟨s3, nt, gone, hfr, hnt, hy⟩ := yield_helper_frame is_alarm_safe s old h rq hrun
  have hrun3 : h :: rq = gone ++ s3.g_threads_steque := hfr.run_eq
  have hgone_sub : ∀ p ∈ gone, p ∈ h :: rq := by
    intro p hp
    rw [hrun3]
    exact List.mem_append_left _ hp
  have hold : old ∉ gone := fun hin => hids old (hgone_sub old hin) rfl
  have hfin3 : (s3.mem old).is_finished = 1 := ((hfr.others_kept old hold).1).trans hfin
  have hmoved : dispatch_moved old s3 =
      { s3 with
          g_dead_threads_steque := s3.g_dead_threads_steque ++ [old]
          mem := join_marks old s3.g_join_steque s3.mem } := by
    simp [dispatch_moved, hfin3]
  have hmem : ∀ p, ((dispatch_moved old s3).mem p).id = (s.mem p).id ∧
      ((dispatch_moved old s3).mem p).wait_tid = (s.mem p).wait_tid ∧
      ((dispatch_moved old s3).mem p).is_finished = (s3.mem p).is_finished ∧
      ((dispatch_moved old s3).mem p).retval = (s3.mem p).retval := by
    intro p
    obtain ⟨h1, h2, h3, h4⟩ := join_marks_frame old s3.g_join_steque s3.mem p
    rw [hmoved]
    exact ⟨h1.trans (hfr.id_eq p), h4.trans (hfr.wait_tid_eq p), h2, h3⟩
  have hcommon : ∀ s' : Sched, s'.mem = (dispatch_moved old s3).mem →
      s'.g_dead_threads_steque = (dispatch_moved old s3).g_dead_threads_steque →
      s'.g_join_steque = (dispatch_moved old s3).g_join_steque →
      s'.g_thread_id = (dispatch_moved old s3).g_thread_id →
      s'.g_dead_threads_steque = s.g_dead_threads_steque ++ gone ++ [old] ∧
      s'.g_join_steque = s.g_join_steque ∧ s'.g_thread_id = s.g_thread_id ∧
      (∀ p, (s'.mem p).id = (s.mem p).id ∧ (s'.mem p).wait_tid = (s.mem p).wait_tid) ∧
      (s'.mem old).retval = (s.mem old).retval ∧ (s'.mem old).is_finished = 1 ∧
      (∀ p ∈ gone, (s'.mem p).is_finished = 1 ∧ (s'.mem p).retval = CANCELED) ∧
      (∀ p, p ∉ gone → (s'.mem p).is_finished = (s.mem p).is_finished ∧
        (s'.mem p).retval = (s.mem p).retval) ∧
      (∀ j ∈ s.g_join_steque, (s.mem j).wait_tid = (s.mem old).id →
        (s'.mem j).is_joined = 1 ∧ (s'.mem j).joinee = some old) ∧
      (∀ p ∈ gone, (s.mem p).id ∈ s.g_cancelatorium) := by
    intro s' e1 e2 e3 e4
    refine ⟨?_, ?_, ?_, ?_, ?_, ?_, ?_, ?_, ?_, ?_⟩
    · rw [e2, hmoved]
      simp only
      rw [hfr.dead_eq]
    · rw [e3, hmoved]
      exact hfr.join_eq
    · rw [e4, hmoved]
      exact hfr.next_id_eq
    · intro p
      rw [e1]
      exact ⟨(hmem p).1, (hmem p).2.1⟩
    · rw [e1, (hmem old).2.2.2]
      exact (hfr.others_kept old hold).2
    · rw [e1, (hmem old).2.2.1]
      exact hfin3
    · intro p hp
      rw [e1, (hmem p).2.2.1, (hmem p).2.2.2]
      exact hfr.gone_marked p hp
    · intro p hp
      rw [e1, (hmem p).2.2.1, (hmem p).2.2.2]
      exact hfr.others_kept p hp
    · intro j hj hw
      rw [e1, hmoved]
      simp only
      rw [join_marks_apply]
      have hj3 : j ∈ s3.g_join_steque := by rw [hfr.join_eq]; exact hj
      have hw3 : (s3.mem j).wait_tid = (s3.mem old).id := by
        rw [hfr.wait_tid_eq, hfr.id_eq]
        exact hw
      rw [if_pos ⟨hj3, hw3⟩]
      exact ⟨rfl, rfl⟩
    · intro p hp
      have := hfr.cancel_perm
      refine this.symm.subset ?_
      simp only [List.mem_append, List.mem_map]
      exact Or.inl ⟨p, hp, rfl⟩
  rw [hy, dispatch_tail_eq]
  cases hq3 : s3.g_threads_steque with
  | nil =>
    have hrq : (dispatch_moved old s3).g_threads_steque = [] := by rw [hmoved]; exact hq3
    rw [hrq]
    refine ⟨_, gone, Or.inl ⟨rfl, ?_, ?_⟩, ?_⟩
    · rw [hrun3, hq3]; simp
    · cases is_alarm_safe <;> simp [sigprocmask_unblock, hrq]
    · apply hcommon <;> cases is_alarm_safe <;> simp [sigprocmask_unblock]
  | cons f rq' =>
    have hrq : (dispatch_moved old s3).g_threads_steque = f :: rq' := by rw [hmoved]; exact hq3
    have hf : f ∈ h :: rq := by
      rw [hrun3, hq3]
      exact List.mem_append_right _ (List.mem_cons_self _ _)
    have hne : ¬ ((dispatch_moved old s3).mem f).id = ((dispatch_moved old s3).mem old).id := by
      rw [(hmem f).1, (hmem old).1]
      exact hids f hf
    rw [hrq]
    simp only [hne, if_false, hnt f rq' hq3]
    refine ⟨_, gone, Or.inr ⟨f, rq', ?_, rfl, ?_, ?_⟩, ?_⟩
    · rw [hrun3, hq3]
    · simp [sigprocmask_unblock, hrq]
    · simp [sigprocmask_unblock]
    · apply hcommon <;> simp [sigprocmask_unblock]

/-! ## Exit -/

/-- The records as `gtthread_exit` leaves them before its dispatch: only the finished flag
and the return value of the caller are written. -/
theorem exit_marked_mem (retval : Nat) (s : Sched) (caller p : Nat) :
    ((exit_marked retval s caller).mem p).id = (s.mem p).id ∧
    ((exit_marked retval s caller).mem p).wait_tid = (s.mem p).wait_tid ∧
    (p ≠ caller → (exit_marked retval s caller).mem p = s.mem p) ∧
    ((exit_marked retval s caller).mem caller).is_finished = 1 ∧
    ((exit_marked retval s caller).mem caller).retval =
      if retval ≠ NULL then retval else (s.mem caller).retval := by
  by_cases hp : p = caller
  · subst hp; simp [exit_marked]
  · simp [exit_marked, Function.update_noteq hp, hp]

/-- `gtthread_exit` with other threads in the run queue is a cooperative dispatch from the
state `exit_marked`. -/
theorem gtthread_exit_eq_marked (retval : Nat) (s : Sched) (caller h : Nat) (rq : List Nat)
    (hrun : s.g_threads_steque = caller :: h :: rq) :
    gtthread_exit retval s = yield_helper true (exit_marked retval s caller) := by
  rw [gtthread_exit_eq retval s caller h rq hrun]
  rfl

/-- `gtthread_exit` by the only thread of the run queue exits the process with status 0. -/
theorem gtthread_exit_alone (retval : Nat) (s : Sched) (caller : Nat)
    (hrun : s.g_threads_steque = [caller]) : ∃ s', gtthread_exit retval s = .exited 0 s' := by
  have key : ∀ S3 : Sched, S3.g_threads_steque = [caller] →
      ∃ s', (if steque_size S3.g_threads_steque = 1 then
          match exit_reap (steque_size S3.g_dead_threads_steque) S3 with
          | .error e => (Outcome.err e : Outcome Unit)
          | .ok s4 =>
            .exited 0 { s4 with
              g_threads_steque := steque_destroy s4.g_threads_steque
              g_dead_threads_steque := steque_destroy s4.g_dead_threads_steque
              g_cancelatorium := steque_destroy s4.g_cancelatorium
              g_join_steque := steque_destroy s4.g_join_steque }
        else alarm_safe_yield (sigprocmask_unblock S3)) = .exited 0 s' := by
    intro S3 h3
    obtain ⟨s4, h4⟩ := exit_reap_ok (steque_size S3.g_dead_threads_steque) S3
      (by intro h; simp [steque_size, h])
    rw [if_pos (by simp [steque_size, h3]), h4]
    exact ⟨_, rfl⟩
  simp only [gtthread_exit, sigprocmask_block, hrun, steque_front]
  apply key
  by_cases hv : retval ≠ NULL <;> simp [hv, store]

/-- The loop of `gtthread_join` that takes the caller out of the join queue returns and
writes to the join queue and the signal mask only. -/
theorem join_remove_loop_ok (self : Nat) :
    ∀ (todo done : List Nat) (fuel i : Nat) (s : Sched),
      s.g_join_steque = todo ++ done → i = done.length → todo.length < fuel →
      ∃ s', join_remove_loop self fuel i s = .ok s' ∧ s'.mem = s.mem ∧
        s'.g_threads_steque = s.g_threads_steque ∧
        s'.g_dead_threads_steque = s.g_dead_threads_steque ∧
        s'.g_cancelatorium = s.g_cancelatorium ∧ s'.g_thread_id = s.g_thread_id := by
  intro todo
  induction todo with
  | nil =>
    intro done fuel i s hq hi hf
    obtain ⟨f, rfl⟩ : ∃ f, fuel = f + 1 := ⟨fuel - 1, by simp at hf; omega⟩
    simp only [List.nil_append] at hq
    refine ⟨s, ?_, rfl, rfl, rfl, rfl, rfl⟩
    simp [join_remove_loop, steque_size, hq, hi]
  | cons x t ih =>
    intro done fuel i s hq hi hf
    obtain ⟨f, rfl⟩ : ∃ f, fuel = f + 1 := ⟨fuel - 1, by simp at hf; omega⟩
    have hlt : i < (x :: (t ++ done)).length := by simp [hi]; omega
    have hpos : 0 < (x :: (t ++ done)).length := by simp
    simp only [List.cons_append] at hq
    simp only [join_remove_loop, steque_size, hq, sigprocmask_block, sigprocmask_unblock,
      steque_front, steque_pop, steque_cycle]
    rw [if_pos hlt]
    by_cases he : gtthread_equal (s.mem self) (s.mem x) = true
    · rw [if_pos he]
      exact ⟨_, rfl, rfl, rfl, rfl, rfl, rfl⟩
    · rw [if_neg he, if_pos hpos]
      obtain ⟨s', h1, h2, h3, h4, h5, h6⟩ := ih (done ++ [x]) f (i + 1)
        { s with g_join_steque := t ++ done ++ [x], vtalrm_blocked := false }
        (by simp) (by simp [hi]) (by simp at hf; omega)
      exact ⟨s', h1, h2, h3, h4, h5, h6⟩

/-- A thread resumed in the waiting loop of `gtthread_join` after its target `t` has been
recorded as its joinee leaves the loop, reads the return value of `t` into `*status`, and
returns 0. -/
theorem gtthread_join_wait_done (fuel : Nat) (s : Sched) (self t x : Nat)
    (hj : (s.mem self).is_joined ≠ 0) (hjoinee : (s.mem self).joinee = some t) :
    ∃ s', gtthread_join_wait self (some x) (fuel + 1) s = .returned (0, some (s.mem t).retval) s' := by
  simp only [gtthread_join_wait, hj, if_false, gtthread_join_finish, hjoinee, Bool.not_false,
    if_true]
  obtain ⟨s6, h6, _⟩ := join_remove_loop_ok self
    (sigprocmask_unblock (store (store (store (sigprocmask_block s) self
      (fun t => { t with joinee := none })) self (fun t => { t with wait_tid := NO_TID })) self
      (fun t => { t with is_joined := -1 }))).g_join_steque [] _ 0
    (sigprocmask_unblock (store (store (store (sigprocmask_block s) self
      (fun t => { t with joinee := none })) self (fun t => { t with wait_tid := NO_TID })) self
      (fun t => { t with is_joined := -1 })))
    (by simp) rfl (Nat.lt_succ_self _)
  simp only [steque_size]
  rw [h6]
  exact ⟨s6, rfl⟩

/-- `gtthread_exit` by a thread `t` that is not alone in the run queue and whose id no
other runnable thread has: the record of `t` is in the dead queue when the dispatch ends,
finished, with the value passed (or, for a null argument, the value it held), every
waiter of `t` in the join queue is marked with `t` as its joinee, and no wait target is
written. -/
theorem gtthread_exit_reaches_dead (r : Nat) (s : Sched) (t h : Nat) (rq : List Nat)
    (hrun : s.g_threads_steque = t :: h :: rq)
    (hids : ∀ p ∈ h :: rq, (s.mem p).id ≠ (s.mem t).id) :
    ∃ s', (gtthread_exit r s = .exited 0 s' ∨ ∃ f, gtthread_exit r s = .switched s' t f) ∧
      t ∈ s'.g_dead_threads_steque ∧
      (s'.mem t).retval = (if r ≠ NULL then r else (s.mem t).retval) ∧
      (s'.mem t).is_finished = 1 ∧ (s'.mem t).id = (s.mem t).id ∧
      (∀ j ∈ s.g_join_steque, (s.mem j).wait_tid = (s.mem t).id →
        (s'.mem j).is_joined = 1 ∧ (s'.mem j).joinee = some t) ∧
      (∀ p, (s'.mem p).wait_tid = (s.mem p).wait_tid) := by
  rw [gtthread_exit_eq_marked r s t h rq hrun]
  obtain ⟨s', gone, hout, hdead, _, _, hid', hret, hfin, _, _, hwait, _⟩ :=
    dispatch_of_finished true (exit_marked r s t) t h rq hrun
      (exit_marked_mem r s t t).2.2.2.1
      (by
        intro p hp
        rw [(exit_marked_mem r s t p).1, (exit_marked_mem r s t t).1]
        exact hids p hp)
  refine ⟨s', ?_, ?_, ?_, hfin, ?_, ?_, fun p => ((hid' p).2).trans (exit_marked_mem r s t p).2.1⟩
  · rcases hout with ⟨hy, _, _⟩ | ⟨f, _, _, hy, _, _⟩
    · exact Or.inl hy
    · exact Or.inr ⟨f, hy⟩
  · rw [hdead]
    simp
  · rw [hret]
    exact (exit_marked_mem r s t t).2.2.2.2
  · rw [(hid' t).1]
    exact (exit_marked_mem r s t t).1
  · intro j hj hw
    refine hwait j hj ?_
    rw [(exit_marked_mem r s t j).2.1, (exit_marked_mem r s t t).1]
    exact hw

/-! ## Idempotence of cancellation -/

/-- Putting the popped thread where it belongs keeps the cancel queue and the ids, and
leaves in the run queue only threads that were there, or the popped thread. -/
theorem dispatch_moved_facts (old : Nat) (s : Sched) :
    (dispatch_moved old s).g_cancelatorium = s.g_cancelatorium ∧
    (∀ p, ((dispatch_moved old s).mem p).id = (s.mem p).id) ∧
    ((dispatch_moved old s).g_threads_steque = s.g_threads_steque ∨
      (dispatch_moved old s).g_threads_steque = s.g_threads_steque ++ [old]) := by
  unfold dispatch_moved
  by_cases h : (s.mem old).is_finished ≠ 0
  · rw [if_pos h]
    exact ⟨rfl, fun p => (join_marks_frame old s.g_join_steque s.mem p).1, Or.inl rfl⟩
  · rw [if_neg h]
    exact ⟨rfl, fun _ => rfl, Or.inr rfl⟩

/-- Putting the popped thread where it belongs does not touch the signal mask. -/
theorem dispatch_moved_mask (old : Nat) (s : Sched) :
    (dispatch_moved old s).vtalrm_blocked = s.vtalrm_blocked := by
  unfold dispatch_moved
  by_cases h : (s.mem old).is_finished ≠ 0 <;> simp [h]

/-- `gtthread_cancel` on a handle whose id is not the caller's. -/
theorem gtthread_cancel_other (thread : gtthread_t) (s : Sched) (self : Nat) (rest : List Nat)
    (hrun : s.g_threads_steque = self :: rest) (hne : thread.id ≠ (s.mem self).id) :
    gtthread_cancel thread s =
      .returned 0 (with_cancel s (s.g_cancelatorium ++ [thread.id])) := by
  simp [gtthread_cancel, gtthread_self, steque_front, hrun, gtthread_equal, hne, with_cancel,
    steque_enqueue]

/-- `gtthread_cancel` on a handle with the caller's id: the id is appended and a
cooperative dispatch follows; the call returns 0 when the dispatch returns. -/
theorem gtthread_cancel_self (thread : gtthread_t) (s : Sched) (self : Nat) (rest : List Nat)
    (hrun : s.g_threads_steque = self :: rest) (he : thread.id = (s.mem self).id) :
    gtthread_cancel thread s =
      (yield_helper true (with_cancel s (s.g_cancelatorium ++ [thread.id]))).andThen
        (fun _ s2 => .returned 0 s2) := by
  simp [gtthread_cancel, gtthread_self, steque_front, hrun, gtthread_equal, he, with_cancel,
    steque_enqueue, alarm_safe_yield]

/-- C6, as amended.  For the thread at the front of the run queue: `gtthread_cancel` on a
handle whose id is not the caller's (issued or not, alive or dead) returns 0, appends the
id at the tail of the cancel queue and changes nothing else, with no dispatch.  On a
handle with the caller's id it appends the id at the tail of the cancel queue and then
makes a cooperative dispatch from that state, whose outcome decides how the call ends.
No outcome of the call is a return with a value other than 0. -/
theorem gtthread_cancel_spec (thread : gtthread_t) (s : Sched) (self : Nat) (rest : List Nat)
    (hrun : s.g_threads_steque = self :: rest) :
    (thread.id ≠ (s.mem self).id →
      gtthread_cancel thread s = .returned 0 (with_cancel s (s.g_cancelatorium ++ [thread.id]))) ∧
    (thread.id = (s.mem self).id →
      gtthread_cancel thread s =
        (yield_helper true (with_cancel s (s.g_cancelatorium ++ [thread.id]))).andThen
          (fun _ s2 => .returned 0 s2)) ∧
    (∀ r s', gtthread_cancel thread s = .returned r s' → r = 0) := by
  refine ⟨gtthread_cancel_other thread s self rest hrun,
    gtthread_cancel_self thread s self rest hrun, ?_⟩
  intro r s' h
  by_cases he : thread.id = (s.mem self).id
  · rw [gtthread_cancel_self thread s self rest hrun he] at h
    cases hy : yield_helper true (with_cancel s (s.g_cancelatorium ++ [thread.id])) <;>
      rw [hy] at h <;> simp only [Outcome.andThen, Outcome.returned.injEq] at h
    · exact h.1.symm
    all_goals cases h
  · rw [gtthread_cancel_other thread s self rest hrun he] at h
    simp only [Outcome.returned.injEq] at h
    exact h.1.symm

/-- C6, as amended, at a concrete input: thread 0 cancels a handle whose id was never issued. -/
theorem gtthread_cancel_spec_witness :
    gtthread_cancel (fresh_record 9) ex_two = .returned 0 (with_cancel ex_two [9]) :=
  (gtthread_cancel_spec (fresh_record 9) ex_two 100 [101] rfl).1 (by decide)

/-- C6 fails as stated for a handle of the caller: with thread 1 runnable, the call of
thread 0 on its own handle does not return 0; its dispatch switches from thread 0 to
thread 1. -/
theorem gtthread_cancel_self_switches :
    (¬ ∃ s', gtthread_cancel (fresh_record 0) ex_two = .returned 0 s') ∧
      (gtthread_cancel (fresh_record 0) ex_two).switch? = some (100, 101) := by
  have h : (gtthread_cancel (fresh_record 0) ex_two).switch? = some (100, 101) := by decide
  refine ⟨?_, h⟩
  rintro ⟨s', hs'⟩
  rw [hs'] at h
  cases h

/-- C7 at its failing inputs.  The initial thread, alone in the run queue, cancels itself:
the call returns 0 to it, and it is still at the front of the run queue, not finished,
with its cancel entry pending.  And thread 0 cancels itself while a cancel is pending for
the only other runnable thread: the sweep cancels thread 1, and the call returns 0 to
thread 0, which is still at the front of the run queue and not finished. -/
theorem self_cancel_returns_to_caller :
    (∃ s', gtthread_cancel (fresh_record 0) ex_single = .returned 0 s' ∧
      s'.g_threads_steque = [100] ∧ (s'.mem 100).is_finished = 0 ∧
      s'.g_dead_threads_steque = [] ∧ s'.g_cancelatorium = [0]) ∧
    (∃ s', gtthread_cancel (fresh_record 0) ex_two_pending = .returned 0 s' ∧
      s'.g_threads_steque = [100] ∧ (s'.mem 100).is_finished = 0 ∧
      s'.g_dead_threads_steque = [101] ∧ s'.g_cancelatorium = [0]) :=
  ⟨⟨_, rfl, rfl, rfl, rfl, rfl⟩, ⟨_, rfl, rfl, rfl, rfl, rfl⟩⟩

/-! ## The wakeup protocol -/

/-- C18. `joininator` on a newly dead record `d` returns; afterwards exactly the records
that are in the join queue and whose `wait_tid` is the id of `d` have `is_joined = 1` and
`joinee = d` (all of them), every other record is unchanged in every field, and the join
queue holds the same elements in the same order; no other queue is touched. -/
theorem joininator_spec (d : Nat) (s : Sched) :
    ∃ s', joininator d s = .ok s' ∧
      s'.g_join_steque = s.g_join_steque ∧ s'.g_threads_steque = s.g_threads_steque ∧
      s'.g_dead_threads_steque = s.g_dead_threads_steque ∧
      s'.g_cancelatorium = s.g_cancelatorium ∧ s'.g_thread_id = s.g_thread_id ∧
      s'.vtalrm_blocked = s.vtalrm_blocked ∧
      ∀ p, s'.mem p =
        if p ∈ s.g_join_steque ∧ (s.mem p).wait_tid = (s.mem d).id then
          { s.mem p with is_joined := 1, joinee := some d }
        else s.mem p := by
  refine ⟨_, joininator_eq d s, rfl, rfl, rfl, rfl, rfl, rfl, ?_⟩
  intro p
  exact join_marks_apply d s.g_join_steque s.mem p

/-! ## The holder of a mutex -/

/-- Every step on a mutex keeps the invariant of the holder field. -/
theorem mutex_step_holder (h : MutexRun) (st : MutexStep) (hinv : MutexHolderInv h.mutex) :
    MutexHolderInv (mutex_step h st).mutex := by
  obtain ⟨q, hw, hcase⟩ := hinv
  cases st with
  | lock_enter s =>
    simp only [mutex_step, gtthread_mutex_lock_enter, hw]
    cases hs : gtthread_self s with
    | none => exact ⟨q, hw, hcase⟩
    | some curr =>
      refine ⟨q ++ [curr.id], rfl, ?_⟩
      rcases hcase with hl | ⟨f, q1, hq, hl⟩
      · exact Or.inl hl
      · exact Or.inr ⟨f, q1 ++ [curr.id], by simp [hq], hl⟩
  | lock_spin id =>
    simp only [mutex_step]
    cases hsp : gtthread_mutex_lock_spin id h.mutex with
    | error e => exact ⟨q, hw, hcase⟩
    | ok r =>
      cases r with
      | none => exact ⟨q, hw, hcase⟩
      | some m =>
        obtain ⟨_, ⟨q1, hq⟩, hm⟩ := gtthread_mutex_lock_spin_claims id h.mutex m hsp
        refine ⟨id :: q1, by simp [hm, hq], Or.inr ⟨id, q1, rfl, by simp [hm]⟩⟩
  | unlock s =>
    simp only [mutex_step]
    cases hu : gtthread_mutex_unlock s h.mutex with
    | error e => exact ⟨q, hw, hcase⟩
    | ok r =>
      obtain ⟨r, m⟩ := r
      unfold gtthread_mutex_unlock at hu
      simp only [hw] at hu
      cases q with
      | nil =>
        simp [steque_size] at hu
        rw [← hu.2]
        exact ⟨[], hw, hcase⟩
      | cons f q1 =>
        by_cases hl : h.mutex.locker_id = -1
        · simp [steque_size, hl] at hu
          rw [← hu.2]
          exact ⟨f :: q1, hw, hcase⟩
        · cases hs : gtthread_self s with
          | none => simp [steque_size, hl, hs] at hu
          | some curr =>
            by_cases hc : curr.id = f
            · simp [steque_size, hl, hs, steque_front, hc, steque_pop] at hu
              rw [← hu.2]
              exact ⟨q1, rfl, Or.inl rfl⟩
            · simp [steque_size, hl, hs, steque_front, hc] at hu
              rw [← hu.2]
              exact ⟨f :: q1, hw, hcase⟩

/-- The invariant of the holder field holds along every sequence of steps. -/
theorem mutex_foldl_holder (steps : List MutexStep) :
    ∀ h : MutexRun, MutexHolderInv h.mutex → MutexHolderInv (steps.foldl mutex_step h).mutex := by
  induction steps with
  | nil => intro h hinv; exact hinv
  | cons st t ih =>
    intro h hinv
    simp only [List.foldl_cons]
    exact ih _ (mutex_step_holder h st hinv)

/-- C19. In every state reached from `gtthread_mutex_init` by lock entries, spin-loop
evaluations and unlock calls (successful or failing, by any thread), `locker_id` is -1 or
is the id at the front of a non-empty waiters queue (as `locker_id`, a `long`, holds it:
the id itself when it is below `2 ^ 63`); in particular `locker_id` is -1 when the waiters
queue is empty. -/
theorem mutex_holder_invariant (steps : List MutexStep) :
    (∃ q : List Nat, (mutex_run steps).mutex.waiting_steque = some q ∧
      ((mutex_run steps).mutex.locker_id = -1 ∨
        ∃ f q1, q = f :: q1 ∧ (mutex_run steps).mutex.locker_id = long_of_ulong f ∧
          (f < 2 ^ 63 → (mutex_run steps).mutex.locker_id = (f : Int)))) ∧
    ((mutex_run steps).mutex.waiting_steque = some [] →
      (mutex_run steps).mutex.locker_id = -1) := by
  have hinv : MutexHolderInv (mutex_run steps).mutex :=
    mutex_foldl_holder steps _ ⟨[], rfl, Or.inl rfl⟩
  obtain ⟨q, hw, hcase⟩ := hinv
  refine ⟨⟨q, hw, ?_⟩, ?_⟩
  · rcases hcase with hl | ⟨f, q1, hq, hl⟩
    · exact Or.inl hl
    · refine Or.inr ⟨f, q1, hq, hl, ?_⟩
      intro hf
      rw [hl]
      unfold long_of_ulong
      have h1 : f % 2 ^ 64 = f := Nat.mod_eq_of_lt (by omega)
      rw [h1, if_pos hf]
  · intro hempty
    rcases hcase with hl | ⟨f, q1, hq, _⟩
    · exact hl
    · rw [hw] at hempty
      simp [hq] at hempty

/-! ## Round robin -/

/-- A dispatch by an unfinished thread `c` whose successor `t1` has another id and no
pending cancel: `c` goes to the tail, `t1` is switched to with the signal unblocked, and
nothing else changes. -/
theorem yield_helper_rotate (is_alarm_safe : Bool) (s : Sched) (c t1 : Nat) (rest : List Nat)
    (hrun : s.g_threads_steque = c :: t1 :: rest) (hfin : (s.mem c).is_finished = 0)
    (hpend : (s.mem t1).id ∉ s.g_cancelatorium) (hid : (s.mem t1).id ≠ (s.mem c).id) :
    yield_helper is_alarm_safe s =
      .switched { s with g_threads_steque := t1 :: rest ++ [c], vtalrm_blocked := false } c t1 := by
  rw [yield_helper_eq is_alarm_safe s c t1 rest hrun]
  rw [cancel_sweep_miss (steque_size (t1 :: rest))
    { s with g_threads_steque := t1 :: rest, vtalrm_blocked := true } none t1 rest rfl hpend]
  simp only
  rw [dispatch_tail_eq]
  have hm : dispatch_moved c { s with g_threads_steque := t1 :: rest, vtalrm_blocked := true }
      = { s with g_threads_steque := t1 :: rest ++ [c], vtalrm_blocked := true } := by
    simp [dispatch_moved, hfin]
  rw [hm]
  simp only [List.cons_append, hid, if_false]
  simp [sigprocmask_unblock]

/-- One yield in the setting of round-robin fairness rotates the run queue by one place,
changes nothing else but the signal mask, and leaves the setting in force. -/
theorem yield_rotates (s : Sched) (h : AllYielding s) :
    ∃ s', (gtthread_yield s).next? = some s' ∧
      s'.g_threads_steque = s.g_threads_steque.rotate 1 ∧ SameButRun s s' ∧ AllYielding s' := by
  obtain ⟨hne, hnd, hall⟩ := h
  have hfair : ∀ s' : Sched, s'.g_threads_steque = s.g_threads_steque.rotate 1 →
      SameButRun s s' → AllYielding s' := by
    intro s' hrun hsame
    obtain ⟨hm, hc, _, _, _⟩ := hsame
    refine ⟨?_, ?_, ?_⟩
    · rw [hrun]
      intro hnil
      exact hne (List.rotate_eq_nil_iff.mp hnil)
    · rw [hrun]
      simp only [ids_of, hm, List.map_rotate]
      exact List.nodup_rotate.mpr hnd
    · intro p hp
      rw [hrun] at hp
      rw [hm, hc]
      exact hall p (List.mem_rotate.mp hp)
  cases hrun : s.g_threads_steque with
  | nil => exact absurd hrun hne
  | cons c rest =>
    cases rest with
    | nil =>
      have hy := yield_helper_single true s c hrun
      refine ⟨sigprocmask_block s, ?_, ?_, ⟨rfl, rfl, rfl, rfl, rfl⟩, ?_⟩
      · simp [gtthread_yield, alarm_safe_yield, hy, Outcome.next?]
      · simp [sigprocmask_block, hrun]
      · exact hfair _ (by simp [sigprocmask_block, hrun]) ⟨rfl, rfl, rfl, rfl, rfl⟩
    | cons t1 rest =>
      have hid : (s.mem t1).id ≠ (s.mem c).id := by
        rw [hrun] at hnd
        simp only [ids_of, List.map_cons, List.nodup_cons, List.mem_cons, not_or] at hnd
        exact fun e => hnd.1.1 e.symm
      have hy := yield_helper_rotate true s c t1 rest hrun
        (hall c (by rw [hrun]; simp)).1 (hall t1 (by rw [hrun]; simp)).2 hid
      refine ⟨{ s with g_threads_steque := t1 :: rest ++ [c], vtalrm_blocked := false },
        ?_, ?_, ⟨rfl, rfl, rfl, rfl, rfl⟩, ?_⟩
      · simp only [gtthread_yield, alarm_safe_yield, hy, Outcome.next?]
      · simp [List.rotate_cons_succ]
      · exact hfair _ (by simp [hrun, List.rotate_cons_succ]) ⟨rfl, rfl, rfl, rfl, rfl⟩

/-- In the setting of round-robin fairness, `k` yields rotate the run queue by `k` places
and change nothing else but the signal mask. -/
theorem yields_rotate : ∀ (k : Nat) (s : Sched), AllYielding s →
    ∃ sk, yields k s = some sk ∧ sk.g_threads_steque = s.g_threads_steque.rotate k ∧
      SameButRun s sk := by
  intro k
  induction k with
  | zero =>
    intro s _
    exact ⟨s, rfl, by simp, ⟨rfl, rfl, rfl, rfl, rfl⟩⟩
  | succ n ih =>
    intro s h
    obtain ⟨s1, h1, hrun1, hsame1, hfair1⟩ := yield_rotates s h
    obtain ⟨sk, hk, hrunk, hsamek⟩ := ih s1 hfair1
    refine ⟨sk, ?_, ?_, ?_⟩
    · simp only [yields, h1]
      exact hk
    · rw [hrunk, hrun1, List.rotate_rotate, Nat.add_comm]
    · obtain ⟨a1, a2, a3, a4, a5⟩ := hsame1
      obtain ⟨b1, b2, b3, b4, b5⟩ := hsamek
      exact ⟨b1.trans a1, b2.trans a2, b3.trans a3, b4.trans a4, b5.trans a5⟩

/-- The place in a window of `N` dispatches that starts after `k` dispatches at which the
thread at position `i` of the original run queue is in front. -/
theorem window_index (k i N : Nat) (hi : i < N) : (k + (i + N - k % N) % N) % N = i := by
  have hk : k % N < N := Nat.mod_lt k (by omega)
  have h1 : (k + (i + N - k % N) % N) % N = (k % N + (i + N - k % N)) % N := by
    rw [Nat.add_mod k, Nat.mod_mod, Nat.add_mod (k % N) (i + N - k % N), Nat.mod_mod]
  have h2 : k % N + (i + N - k % N) = i + N := by omega
  rw [h1, h2, Nat.add_mod_right]
  exact Nat.mod_eq_of_lt hi

/-- C12. Round-robin fairness.  Let the run queue hold `N ≥ 1` threads with distinct ids,
none of them finished and none with a pending cancel, and let each dispatch be a
`gtthread_yield` by the thread running then.  After `k` dispatches the run queue is the
original one rotated by `k` places and nothing but the signal mask has changed; after
exactly `N` dispatches the run queue is in its original order; and in every window of `N`
consecutive dispatches every thread is at the front of the run queue, the running thread,
at least once. -/
theorem round_robin_fair (s : Sched) (h : AllYielding s) :
    (∀ k, ∃ sk, yields k s = some sk ∧
      sk.g_threads_steque = s.g_threads_steque.rotate k ∧ SameButRun s sk) ∧
    (∃ sN, yields s.g_threads_steque.length s = some sN ∧
      sN.g_threads_steque = s.g_threads_steque) ∧
    (∀ k p, p ∈ s.g_threads_steque → ∃ j, j < s.g_threads_steque.length ∧
      ∃ sj, yields (k + j) s = some sj ∧ steque_front sj.g_threads_steque = some p) := by
  refine ⟨fun k => yields_rotate k s h, ?_, ?_⟩
  · obtain ⟨sN, hN, hrun, _⟩ := yields_rotate s.g_threads_steque.length s h
    exact ⟨sN, hN, by rw [hrun, List.rotate_length]⟩
  · intro k p hp
    obtain ⟨i, hi, hget⟩ := List.getElem_of_mem hp
    have hN : 0 < s.g_threads_steque.length := by omega
    refine ⟨(i + s.g_threads_steque.length - k % s.g_threads_steque.length)
      % s.g_threads_steque.length, Nat.mod_lt _ hN, ?_⟩
    obtain ⟨sj, hj, hrun, _⟩ := yields_rotate
      (k + (i + s.g_threads_steque.length - k % s.g_threads_steque.length)
        % s.g_threads_steque.length) s h
    refine ⟨sj, hj, ?_⟩
    have hmod := window_index k i s.g_threads_steque.length hi
    have hfront : ∀ q : List Nat, steque_front q = q.head? := by
      intro q; cases q <;> rfl
    rw [hfront, hrun, ← List.rotate_mod, hmod, List.head?_rotate hi,
      List.getElem?_eq_getElem hi, hget]

/-- C12 at a concrete input: two threads take turns, and two yields restore the order. -/
theorem round_robin_fair_witness :
    (∃ s2, yields 2 ex_two = some s2 ∧ s2.g_threads_steque = [100, 101]) ∧
    (∃ s1, yields 1 ex_two = some s1 ∧ s1.g_threads_steque = [101, 100]) := by
  have hfair : AllYielding ex_two :=
    ⟨by simp [ex_two], by decide, by
      intro p hp
      simp only [ex_two, List.mem_cons, List.mem_singleton, List.not_mem_nil, or_false] at hp
      rcases hp with rfl | rfl <;> exact ⟨rfl, by simp [ex_two]⟩⟩
  obtain ⟨hk, hN, _⟩ := round_robin_fair ex_two hfair
  refine ⟨hN, ?_⟩
  obtain ⟨s1, h1, hrun, _⟩ := hk 1
  exact ⟨s1, h1, by rw [hrun]; rfl⟩

/-! ## The sweep and the join state -/

/-- The join state of the records after one cancellation by the sweep. -/
theorem cancel_head_joined (s : Sched) (nt : Nat) (cq rq : List Nat) (p : Nat) :
    (p ∈ s.g_join_steque ∧ (s.mem p).wait_tid = (s.mem nt).id →
      ((cancel_head s nt cq rq).mem p).is_joined = 1 ∧
        ((cancel_head s nt cq rq).mem p).joinee = some nt) ∧
    (¬ (p ∈ s.g_join_steque ∧ (s.mem p).wait_tid = (s.mem nt).id) →
      ((cancel_head s nt cq rq).mem p).is_joined = (s.mem p).is_joined ∧
        ((cancel_head s nt cq rq).mem p).joinee = (s.mem p).joinee) := by
  have hw : ((Function.update s.mem nt { s.mem nt with is_finished := 1, retval := CANCELED }) p).wait_tid
      = (s.mem p).wait_tid := by
    by_cases hp : p = nt
    · subst hp; simp
    · simp [Function.update_noteq hp]
  have hi : ((Function.update s.mem nt { s.mem nt with is_finished := 1, retval := CANCELED }) nt).id
      = (s.mem nt).id := by simp
  simp only [cancel_head, join_marks_apply, hw, hi]
  constructor
  · intro h
    rw [if_pos h]
    exact ⟨rfl, rfl⟩
  · intro h
    rw [if_neg h]
    by_cases hp : p = nt
    · subst hp; simp
    · simp [Function.update_noteq hp]

/-- The cancel sweep and the join state: `SweepJoined` holds for the threads that the
sweep took from the run queue. -/
theorem cancel_sweep_joined :
    ∀ (fuel : Nat) (s : Sched) (nt0 : Option Nat) (s' : Sched) (nt : Option Nat)
      (gone : List Nat),
      cancel_sweep fuel s nt0 = .ok (s', nt) → s.g_threads_steque.length < fuel →
      s.g_threads_steque = gone ++ s'.g_threads_steque → SweepJoined s s' gone := by
  intro fuel
  induction fuel with
  | zero => intro s _ _ _ _ _ h; omega
  | succ f ih =>
    intro s nt0 s' nt gone hsw hlen hgone
    cases hrun : s.g_threads_steque with
    | nil =>
      rw [cancel_sweep_nil f s nt0 hrun] at hsw
      simp only [Except.ok.injEq, Prod.mk.injEq] at hsw
      obtain ⟨rfl, _⟩ := hsw
      have hg : gone = [] := by
        have := congrArg List.length hgone
        rw [List.length_append] at this
        exact List.eq_nil_of_length_eq_zero (by omega)
      subst hg
      exact ⟨by simp, fun _ _ => ⟨rfl, rfl⟩⟩
    | cons h rq =>
      by_cases hmem : (s.mem h).id ∈ s.g_cancelatorium
      · obtain ⟨pre, y, post, hq, hpre, hy⟩ :=
          split_at_first (fun c => c = (s.mem h).id) s.g_cancelatorium ⟨_, hmem, rfl⟩
        subst hy
        rw [cancel_sweep_hit f s nt0 h rq pre post hrun hq (fun hin => hpre _ hin rfl)] at hsw
        have hlen1 : (cancel_head s h (post ++ pre) rq).g_threads_steque.length < f := by
          simp only [cancel_head]
          rw [hrun] at hlen
          simp at hlen
          omega
        obtain ⟨s1', nt1, gone1, hsw1, hfr1, _, _⟩ :=
          cancel_sweep_frame f (cancel_head s h (post ++ pre) rq) (some h) hlen1
        rw [hsw] at hsw1
        simp only [Except.ok.injEq, Prod.mk.injEq] at hsw1
        obtain ⟨rfl, rfl⟩ := hsw1
        have hrq : rq = gone1 ++ s'.g_threads_steque := hfr1.run_eq
        have hg : gone = h :: gone1 := by
          rw [hrun, hrq] at hgone
          have : h :: gone1 ++ s'.g_threads_steque = gone ++ s'.g_threads_steque := by
            simpa using hgone
          exact (List.append_cancel_right this).symm
        subst hg
        have hj1 := ih (cancel_head s h (post ++ pre) rq) (some h) s' nt gone1 hsw hlen1 hrq
        have hid1 : ∀ p, ((cancel_head s h (post ++ pre) rq).mem p).id = (s.mem p).id :=
          fun p => (cancel_head_mem s h _ _ p).1
        have hw1 : ∀ p, ((cancel_head s h (post ++ pre) rq).mem p).wait_tid = (s.mem p).wait_tid :=
          fun p => (cancel_head_mem s h _ _ p).2.1
        constructor
        · intro w hw g hg hwait
          by_cases hex : ∃ g1 ∈ gone1, (s.mem w).wait_tid = (s.mem g1).id
          · obtain ⟨g1, hg1, hwait1⟩ := hex
            obtain ⟨m1, g', hg', m2, m3⟩ := hj1.marked w hw g1 hg1 (by rw [hw1, hid1]; exact hwait1)
            refine ⟨m1, g', List.mem_cons_of_mem _ hg', m2, ?_⟩
            rw [hid1, hw1] at m3
            exact m3
          · have hall : ∀ g1 ∈ gone1, (s.mem w).wait_tid ≠ (s.mem g1).id :=
              fun g1 hg1 e => hex ⟨g1, hg1, e⟩
            have hgh : g = h := by
              rcases List.mem_cons.mp hg with e | e
              · exact e
              · exact absurd hwait (hall g e)
            subst hgh
            obtain ⟨k1, k2⟩ := hj1.kept w (Or.inr (by
              intro g1 hg1
              rw [hw1, hid1]
              exact hall g1 hg1))
            obtain ⟨c1, c2⟩ := (cancel_head_joined s g (post ++ pre) rq w).1 ⟨hw, hwait⟩
            exact ⟨k1.trans c1, g, List.mem_cons_self _ _, k2.trans c2, hwait.symm⟩
        · intro p hp
          have hp1 : p ∉ (cancel_head s h (post ++ pre) rq).g_join_steque ∨
              ∀ g ∈ gone1, ((cancel_head s h (post ++ pre) rq).mem p).wait_tid
                ≠ ((cancel_head s h (post ++ pre) rq).mem g).id := by
            rcases hp with hp | hp
            · exact Or.inl hp
            · right
              intro g hg
              rw [hw1, hid1]
              exact hp g (List.mem_cons_of_mem _ hg)
          obtain ⟨k1, k2⟩ := hj1.kept p hp1
          have hnot : ¬ (p ∈ s.g_join_steque ∧ (s.mem p).wait_tid = (s.mem h).id) := by
            rintro ⟨hin, hwait⟩
            rcases hp with hp | hp
            · exact hp hin
            · exact hp h (List.mem_cons_self _ _) hwait
          obtain ⟨c1, c2⟩ := (cancel_head_joined s h (post ++ pre) rq p).2 hnot
          exact ⟨k1.trans c1, k2.trans c2⟩
      · rw [cancel_sweep_miss f s nt0 h rq hrun hmem] at hsw
        simp only [Except.ok.injEq, Prod.mk.injEq] at hsw
        obtain ⟨rfl, _⟩ := hsw
        have hg : gone = [] := by
          have := congrArg List.length hgone
          rw [List.length_append] at this
          exact List.eq_nil_of_length_eq_zero (by omega)
        subst hg
        exact ⟨by simp, fun _ _ => ⟨rfl, rfl⟩⟩

/-- A dispatch with at least two threads in the run queue never stops the model.  With
`s3` the state the sweep leaves and `gone` the threads it cancelled, the state the
dispatch leaves is `dispatch_moved old s3` up to the signal mask; the process exits when
that run queue is empty, the call returns when its front bears the id of the caller, and
otherwise the dispatch switches to that front with the signal unblocked. -/
theorem yield_helper_state (is_alarm_safe : Bool) (s : Sched) (old h : Nat) (rq : List Nat)
    (hrun : s.g_threads_steque = old :: h :: rq) :
    ∃ (s3 : Sched) (gone : List Nat) (s' : Sched),
      SweepFrame { s with g_threads_steque := h :: rq, vtalrm_blocked := true } s3 gone ∧
      SweepJoined { s with g_threads_steque := h :: rq, vtalrm_blocked := true } s3 gone ∧
      (yield_helper is_alarm_safe s).state? = some s' ∧
      SameButMask s' (dispatch_moved old s3) ∧
      ((dispatch_moved old s3).g_threads_steque = [] →
        yield_helper is_alarm_safe s = .exited 0 s') ∧
      (∀ f rest, (dispatch_moved old s3).g_threads_steque = f :: rest →
        (((dispatch_moved old s3).mem f).id = ((dispatch_moved old s3).mem old).id →
          yield_helper is_alarm_safe s = .returned () s') ∧
        (((dispatch_moved old s3).mem f).id ≠ ((dispatch_moved old s3).mem old).id →
          yield_helper is_alarm_safe s = .switched s' old f ∧ s'.vtalrm_blocked = false)) := by
  obtain ⟨s3, nt, gone, hsw, hfr, _, hnt⟩ :=
    cancel_sweep_frame (steque_size (h :: rq) + 1)
      { s with g_threads_steque := h :: rq, vtalrm_blocked := true } none
      (by simp [steque_size])
  have hj := cancel_sweep_joined (steque_size (h :: rq) + 1)
    { s with g_threads_steque := h :: rq, vtalrm_blocked := true } none s3 nt gone hsw
    (by simp [steque_size]) hfr.run_eq
  have hy : yield_helper is_alarm_safe s = dispatch_tail is_alarm_safe old nt s3 := by
    rw [yield_helper_eq is_alarm_safe s old h rq hrun, hsw]
  obtain ⟨_, _, hrunM⟩ := dispatch_moved_facts old s3
  rw [hy, dispatch_tail_eq]
  cases hq : (dispatch_moved old s3).g_threads_steque with
  | nil =>
    refine ⟨s3, gone, (if is_alarm_safe then dispatch_moved old s3
      else sigprocmask_unblock (dispatch_moved old s3)), hfr, hj, rfl, ?_, fun _ => rfl, ?_⟩
    · cases is_alarm_safe <;> exact ⟨rfl, rfl, rfl, rfl, rfl, rfl⟩
    · intro f rest hfr'
      rw [hq] at hfr'
      cases hfr'
  | cons f rq' =>
    have hnonil : (dispatch_moved old s3).g_threads_steque ≠ [] := by
      rw [hq]
      exact List.cons_ne_nil _ _
    by_cases he : ((dispatch_moved old s3).mem f).id = ((dispatch_moved old s3).mem old).id
    · simp only [he, if_true]
      refine ⟨s3, gone, (if is_alarm_safe then dispatch_moved old s3
        else sigprocmask_unblock (dispatch_moved old s3)), hfr, hj, rfl, ?_,
        (fun hnil => absurd hnil hnonil), ?_⟩
      · cases is_alarm_safe <;> exact ⟨rfl, rfl, rfl, rfl, rfl, rfl⟩
      · intro f' rest' hfr'
        rw [hq] at hfr'
        simp only [List.cons.injEq] at hfr'
        obtain ⟨rfl, rfl⟩ := hfr'
        exact ⟨fun _ => rfl, fun hne => absurd he hne⟩
    · have hs3 : ∃ rq3, s3.g_threads_steque = f :: rq3 := by
        rcases hrunM with hm | hm
        · exact ⟨rq', by rw [← hm, hq]⟩
        · cases h3 : s3.g_threads_steque with
          | nil =>
            rw [hm, h3] at hq
            simp only [List.nil_append, List.cons.injEq] at hq
            exact absurd (by rw [hq.1]) he
          | cons g t =>
            rw [hm, h3] at hq
            simp only [List.cons_append, List.cons.injEq] at hq
            exact ⟨t, by rw [hq.1]⟩
      obtain ⟨rq3, h3⟩ := hs3
      rw [hnt f rq3 h3]
      simp only [he, if_false]
      refine ⟨s3, gone, sigprocmask_unblock (dispatch_moved old s3), hfr, hj, rfl,
        ⟨rfl, rfl, rfl, rfl, rfl, rfl⟩, (fun hnil => absurd hnil hnonil), ?_⟩
      intro f' rest' hfr'
      rw [hq] at hfr'
      simp only [List.cons.injEq] at hfr'
      obtain ⟨rfl, rfl⟩ := hfr'
      exact ⟨fun e => absurd e he, fun _ => ⟨rfl, rfl⟩⟩

/-- Two records with the same fields are the same record. -/
theorem gtthread_t_eq (a b : gtthread_t) (h1 : a.id = b.id) (h2 : a.is_finished = b.is_finished)
    (h3 : a.retval = b.retval) (h4 : a.is_joined = b.is_joined) (h5 : a.wait_tid = b.wait_tid)
    (h6 : a.joinee = b.joinee) : a = b := by
  cases a
  cases b
  simp only at h1 h2 h3 h4 h5 h6
  subst h1 h2 h3 h4 h5 h6
  rfl

/-- The queues after `yield_helper` has put the popped thread where it belongs. -/
theorem dispatch_moved_queues (old : Nat) (s3 : Sched) :
    (dispatch_moved old s3).g_threads_steque =
      s3.g_threads_steque ++ (if (s3.mem old).is_finished ≠ 0 then [] else [old]) ∧
    (dispatch_moved old s3).g_dead_threads_steque =
      s3.g_dead_threads_steque ++ (if (s3.mem old).is_finished ≠ 0 then [old] else []) ∧
    (dispatch_moved old s3).g_join_steque = s3.g_join_steque ∧
    (dispatch_moved old s3).g_cancelatorium = s3.g_cancelatorium ∧
    (dispatch_moved old s3).g_thread_id = s3.g_thread_id := by
  unfold dispatch_moved
  by_cases h : (s3.mem old).is_finished ≠ 0
  · rw [if_pos h, if_pos h, if_pos h]
    exact ⟨by simp, rfl, rfl, rfl, rfl⟩
  · rw [if_neg h, if_neg h, if_neg h]
    exact ⟨rfl, by simp, rfl, rfl, rfl⟩

/-- The records after `yield_helper` has put the popped thread where it belongs: only the
join state of the waiters of a finished popped thread is written. -/
theorem dispatch_moved_mem (old : Nat) (s3 : Sched) (p : Nat) :
    ((dispatch_moved old s3).mem p).id = (s3.mem p).id ∧
    ((dispatch_moved old s3).mem p).is_finished = (s3.mem p).is_finished ∧
    ((dispatch_moved old s3).mem p).retval = (s3.mem p).retval ∧
    ((dispatch_moved old s3).mem p).wait_tid = (s3.mem p).wait_tid ∧
    (((s3.mem old).is_finished ≠ 0 ∧ p ∈ s3.g_join_steque ∧
        (s3.mem p).wait_tid = (s3.mem old).id) →
      ((dispatch_moved old s3).mem p).is_joined = 1 ∧
        ((dispatch_moved old s3).mem p).joinee = some old) ∧
    (¬ ((s3.mem old).is_finished ≠ 0 ∧ p ∈ s3.g_join_steque ∧
        (s3.mem p).wait_tid = (s3.mem old).id) →
      (dispatch_moved old s3).mem p = s3.mem p) := by
  unfold dispatch_moved
  by_cases h : (s3.mem old).is_finished ≠ 0
  · rw [if_pos h]
    obtain ⟨h1, h2, h3, h4⟩ := join_marks_frame old s3.g_join_steque s3.mem p
    refine ⟨h1, h2, h3, h4, ?_, ?_⟩
    · intro hw
      show (join_marks old s3.g_join_steque s3.mem p).is_joined = 1 ∧
        (join_marks old s3.g_join_steque s3.mem p).joinee = some old
      rw [join_marks_apply, if_pos hw.2]
      exact ⟨rfl, rfl⟩
    · intro hw
      show join_marks old s3.g_join_steque s3.mem p = s3.mem p
      rw [join_marks_apply, if_neg (fun hh => hw ⟨h, hh⟩)]
  · rw [if_neg h]
    exact ⟨rfl, rfl, rfl, rfl, fun hf => absurd hf.1 h, fun _ => rfl⟩

/-! ## Mutex: the lock call spins without yielding -/

/-- A spin loop that cannot claim the lock goes on for as long as it is followed, and
leaves the scheduler state and the mutex as they are. -/
theorem gtthread_mutex_lock_loop_stuck (curr_id : Nat) (s : Sched) (mutex : gtthread_mutex_t)
    (hstuck : gtthread_mutex_lock_spin curr_id mutex = .ok none) :
    ∀ n, gtthread_mutex_lock_loop curr_id n s mutex = .ok (s, mutex, none) := by
  intro n
  induction n with
  | zero => rfl
  | succ n ih => rw [gtthread_mutex_lock_loop, hstuck]; exact ih

/-- C11 (as the code has it). `gtthread_mutex_lock` is a plain spinlock and never yields.
A call on a mutex with a waiters queue appends the id of the caller; when the mutex is held
(`locker_id ≠ -1`), or another id is at the front of the waiters queue, every evaluation of
the spin loop leaves the mutex and the whole scheduler state as they are: however long the
loop is followed, the call has not returned, the run queue has not been rotated and the
caller is still the running thread, whatever the number of runnable threads.  A call that
finds the mutex free and the waiters queue empty claims the lock and returns 0. -/
theorem gtthread_mutex_lock_busy_waits (n : Nat) (s : Sched) (mutex : gtthread_mutex_t)
    (q : List Nat) (self : Nat) (rest : List Nat)
    (hq : mutex.waiting_steque = some q)
    (hrun : s.g_threads_steque = self :: rest) :
    ((mutex.locker_id ≠ -1 ∨ ∃ f q1, q = f :: q1 ∧ f ≠ (s.mem self).id) →
      gtthread_mutex_lock n s mutex =
        .ok (s, { mutex with waiting_steque := some (q ++ [(s.mem self).id]) }, none)) ∧
    (mutex.locker_id = -1 → q = [] →
      gtthread_mutex_lock (n + 1) s mutex =
        .ok (s, { waiting_steque := some [(s.mem self).id],
                  locker_id := long_of_ulong (s.mem self).id }, some 0)) := by
  have henter : gtthread_mutex_lock_enter s mutex =
      .ok (.spinning (s.mem self).id
        { mutex with waiting_steque := some (q ++ [(s.mem self).id]) }) := by
    simp [gtthread_mutex_lock_enter, hq, gtthread_self, steque_front, hrun, steque_enqueue]
  constructor
  · intro hheld
    have hstuck : gtthread_mutex_lock_spin (s.mem self).id
        { mutex with waiting_steque := some (q ++ [(s.mem self).id]) } = .ok none := by
      rcases hheld with hl | ⟨f, q1, hf, hne⟩
      · simp [gtthread_mutex_lock_spin, hl]
      · by_cases hl : mutex.locker_id = -1
        · simp [gtthread_mutex_lock_spin, hl, hf, steque_front, hne]
        · simp [gtthread_mutex_lock_spin, hl]
    simp only [gtthread_mutex_lock, henter]
    exact gtthread_mutex_lock_loop_stuck _ s _ hstuck n
  · intro hfree hnil
    subst hnil
    simp [gtthread_mutex_lock, henter, gtthread_mutex_lock_loop, gtthread_mutex_lock_spin,
      hfree, steque_front]

/-- The instance of C11 at thread 1 calling lock on a mutex that thread 0 holds. -/
theorem gtthread_mutex_lock_busy_waits_witness :
    ex_mutex_owned.waiting_steque = some [0] ∧
    ex_second_runs.g_threads_steque = [101, 100] ∧
    gtthread_mutex_lock 7 ex_second_runs ex_mutex_owned =
      .ok (ex_second_runs,
        { ex_mutex_owned with waiting_steque := some ([0] ++ [(ex_second_runs.mem 101).id]) },
        none) :=
  ⟨rfl, rfl,
    (gtthread_mutex_lock_busy_waits 7 ex_second_runs ex_mutex_owned [0] 101 [100] rfl rfl).1
      (Or.inl (by decide))⟩

/-- C11 (counterexample). With threads 1 and 0 runnable, thread 1 running and thread 0
holding the mutex, a `gtthread_yield` would switch from thread 1 to thread 0; the lock call
of thread 1, followed for three evaluations of its spin loop, has not returned and has left
the run queue in its order with thread 1 at the front. -/
theorem gtthread_mutex_lock_does_not_yield :
    ex_mutex_owned.locker_id = 0 ∧
    (gtthread_yield ex_second_runs).switch? = some (101, 100) ∧
    lock_view (gtthread_mutex_lock 3 ex_second_runs ex_mutex_owned) =
      some ([101, 100], some [0, 1], 0, none) := by
  refine ⟨rfl, ?_, ?_⟩
  · decide
  · decide

/-! ## The state a dispatch leaves -/

/-- A dispatch whose caller `old` has at least one thread behind it leaves a state: the
state is described by `DispatchFrame`; the process exits when the run queue is empty then,
the call returns when the front of the run queue has the id of the caller, and otherwise
the dispatch switches to that front with the signal unblocked. -/
theorem yield_helper_dispatch (is_alarm_safe : Bool) (s : Sched) (old h : Nat) (rq : List Nat)
    (hrun : s.g_threads_steque = old :: h :: rq) :
    ∃ (gone rest : List Nat) (s' : Sched),
      DispatchFrame s s' old gone rest ∧ h :: rq = gone ++ rest ∧
      (yield_helper is_alarm_safe s).state? = some s' ∧
      (s'.g_threads_steque = [] → yield_helper is_alarm_safe s = .exited 0 s') ∧
      (∀ f r, s'.g_threads_steque = f :: r →
        ((s.mem f).id = (s.mem old).id → yield_helper is_alarm_safe s = .returned () s') ∧
        ((s.mem f).id ≠ (s.mem old).id →
          yield_helper is_alarm_safe s = .switched s' old f ∧ s'.vtalrm_blocked = false)) := by
  obtain ⟨s3, gone, s', hfr, hj, hst, hsame, hexit, hrest⟩ :=
    yield_helper_state is_alarm_safe s old h rq hrun
  obtain ⟨hsr, hsd, hsj, hsc, hsn, hsm⟩ := hsame
  obtain ⟨hmr, hmd, hmj, hmc, hmn⟩ := dispatch_moved_queues old s3
  have hmem : ∀ p, s'.mem p = (dispatch_moved old s3).mem p := fun p => by rw [hsm]
  have hsplit : h :: rq = gone ++ s3.g_threads_steque := hfr.run_eq
  have hfin : (s'.mem old).is_finished = (s3.mem old).is_finished := by
    rw [hmem]; exact (dispatch_moved_mem old s3 old).2.1
  have hid3 : ∀ p, (s3.mem p).id = (s.mem p).id := hfr.id_eq
  have hwt3 : ∀ p, (s3.mem p).wait_tid = (s.mem p).wait_tid := hfr.wait_tid_eq
  have hj3 : s3.g_join_steque = s.g_join_steque := hfr.join_eq
  have hidM : ∀ p, ((dispatch_moved old s3).mem p).id = (s.mem p).id := fun p => by
    rw [(dispatch_moved_mem old s3 p).1, hid3]
  refine ⟨gone, s3.g_threads_steque, s', ?_, hsplit, hst, ?_, ?_⟩
  · refine
      { run_split := by rw [hrun, hsplit]
        run_eq := by rw [hsr, hmr, hfin]
        dead_eq := ?_
        join_eq := by rw [hsj, hmj, hj3]
        next_id_eq := by rw [hsn, hmn]; exact hfr.next_id_eq
        id_eq := fun p => by rw [hmem]; exact hidM p
        wait_tid_eq := fun p => by rw [hmem, (dispatch_moved_mem old s3 p).2.2.2.1, hwt3]
        gone_marked := fun p hp => by
          rw [hmem, (dispatch_moved_mem old s3 p).2.1, (dispatch_moved_mem old s3 p).2.2.1]
          exact hfr.gone_marked p hp
        others_kept := fun p hp => by
          rw [hmem, (dispatch_moved_mem old s3 p).2.1, (dispatch_moved_mem old s3 p).2.2.1]
          exact hfr.others_kept p hp
        cancel_perm := by rw [hsc, hmc]; exact hfr.cancel_perm
        stops := fun f r hf hin => by
          rw [hsc, hmc] at hin
          exact hfr.stops f r hf hin
        marked := ?_
        kept := ?_ }
    · rw [hsd, hmd, hfin, hfr.dead_eq]
    · intro w hw g hg hwg
      by_cases hA : (s3.mem old).is_finished ≠ 0 ∧ w ∈ s3.g_join_steque ∧
          (s3.mem w).wait_tid = (s3.mem old).id
      · obtain ⟨h1, h2⟩ := (dispatch_moved_mem old s3 w).2.2.2.2.1 hA
        rw [hmem]
        refine ⟨h1, old, h2, Or.inr ⟨rfl, by rw [hfin]; exact hA.1⟩, ?_⟩
        rw [← hid3 old, ← hA.2.2, hwt3]
      · have hsame : (dispatch_moved old s3).mem w = s3.mem w :=
          (dispatch_moved_mem old s3 w).2.2.2.2.2 hA
        rw [hmem, hsame]
        have hgone : g ∈ gone := by
          rcases hg with hg | ⟨hg, hf⟩
          · exact hg
          · exfalso
            apply hA
            refine ⟨by rw [← hfin]; exact hf, by rw [hj3]; exact hw, ?_⟩
            rw [hwt3, hid3, hwg, hg]
        obtain ⟨h1, g', hg', h2, h3⟩ := hj.marked w hw g hgone hwg
        exact ⟨h1, g', h2, Or.inl hg', h3⟩
    · intro p hp
      have hA : ¬ ((s3.mem old).is_finished ≠ 0 ∧ p ∈ s3.g_join_steque ∧
          (s3.mem p).wait_tid = (s3.mem old).id) := by
        rintro ⟨hf, hin, hw⟩
        rcases hp with hp | hp
        · exact hp (by rw [← hj3]; exact hin)
        · exact hp old (Or.inr ⟨rfl, by rw [hfin]; exact hf⟩) (by rw [← hwt3, hw, hid3])
      have hsame : (dispatch_moved old s3).mem p = s3.mem p :=
        (dispatch_moved_mem old s3 p).2.2.2.2.2 hA
      rw [hmem, hsame]
      apply hj.kept p
      rcases hp with hp | hp
      · exact Or.inl hp
      · exact Or.inr (fun g hg => hp g (Or.inl hg))
  · intro hnil
    exact hexit (by rw [← hsr]; exact hnil)
  · intro f r hf
    have hf' : (dispatch_moved old s3).g_threads_steque = f :: r := by rw [← hsr]; exact hf
    obtain ⟨h1, h2⟩ := hrest f r hf'
    constructor
    · intro he
      exact h1 (by rw [hidM, hidM]; exact he)
    · intro hne
      exact h2 (by rw [hidM, hidM]; exact hne)

/-! ## The cancel sweep of a dispatch -/

/-- A list that splits into a part whose elements all pass a test and a part whose head
fails it is split there by `takeWhile` and `dropWhile`. -/
theorem takeWhile_split {α : Type} (P : α → Bool) :
    ∀ (a b : List α), (∀ x ∈ a, P x = true) → (∀ f r, b = f :: r → P f = false) →
      (a ++ b).takeWhile P = a ∧ (a ++ b).dropWhile P = b := by
  intro a
  induction a with
  | nil =>
    intro b _ hb
    cases b with
    | nil => exact ⟨rfl, rfl⟩
    | cons f r =>
      have := hb f r rfl
      simp [List.takeWhile, List.dropWhile, this]
  | cons x a ih =>
    intro b ha hb
    have hx : P x = true := ha x (List.mem_cons_self _ _)
    obtain ⟨h1, h2⟩ := ih b (fun y hy => ha y (List.mem_cons_of_mem _ hy)) hb
    simp [List.takeWhile, List.dropWhile, hx, h1, h2]

/-- Records of a queue with distinct ids are told apart by their ids. -/
theorem ids_inj (s : Sched) (l : List Nat) (hnd : (ids_of s l).Nodup) (x y : Nat)
    (hx : x ∈ l) (hy : y ∈ l) (h : (s.mem x).id = (s.mem y).id) : x = y :=
  List.inj_on_of_nodup_map hnd hx hy h

/-- With distinct ids in the run queue, the threads the sweep of a dispatch cancels are
the longest prefix, behind the caller, of threads with a cancel entry. -/
theorem dispatch_gone_eq (s s' : Sched) (old : Nat) (gone rest : List Nat)
    (hD : DispatchFrame s s' old gone rest) (hnd : (ids_of s s.g_threads_steque).Nodup) :
    cancelled_heads s (gone ++ rest) = gone ∧ spared_tail s (gone ++ rest) = rest ∧
    old ∉ gone ∧ old ∉ rest ∧ (∀ p ∈ gone, p ∉ rest) ∧
    (∀ f r, rest = f :: r → (s.mem f).id ∉ s.g_cancelatorium) := by
  have hnd' := hnd
  rw [hD.run_split] at hnd'
  simp only [ids_of, List.map_cons, List.map_append, List.nodup_cons, List.mem_append,
    List.mem_map, not_or, not_exists, not_and] at hnd'
  obtain ⟨⟨hog, hor⟩, hgr⟩ := hnd'
  have hdisj := (List.nodup_append.1 hgr).2.2
  have hstop : ∀ f r, rest = f :: r → (s.mem f).id ∉ s.g_cancelatorium := by
    intro f r hf hin
    have hmem := hD.cancel_perm.subset hin
    rcases List.mem_append.1 hmem with h1 | h1
    · exact hdisj h1 (List.mem_map.2 ⟨f, by rw [hf]; exact List.mem_cons_self _ _, rfl⟩)
    · exact hD.stops f r hf h1
  have hall : ∀ p ∈ gone, (s.mem p).id ∈ s.g_cancelatorium := by
    intro p hp
    exact hD.cancel_perm.symm.subset
      (List.mem_append_left _ (List.mem_map.2 ⟨p, hp, rfl⟩))
  obtain ⟨h1, h2⟩ := takeWhile_split
    (fun p => decide ((s.mem p).id ∈ s.g_cancelatorium)) gone rest
    (fun x hx => by simpa using hall x hx)
    (fun f r hf => by simpa using hstop f r hf)
  refine ⟨h1, h2, fun h => hog old h rfl, fun h => hor old h rfl, ?_, hstop⟩
  intro p hp hr
  exact hdisj (List.mem_map.2 ⟨p, hp, rfl⟩) (List.mem_map.2 ⟨p, hr, rfl⟩)

/-- C15 (as the code has it). In a state whose run queue holds the caller `old` and at
least one more thread, with distinct ids, a dispatch leaves a state `s'`, and with `gone`
the longest prefix of the threads behind the caller that have a cancel entry: every thread
of `gone` is finished with the return value `(void *) -1`, is out of the run queue and in
the dead queue; the dead queue is the old one followed by `gone` in its order (and by the
caller when it is finished); every waiter in the join queue of a thread of `gone` is marked
joined with that thread as its joinee; the cancel queue has lost one entry per thread of
`gone` and kept every other entry; and the thread `f` that stops the sweep has no cancel
entry, stays in the run queue and keeps its id, its finished flag, its return value and
its wait target.  Its join state is left alone unless it waits in the join queue on a
thread of `gone` or on the finished caller: then the whole record is as it was. -/
theorem cancel_sweep_spec (is_alarm_safe : Bool) (s : Sched) (old h : Nat) (rq : List Nat)
    (hrun : s.g_threads_steque = old :: h :: rq)
    (hnd : (ids_of s s.g_threads_steque).Nodup) :
    ∃ s', (yield_helper is_alarm_safe s).state? = some s' ∧
      (∀ p ∈ cancelled_heads s (h :: rq),
        (s'.mem p).is_finished = 1 ∧ (s'.mem p).retval = CANCELED ∧
          p ∉ s'.g_threads_steque ∧ p ∈ s'.g_dead_threads_steque) ∧
      s'.g_threads_steque =
        spared_tail s (h :: rq) ++ (if (s.mem old).is_finished ≠ 0 then [] else [old]) ∧
      s'.g_dead_threads_steque =
        s.g_dead_threads_steque ++ cancelled_heads s (h :: rq) ++
          (if (s.mem old).is_finished ≠ 0 then [old] else []) ∧
      (∀ w ∈ s.g_join_steque, ∀ g ∈ cancelled_heads s (h :: rq),
        (s.mem w).wait_tid = (s.mem g).id →
          (s'.mem w).is_joined = 1 ∧ (s'.mem w).joinee = some g) ∧
      s.g_cancelatorium.Perm (ids_of s (cancelled_heads s (h :: rq)) ++ s'.g_cancelatorium) ∧
      (∀ f r, spared_tail s (h :: rq) = f :: r →
        (s.mem f).id ∉ s.g_cancelatorium ∧ f ∈ s'.g_threads_steque ∧
        (s'.mem f).id = (s.mem f).id ∧ (s'.mem f).is_finished = (s.mem f).is_finished ∧
        (s'.mem f).retval = (s.mem f).retval ∧ (s'.mem f).wait_tid = (s.mem f).wait_tid ∧
        ((f ∉ s.g_join_steque ∨
            ((∀ g ∈ cancelled_heads s (h :: rq), (s.mem f).wait_tid ≠ (s.mem g).id) ∧
              ((s.mem old).is_finished = 0 ∨ (s.mem f).wait_tid ≠ (s.mem old).id))) →
          s'.mem f = s.mem f)) := by
  obtain ⟨gone, rest, s', hD, hsplit, hst, _, _⟩ :=
    yield_helper_dispatch is_alarm_safe s old h rq hrun
  obtain ⟨hp, hs, hog, hor, hgr, hstop⟩ := dispatch_gone_eq s s' old gone rest hD hnd
  rw [hsplit, hp, hs]
  have hfin : (s'.mem old).is_finished = (s.mem old).is_finished := (hD.others_kept old hog).1
  have hrun' := hD.run_eq
  have hdead' := hD.dead_eq
  rw [hfin] at hrun' hdead'
  have hsub : ∀ g, (g ∈ gone ∨ (g = old ∧ (s'.mem old).is_finished ≠ 0)) →
      g ∈ s.g_threads_steque := by
    intro g hg
    rw [hD.run_split]
    rcases hg with hg | ⟨hg, _⟩
    · exact List.mem_cons_of_mem _ (List.mem_append_left _ hg)
    · rw [hg]; exact List.mem_cons_self _ _
  refine ⟨s', hst, ?_, hrun', hdead', ?_, hD.cancel_perm, ?_⟩
  · intro p hpg
    obtain ⟨h1, h2⟩ := hD.gone_marked p hpg
    refine ⟨h1, h2, ?_, ?_⟩
    · rw [hrun']
      intro hin
      rcases List.mem_append.1 hin with h3 | h3
      · exact hgr p hpg h3
      · by_cases hf : (s.mem old).is_finished ≠ 0
        · rw [if_pos hf] at h3; cases h3
        · rw [if_neg hf] at h3
          rw [List.mem_singleton] at h3
          exact hog (h3 ▸ hpg)
    · rw [hdead']
      exact List.mem_append_left _ (List.mem_append_right _ hpg)
  · intro w hw g hg hwg
    obtain ⟨h1, j, h2, h3, h4⟩ := hD.marked w hw g (Or.inl hg) hwg
    refine ⟨h1, ?_⟩
    rw [h2]
    have : j = g := ids_inj s s.g_threads_steque hnd j g (hsub j h3) (hsub g (Or.inl hg))
      (by rw [h4, hwg])
    rw [this]
  · intro f r hf
    have hfg : f ∉ gone := fun hh => hgr f hh (by rw [hf]; exact List.mem_cons_self _ _)
    obtain ⟨h1, h2⟩ := hD.others_kept f hfg
    refine ⟨hstop f r hf, ?_, hD.id_eq f, h1, h2, hD.wait_tid_eq f, ?_⟩
    · rw [hrun', hf]
      exact List.mem_append_left _ (List.mem_cons_self _ _)
    · intro hcond
      have hk := hD.kept f (by
        rcases hcond with hc | ⟨hc1, hc2⟩
        · exact Or.inl hc
        · refine Or.inr (fun g hg => ?_)
          rcases hg with hg | ⟨hg, hgf⟩
          · exact hc1 g hg
          · rw [hg]
            rcases hc2 with hc2 | hc2
            · exact absurd (hfin ▸ hc2 : (s'.mem old).is_finished = 0) hgf
            · exact hc2)
      exact gtthread_t_eq _ _ (hD.id_eq f) h1 h2 hk.1 (hD.wait_tid_eq f) hk.2

/-- The instance of C15 at thread 0 yielding while a cancel is pending for thread 1, the
thread behind it, on which thread 2 waits. -/
theorem cancel_sweep_spec_witness :
    ex_sweep_waiter.g_threads_steque = 100 :: 101 :: [102] ∧
    (ids_of ex_sweep_waiter ex_sweep_waiter.g_threads_steque).Nodup ∧
    cancelled_heads ex_sweep_waiter (101 :: [102]) = [101] ∧
    ∃ s', (yield_helper true ex_sweep_waiter).state? = some s' ∧
      (∀ p ∈ cancelled_heads ex_sweep_waiter (101 :: [102]),
        (s'.mem p).is_finished = 1 ∧ (s'.mem p).retval = CANCELED ∧
          p ∉ s'.g_threads_steque ∧ p ∈ s'.g_dead_threads_steque) ∧
      s'.g_threads_steque =
        spared_tail ex_sweep_waiter (101 :: [102]) ++
          (if (ex_sweep_waiter.mem 100).is_finished ≠ 0 then [] else [100]) := by
  refine ⟨rfl, by decide, by decide, ?_⟩
  obtain ⟨s', h1, h2, h3, _⟩ :=
    cancel_sweep_spec true ex_sweep_waiter 100 101 [102] rfl (by decide)
  exact ⟨s', h1, h2, h3⟩

/-- C15 (counterexample). Thread 0 yields while a cancel is pending for thread 1, on which
thread 2 waits in the join queue.  The sweep cancels thread 1 and stops at thread 2, which
has no cancel entry; the record of thread 2 is written all the same: its join state goes
from 0 to 1 and its joinee from null to the record of thread 1. -/
theorem cancel_sweep_marks_stopping_head :
    cancelled_heads ex_sweep_waiter [101, 102] = [101] ∧
    spared_tail ex_sweep_waiter [101, 102] = [102] ∧
    (ex_sweep_waiter.mem 102).is_joined = 0 ∧ (ex_sweep_waiter.mem 102).joinee = none ∧
    (gtthread_yield ex_sweep_waiter).switch? = some (100, 102) ∧
    (gtthread_yield ex_sweep_waiter).state?.map
        (fun s' => ((s'.mem 102).is_joined, (s'.mem 102).joinee, s'.g_threads_steque,
          s'.g_dead_threads_steque)) =
      some (1, some 101, [102, 100], [101]) := by
  refine ⟨by decide, by decide, by decide, by decide, by decide, by decide⟩

/-! ## Finished threads and the dead queue -/

/-- No transition at all keeps everything. -/
theorem keeps_refl (s : Sched) : Keeps s s :=
  ⟨⟨fun _ => rfl, rfl, List.Perm.refl _⟩, fun h => h⟩

/-- Transitions that keep the frame and the invariant compose. -/
theorem keeps_trans {a b c : Sched} (h1 : Keeps a b) (h2 : Keeps b c) : Keeps a c :=
  ⟨⟨fun p => (h2.1.1 p).trans (h1.1.1 p), h2.1.2.1.trans h1.1.2.1,
      h2.1.2.2.trans h1.1.2.2⟩, fun h => h2.2 (h1.2 h)⟩

/-- A transition that writes at most the record `self`: it keeps the run queue, permutes
the dead queue, keeps the id of `self` and a set finished flag, and leaves the join state
of `self` either other than 1, or as it was together with joinee and wait target, or 1
with a joinee in the dead queue whose id is the wait target. -/
theorem keeps_of_update (s s' : Sched) (self : Nat)
    (hr : s'.g_threads_steque = s.g_threads_steque)
    (hd : s'.g_dead_threads_steque.Perm s.g_dead_threads_steque)
    (hn : s'.g_thread_id = s.g_thread_id)
    (hmem : ∀ p, p ≠ self → s'.mem p = s.mem p)
    (hid : (s'.mem self).id = (s.mem self).id)
    (hfin : (s.mem self).is_finished ≠ 0 → (s'.mem self).is_finished ≠ 0)
    (hj : (s'.mem self).is_joined = 1 →
      ((s.mem self).is_joined = 1 ∧ (s'.mem self).joinee = (s.mem self).joinee ∧
        (s'.mem self).wait_tid = (s.mem self).wait_tid) ∨
      ∃ j, (s'.mem self).joinee = some j ∧ j ∈ s.g_dead_threads_steque ∧
        (s.mem j).id = (s'.mem self).wait_tid) :
    Keeps s s' := by
  have hids : ∀ p, (s'.mem p).id = (s.mem p).id := by
    intro p
    by_cases hp : p = self
    · rw [hp]; exact hid
    · rw [hmem p hp]
  refine ⟨⟨hids, hn, ?_⟩, ?_⟩
  · rw [hr]; exact List.Perm.append_left _ hd
  · rintro ⟨h3, h4⟩
    constructor
    · intro p hp
      have hp' : p ∈ s.g_dead_threads_steque := hd.subset hp
      by_cases hps : p = self
      · rw [hps]; exact hfin (hps ▸ h3 p hp')
      · rw [hmem p hps]; exact h3 p hp'
    · intro p hp hjp
      have hp' : p ∈ s.g_threads_steque ++ s.g_dead_threads_steque := by
        rw [hr] at hp
        rcases List.mem_append.1 hp with h | h
        · exact List.mem_append_left _ h
        · exact List.mem_append_right _ (hd.subset h)
      have hold : (s.mem p).is_joined = 1 → (s'.mem p).joinee = (s.mem p).joinee →
          (s'.mem p).wait_tid = (s.mem p).wait_tid →
          ∃ j, (s'.mem p).joinee = some j ∧ j ∈ s'.g_dead_threads_steque ∧
            (s'.mem j).id = (s'.mem p).wait_tid := by
        intro e1 e2 e3
        obtain ⟨j, hj1, hj2, hj3⟩ := h4 p hp' e1
        exact ⟨j, by rw [e2, hj1], hd.symm.subset hj2, by rw [hids, e3, hj3]⟩
      by_cases hps : p = self
      · subst hps
        rcases hj hjp with ⟨e1, e2, e3⟩ | ⟨j, hj1, hj2, hj3⟩
        · exact hold e1 e2 e3
        · exact ⟨j, hj1, hd.symm.subset hj2, by rw [hids, hj3]⟩
      · have e := hmem p hps
        exact hold (by rw [← e]; exact hjp) (by rw [e]) (by rw [e])

/-- A transition that writes no record and at most permutes the dead queue keeps the frame
and the invariant. -/
theorem keeps_of_same_mem (s s' : Sched)
    (hr : s'.g_threads_steque = s.g_threads_steque)
    (hd : s'.g_dead_threads_steque.Perm s.g_dead_threads_steque)
    (hn : s'.g_thread_id = s.g_thread_id) (hmem : s'.mem = s.mem) : Keeps s s' :=
  keeps_of_update s s' 0 hr hd hn (fun p _ => by rw [hmem]) (by rw [hmem])
    (fun h => by rw [hmem]; exact h)
    (fun h => Or.inl ⟨by rw [← hmem]; exact h, by rw [hmem], by rw [hmem]⟩)

/-- The scan of the dead queue in `gtthread_join` keeps the frame and the invariant. -/
theorem keeps_join_dead_loop (self : Nat) :
    ∀ (fuel i : Nat) (s s' : Sched) (b : Bool),
      join_dead_loop self fuel i s = .ok (s', b) → Keeps s s' := by
  intro fuel
  induction fuel with
  | zero => intro i s s' b h; simp [join_dead_loop] at h
  | succ fuel ih =>
    intro i s s' b h
    rw [join_dead_loop] at h
    by_cases hi : i < steque_size s.g_dead_threads_steque
    · rw [if_pos hi] at h
      cases hq : s.g_dead_threads_steque with
      | nil => simp [steque_size, hq] at hi
      | cons curr t =>
        simp only [sigprocmask_block, sigprocmask_unblock, hq, steque_front] at h
        by_cases hc : (s.mem curr).id = (s.mem self).wait_tid
        · rw [if_pos hc] at h
          simp only [Except.ok.injEq, Prod.mk.injEq] at h
          obtain ⟨h1, _⟩ := h
          subst h1
          refine keeps_of_update s _ self rfl (List.Perm.of_eq (by simp [store, hq])) rfl ?_ ?_ ?_ ?_
          · intro p hp
            simp [store, Function.update, hp]
          · simp [store]
          · simp [store]
          · intro _
            refine Or.inr ⟨curr, ?_, ?_, ?_⟩
            · simp [store]
            · rw [hq]; exact List.mem_cons_self _ _
            · simp [store, hc]
        · rw [if_neg hc] at h
          refine keeps_trans ?_ (ih _ _ _ _ h)
          refine keeps_of_same_mem s _ rfl ?_ rfl rfl
          simp only [steque_cycle]
          rw [hq]
          exact (List.perm_append_comm : (t ++ [curr]).Perm ([curr] ++ t))
    · rw [if_neg hi] at h
      simp only [Except.ok.injEq, Prod.mk.injEq] at h
      rw [← h.1]
      exact keeps_refl s

/-- The scan of the join queue for a mutual join keeps the frame and the invariant. -/
theorem keeps_join_mutual_loop (self : Nat) :
    ∀ (fuel i : Nat) (s s' : Sched) (b : Bool),
      join_mutual_loop self fuel i s = .ok (s', b) → Keeps s s' := by
  intro fuel
  induction fuel with
  | zero => intro i s s' b h; simp [join_mutual_loop] at h
  | succ fuel ih =>
    intro i s s' b h
    rw [join_mutual_loop] at h
    by_cases hi : i < steque_size s.g_join_steque
    · rw [if_pos hi] at h
      cases hq : s.g_join_steque with
      | nil => simp [steque_size, hq] at hi
      | cons curr t =>
        simp only [sigprocmask_block, sigprocmask_unblock, hq, steque_front] at h
        by_cases hc : (s.mem curr).wait_tid = (s.mem self).id ∧
            (s.mem curr).id = (s.mem self).wait_tid
        · rw [if_pos hc] at h
          simp only [Except.ok.injEq, Prod.mk.injEq] at h
          obtain ⟨h1, _⟩ := h
          subst h1
          refine keeps_of_update s _ self rfl (List.Perm.refl _) rfl ?_ ?_ ?_ ?_
          · intro p hp
            simp [store, Function.update, hp]
          · simp [store]
          · simp [store]
          · intro hj
            simp [store] at hj
        · rw [if_neg hc] at h
          refine keeps_trans ?_ (ih _ _ _ _ h)
          exact keeps_of_same_mem s _ rfl (List.Perm.refl _) rfl rfl
    · rw [if_neg hi] at h
      simp only [Except.ok.injEq, Prod.mk.injEq] at h
      rw [← h.1]
      exact keeps_refl s

/-- The loop of `gtthread_join` that takes the caller out of the join queue keeps the
frame and the invariant. -/
theorem keeps_join_remove_loop (self : Nat) :
    ∀ (fuel i : Nat) (s s' : Sched),
      join_remove_loop self fuel i s = .ok s' → Keeps s s' := by
  intro fuel
  induction fuel with
  | zero => intro i s s' h; simp [join_remove_loop] at h
  | succ fuel ih =>
    intro i s s' h
    rw [join_remove_loop] at h
    by_cases hi : i < steque_size s.g_join_steque
    · rw [if_pos hi] at h
      cases hq : s.g_join_steque with
      | nil => simp [steque_size, hq] at hi
      | cons curr t =>
        simp only [sigprocmask_block, sigprocmask_unblock, hq, steque_front, steque_pop] at h
        by_cases hc : gtthread_equal (s.mem self) (s.mem curr) = true
        · rw [if_pos hc] at h
          simp only [Except.ok.injEq] at h
          subst h
          exact keeps_of_same_mem s _ rfl (List.Perm.refl _) rfl rfl
        · rw [if_neg hc] at h
          refine keeps_trans ?_ (ih _ _ _ h)
          split
          · exact keeps_of_same_mem s _ rfl (List.Perm.refl _) rfl rfl
          · exact keeps_of_same_mem s _ rfl (List.Perm.refl _) rfl rfl
    · rw [if_neg hi] at h
      simp only [Except.ok.injEq] at h
      rw [← h]
      exact keeps_refl s

/-- The state in which `gtthread_join` has reset the join fields of the caller keeps the
frame and the invariant. -/
theorem keeps_join_reset (self : Nat) (s : Sched) :
    Keeps s (sigprocmask_unblock (store (store (store (sigprocmask_block s) self
      (fun t => { t with joinee := none })) self (fun t => { t with wait_tid := NO_TID }))
      self (fun t => { t with is_joined := -1 }))) := by
  refine keeps_of_update s _ self rfl (List.Perm.refl _) rfl ?_ ?_ ?_ ?_
  · intro p hp
    simp [store, Function.update, hp, sigprocmask_block, sigprocmask_unblock]
  · simp [store, sigprocmask_block, sigprocmask_unblock]
  · simp [store, sigprocmask_block, sigprocmask_unblock]
  · intro hj
    simp [store, sigprocmask_block, sigprocmask_unblock] at hj

/-- The end of `gtthread_join` keeps the frame and the invariant. -/
theorem keeps_join_finish (self : Nat) (status : Option Nat) (found : Bool) (s s' : Sched)
    (h : (gtthread_join_finish self status found s).next? = some s') : Keeps s s' := by
  unfold gtthread_join_finish at h
  simp only at h
  split at h
  · simp [Outcome.next?] at h
  · cases found with
    | true =>
      simp only [Bool.not_true, Bool.false_eq_true, if_false, Outcome.next?,
        Option.some.injEq] at h
      rw [← h]
      exact keeps_join_reset self s
    | false =>
      simp only [Bool.not_false, if_true] at h
      split at h
      · simp [Outcome.next?] at h
      · rename_i s6 h6
        simp only [Outcome.next?, Option.some.injEq] at h
        rw [← h]
        exact keeps_trans (keeps_join_reset self s) (keeps_join_remove_loop self _ _ _ _ h6)

/-- A dispatch that `DispatchFrame` describes keeps the frame and the invariant. -/
theorem keeps_of_dispatch_frame (s s' : Sched) (old : Nat) (gone rest : List Nat)
    (hD : DispatchFrame s s' old gone rest) : Keeps s s' := by
  have hdead : ∀ p, p ∈ s'.g_dead_threads_steque ↔
      p ∈ s.g_dead_threads_steque ∨ p ∈ gone ∨ (p = old ∧ (s'.mem old).is_finished ≠ 0) := by
    intro p
    rw [hD.dead_eq, List.mem_append, List.mem_append]
    by_cases hf : (s'.mem old).is_finished ≠ 0
    · rw [if_pos hf]; simp [hf, or_assoc]
    · rw [if_neg hf]; simp [hf]
  have hperm : (s'.g_threads_steque ++ s'.g_dead_threads_steque).Perm
      (s.g_threads_steque ++ s.g_dead_threads_steque) := by
    rw [hD.run_eq, hD.dead_eq, hD.run_split, List.perm_iff_count]
    intro a
    by_cases hf : (s'.mem old).is_finished ≠ 0
    · rw [if_pos hf, if_pos hf]
      simp only [List.count_append, List.count_cons, List.count_nil]
      omega
    · rw [if_neg hf, if_neg hf]
      simp only [List.count_append, List.count_cons, List.count_nil]
      omega
  refine ⟨⟨hD.id_eq, hD.next_id_eq, hperm⟩, ?_⟩
  rintro ⟨h3, h4⟩
  constructor
  · intro p hp
    rcases (hdead p).1 hp with h | h | ⟨h, hf⟩
    · by_cases hg : p ∈ gone
      · rw [(hD.gone_marked p hg).1]; decide
      · rw [(hD.others_kept p hg).1]; exact h3 p h
    · rw [(hD.gone_marked p h).1]; decide
    · rw [h]; exact hf
  · intro p hp hjp
    have hp' : p ∈ s.g_threads_steque ++ s.g_dead_threads_steque := hperm.subset hp
    by_cases hC : p ∈ s.g_join_steque ∧
        ∃ g, (g ∈ gone ∨ (g = old ∧ (s'.mem old).is_finished ≠ 0)) ∧
          (s.mem p).wait_tid = (s.mem g).id
    · obtain ⟨hw, g, hg, hwg⟩ := hC
      obtain ⟨_, j, hj1, hj2, hj3⟩ := hD.marked p hw g hg hwg
      refine ⟨j, hj1, (hdead j).2 (Or.inr hj2), ?_⟩
      rw [hD.id_eq, hD.wait_tid_eq, hj3]
    · have hk := hD.kept p (by
        by_cases hw : p ∈ s.g_join_steque
        · exact Or.inr (fun g hg he => hC ⟨hw, g, hg, he⟩)
        · exact Or.inl hw)
      obtain ⟨j, hj1, hj2, hj3⟩ := h4 p hp' (by rw [← hk.1]; exact hjp)
      exact ⟨j, by rw [hk.2, hj1], (hdead j).2 (Or.inl hj2),
        by rw [hD.id_eq, hD.wait_tid_eq, hj3]⟩

/-- A dispatch keeps the frame and the invariant, whatever its outcome. -/
theorem keeps_yield_helper (is_alarm_safe : Bool) (s s' : Sched)
    (h : (yield_helper is_alarm_safe s).state? = some s') : Keeps s s' := by
  cases hrun : s.g_threads_steque with
  | nil =>
    exfalso
    cases is_alarm_safe <;>
      simp [yield_helper, sigprocmask_block, steque_size, hrun, steque_pop,
        Outcome.state?] at h
  | cons old rest =>
    cases rest with
    | nil =>
      rw [yield_helper_single is_alarm_safe s old hrun] at h
      simp only [Outcome.state?, Option.some.injEq] at h
      rw [← h]
      cases is_alarm_safe
      · exact keeps_refl s
      · exact keeps_of_same_mem s _ rfl (List.Perm.refl _) rfl rfl
    | cons h1 rq =>
      obtain ⟨gone, rest, s1, hD, _, hst, _, _⟩ :=
        yield_helper_dispatch is_alarm_safe s old h1 rq hrun
      rw [hst] at h
      simp only [Option.some.injEq] at h
      rw [← h]
      exact keeps_of_dispatch_frame s s1 old gone rest hD

/-- The state a call goes on in is the state its outcome leaves. -/
theorem state_of_next {α : Type} (o : Outcome α) (s' : Sched) (h : o.next? = some s') :
    o.state? = some s' := by
  cases o <;> simp [Outcome.next?, Outcome.state?] at h ⊢
  · exact h
  · exact h

/-- The waiting loop of `gtthread_join` and the end of the call keep the frame and the
invariant, whether the caller is switched away from or the call returns. -/
theorem keeps_join_wait (self : Nat) (status : Option Nat) :
    ∀ (fuel : Nat) (s s' : Sched),
      (gtthread_join_wait self status fuel s).next? = some s' → Keeps s s' := by
  intro fuel
  induction fuel with
  | zero => intro s s' h; simp [gtthread_join_wait, Outcome.next?] at h
  | succ fuel ih =>
    intro s s' h
    rw [gtthread_join_wait] at h
    by_cases hj : (s.mem self).is_joined = 0
    · rw [if_pos hj] at h
      cases hy : alarm_safe_yield s with
      | returned r s1 =>
        rw [hy] at h
        simp only [Outcome.andThen] at h
        have hk : Keeps s s1 := keeps_yield_helper true s s1 (by
          have : yield_helper true s = .returned r s1 := hy
          rw [this]; rfl)
        exact keeps_trans hk (ih s1 s' h)
      | switched s1 o n =>
        rw [hy] at h
        simp only [Outcome.andThen, Outcome.next?, Option.some.injEq] at h
        rw [← h]
        exact keeps_yield_helper true s s1 (by
          have : yield_helper true s = .switched s1 o n := hy
          rw [this]; rfl)
      | exited c s1 =>
        rw [hy] at h
        simp [Outcome.andThen, Outcome.next?] at h
      | err e =>
        rw [hy] at h
        simp [Outcome.andThen, Outcome.next?] at h
    · rw [if_neg hj] at h
      exact keeps_join_finish self status false s s' h

/-- A write of the join state and the wait target of `self` that leaves the join state
other than 1 keeps the frame and the invariant, whatever the signal mask and the join
queue become. -/
theorem keeps_join_fields (s s' : Sched) (self : Nat)
    (hr : s'.g_threads_steque = s.g_threads_steque)
    (hd : s'.g_dead_threads_steque = s.g_dead_threads_steque)
    (hn : s'.g_thread_id = s.g_thread_id)
    (hmem : ∀ p, p ≠ self → s'.mem p = s.mem p)
    (hid : (s'.mem self).id = (s.mem self).id)
    (hfin : (s'.mem self).is_finished = (s.mem self).is_finished)
    (hj : (s'.mem self).is_joined ≠ 1) : Keeps s s' :=
  keeps_of_update s s' self hr (List.Perm.of_eq hd) hn hmem hid (fun h => by rw [hfin]; exact h)
    (fun h => absurd h hj)

/-- `gtthread_join` keeps the frame and the invariant, whether the caller is switched away
from or the call returns. -/
theorem keeps_join (fuel : Nat) (thread : gtthread_t) (status : Option Nat) (s s' : Sched)
    (h : (gtthread_join fuel thread status s).next? = some s') : Keeps s s' := by
  unfold gtthread_join at h
  cases hrun : s.g_threads_steque with
  | nil => simp [sigprocmask_block, hrun, steque_front, Outcome.next?] at h
  | cons self rest =>
    simp only [sigprocmask_block, sigprocmask_unblock, hrun, steque_front] at h
    split at h
    · simp only [Outcome.next?, Option.some.injEq] at h
      rw [← h]
      exact keeps_of_same_mem s _ (by simp [hrun]) (List.Perm.refl _) rfl rfl
    · have hk6 : Keeps s
          { store (store { s with g_threads_steque := self :: rest, vtalrm_blocked := true }
              self (fun t => { t with is_joined := 0 })) self
              (fun t => { t with wait_tid := thread.id }) with vtalrm_blocked := true } := by
        refine keeps_join_fields s _ self (by simp [store, hrun]) rfl rfl ?_ ?_ ?_ ?_
        · intro p hp
          simp [store, Function.update, hp]
        · simp [store]
        · simp [store]
        · simp [store]
      split at h
      · simp [Outcome.next?] at h
      · rename_i s7 found hdl
        have hk7 : Keeps s s7 := keeps_trans hk6 (keeps_join_dead_loop self _ _ _ _ _ hdl)
        cases found with
        | true =>
          simp only [Bool.not_true, Bool.false_eq_true, if_false] at h
          exact keeps_trans hk7 (keeps_join_finish self status true s7 s' h)
        | false =>
          simp only [Bool.not_false, if_true] at h
          split at h
          · simp [Outcome.next?] at h
          · rename_i s8 hml
            simp only [Outcome.next?, Option.some.injEq] at h
            rw [← h]
            exact keeps_trans hk7 (keeps_join_mutual_loop self _ _ _ _ _ hml)
          · rename_i s8 hml
            have hk8 : Keeps s s8 :=
              keeps_trans hk7 (keeps_join_mutual_loop self _ _ _ _ _ hml)
            refine keeps_trans (keeps_trans hk8 ?_) (keeps_join_wait self status fuel _ s' h)
            exact keeps_of_same_mem s8 _ rfl (List.Perm.refl _) rfl rfl

/-- A write to the record `self` that leaves its id, its join state, its joinee and its
wait target alone, and does not clear a set finished flag, keeps the frame and the
invariant. -/
theorem keeps_of_result_fields (s s' : Sched) (self : Nat)
    (hr : s'.g_threads_steque = s.g_threads_steque)
    (hd : s'.g_dead_threads_steque = s.g_dead_threads_steque)
    (hn : s'.g_thread_id = s.g_thread_id)
    (hmem : ∀ p, p ≠ self → s'.mem p = s.mem p)
    (hid : (s'.mem self).id = (s.mem self).id)
    (hfin : (s.mem self).is_finished ≠ 0 → (s'.mem self).is_finished ≠ 0)
    (hj : (s'.mem self).is_joined = (s.mem self).is_joined)
    (hje : (s'.mem self).joinee = (s.mem self).joinee)
    (hw : (s'.mem self).wait_tid = (s.mem self).wait_tid) : Keeps s s' :=
  keeps_of_update s s' self hr (List.Perm.of_eq hd) hn hmem hid hfin
    (fun h => Or.inl ⟨by rw [← hj]; exact h, hje, hw⟩)

/-- `gtthread_exit` keeps the frame and the invariant when the process goes on. -/
theorem keeps_exit (retval : Nat) (s s' : Sched)
    (h : (gtthread_exit retval s).next? = some s') : Keeps s s' := by
  cases hrun : s.g_threads_steque with
  | nil => simp [gtthread_exit, sigprocmask_block, hrun, steque_front, Outcome.next?] at h
  | cons caller rest =>
    cases rest with
    | nil =>
      obtain ⟨s1, h1⟩ := gtthread_exit_alone retval s caller hrun
      rw [h1] at h
      simp [Outcome.next?] at h
    | cons h1 rq =>
      rw [gtthread_exit_eq_marked retval s caller h1 rq hrun] at h
      refine keeps_trans ?_
        (keeps_yield_helper true (exit_marked retval s caller) s' (state_of_next _ _ h))
      refine keeps_of_result_fields s _ caller rfl rfl rfl ?_ ?_ ?_ ?_ ?_ ?_
      · intro p hp
        simp [exit_marked, Function.update, hp]
      · simp [exit_marked]
      · intro _
        simp [exit_marked]
      · simp [exit_marked]
      · simp [exit_marked]
      · simp [exit_marked]

/-- `gtthread_cancel` keeps the frame and the invariant, whether the caller is switched
away from or the call returns. -/
theorem keeps_cancel (thread : gtthread_t) (s s' : Sched)
    (h : (gtthread_cancel thread s).next? = some s') : Keeps s s' := by
  cases hrun : s.g_threads_steque with
  | nil => simp [gtthread_cancel, gtthread_self, hrun, steque_front, Outcome.next?] at h
  | cons self rest =>
    have hk : Keeps s (with_cancel s (s.g_cancelatorium ++ [thread.id])) :=
      keeps_of_same_mem s _ rfl (List.Perm.refl _) rfl rfl
    by_cases he : thread.id = (s.mem self).id
    · rw [gtthread_cancel_self thread s self rest hrun he] at h
      refine keeps_trans hk (keeps_yield_helper true _ s' ?_)
      cases hy : yield_helper true (with_cancel s (s.g_cancelatorium ++ [thread.id])) with
      | returned r s1 =>
        rw [hy] at h
        simpa [Outcome.andThen, Outcome.next?, Outcome.state?] using h
      | switched s1 o n =>
        rw [hy] at h
        simpa [Outcome.andThen, Outcome.next?, Outcome.state?] using h
      | exited c s1 =>
        rw [hy] at h
        simp [Outcome.andThen, Outcome.next?] at h
      | err e =>
        rw [hy] at h
        simp [Outcome.andThen, Outcome.next?] at h
    · rw [gtthread_cancel_other thread s self rest hrun he] at h
      simp only [Outcome.next?, Option.some.injEq] at h
      rw [← h]
      exact hk

/-- The trampoline, from the return of the start routine on, keeps the frame and the
invariant when the process goes on. -/
theorem keeps_apply (func_result runner_thread : Nat) (s s' : Sched)
    (h : (apply func_result runner_thread s).next? = some s') : Keeps s s' := by
  unfold apply at h
  refine keeps_trans ?_ (keeps_exit NULL _ s' h)
  refine keeps_of_result_fields s _ runner_thread rfl rfl rfl ?_ ?_ ?_ ?_ ?_ ?_
  · intro p hp
    simp [store, Function.update, hp]
  · simp [store]
  · intro hf
    simpa [store] using hf
  · simp [store]
  · simp [store]
  · simp [store]

/-- Every step keeps the frame and the invariant of join completion. -/
theorem keeps_step (s s' : Sched) (h : Step s s') : Keeps s s' := by
  cases h with
  | yield h => exact keeps_yield_helper true s s' (state_of_next _ _ h)
  | alarm _ h => exact keeps_yield_helper false s s' (state_of_next _ _ h)
  | join fuel thread status h => exact keeps_join fuel thread status s s' h
  | join_resume fuel self status _ _ h => exact keeps_join_wait self status fuel s s' h
  | exit retval h => exact keeps_exit retval s s' h
  | cancel thread h => exact keeps_cancel thread s s' h
  | start_routine_returns r t _ h => exact keeps_apply r t s s' h

/-! ## Init, create and the reachable states -/

/-- `gtthread_create` in closed form: the record gets the next id and the initial fields
(its joinee is left as it is), goes to the tail of the run queue, and 0 is returned. -/
theorem gtthread_create_facts (thread : Nat) (s : Sched) :
    (gtthread_create thread s).1 = 0 ∧
    (gtthread_create thread s).2.g_threads_steque = s.g_threads_steque ++ [thread] ∧
    (gtthread_create thread s).2.g_dead_threads_steque = s.g_dead_threads_steque ∧
    (gtthread_create thread s).2.g_join_steque = s.g_join_steque ∧
    (gtthread_create thread s).2.g_cancelatorium = s.g_cancelatorium ∧
    (gtthread_create thread s).2.g_thread_id = s.g_thread_id + 1 ∧
    (gtthread_create thread s).2.vtalrm_blocked = s.vtalrm_blocked ∧
    (gtthread_create thread s).2.mem thread =
      { id := s.g_thread_id, is_finished := 0, retval := NULL, is_joined := -1,
        wait_tid := NO_TID, joinee := (s.mem thread).joinee } ∧
    (∀ p, p ≠ thread → (gtthread_create thread s).2.mem p = s.mem p) := by
  refine ⟨rfl, rfl, rfl, rfl, rfl, rfl, rfl, ?_, ?_⟩
  · simp [gtthread_create, store]
  · intro p hp
    simp [gtthread_create, store, Function.update, hp]

/-- `gtthread_init` in closed form: the four queues are emptied, the signal is unblocked,
and the record of the initial thread gets the next id and the initial fields and is alone
in the run queue. -/
theorem gtthread_init_facts (period : Int) (main_thread : Nat) (s : Sched) :
    (gtthread_init period main_thread s).g_threads_steque = [main_thread] ∧
    (gtthread_init period main_thread s).g_dead_threads_steque = [] ∧
    (gtthread_init period main_thread s).g_join_steque = [] ∧
    (gtthread_init period main_thread s).g_cancelatorium = [] ∧
    (gtthread_init period main_thread s).g_thread_id = s.g_thread_id + 1 ∧
    (gtthread_init period main_thread s).vtalrm_blocked = false ∧
    (gtthread_init period main_thread s).mem main_thread =
      { id := s.g_thread_id, is_finished := 0, retval := NULL, is_joined := -1,
        wait_tid := NO_TID, joinee := (s.mem main_thread).joinee } ∧
    (∀ p, p ≠ main_thread → (gtthread_init period main_thread s).mem p = s.mem p) := by
  refine ⟨rfl, rfl, rfl, rfl, rfl, rfl, ?_, ?_⟩
  · simp [gtthread_init, store, set_up_alarm, sigprocmask_unblock]
  · intro p hp
    simp [gtthread_init, store, set_up_alarm, sigprocmask_unblock, Function.update, hp]

/-- The state after `gtthread_init` at program start has the invariants. -/
theorem init_invariants (period : Int) (main_thread : Nat) (s0 : Sched)
    (h0 : s0.g_thread_id = 0) :
    ThreadIdsInv 0 (gtthread_init period main_thread s0) ∧
      JoinInv (gtthread_init period main_thread s0) := by
  obtain ⟨hr, hd, _, _, hn, _, hm, _⟩ := gtthread_init_facts period main_thread s0
  refine ⟨⟨?_, ?_, ?_⟩, ?_, ?_⟩
  · rw [hr, hd]; simp [ids_of]
  · intro p hp
    rw [hr, hd] at hp
    simp at hp
    rw [hp, hm, hn]
    simp
  · rw [hn, h0]
  · intro p hp
    rw [hd] at hp
    cases hp
  · intro p hp hj
    rw [hr, hd] at hp
    simp at hp
    rw [hp, hm] at hj
    simp at hj

/-- A `gtthread_create` on a record that is in neither the run queue nor the dead queue
keeps the invariants, with one more id issued. -/
theorem create_invariants (n : Nat) (s : Sched) (thread : Nat)
    (hfr : thread ∉ s.g_threads_steque) (hfd : thread ∉ s.g_dead_threads_steque)
    (hI : ThreadIdsInv n s) (hJ : JoinInv s) :
    ThreadIdsInv (n + 1) (gtthread_create thread s).2 ∧
      JoinInv (gtthread_create thread s).2 := by
  obtain ⟨_, hr, hd, _, _, hn, _, hm, hoth⟩ := gtthread_create_facts thread s
  obtain ⟨hnd, hlt, hnext⟩ := hI
  obtain ⟨h3, h4⟩ := hJ
  have hne : ∀ p, p ∈ s.g_threads_steque ++ s.g_dead_threads_steque → p ≠ thread := by
    intro p hp he
    rw [he] at hp
    rcases List.mem_append.1 hp with h | h
    · exact hfr h
    · exact hfd h
  have hmem' : ∀ p, p ∈ (gtthread_create thread s).2.g_threads_steque ++
      (gtthread_create thread s).2.g_dead_threads_steque ↔
      p = thread ∨ p ∈ s.g_threads_steque ++ s.g_dead_threads_steque := by
    intro p
    rw [hr, hd]
    simp only [List.mem_append, List.mem_singleton]
    tauto
  have hperm : ((gtthread_create thread s).2.g_threads_steque ++
      (gtthread_create thread s).2.g_dead_threads_steque).Perm
      (thread :: (s.g_threads_steque ++ s.g_dead_threads_steque)) := by
    rw [hr, hd, List.perm_iff_count]
    intro a
    simp only [List.count_append, List.count_cons, List.count_nil]
    omega
  refine ⟨⟨?_, ?_, ?_⟩, ?_, ?_⟩
  · have hp2 := hperm.map (fun p => ((gtthread_create thread s).2.mem p).id)
    refine (List.Perm.nodup_iff hp2).2 ?_
    rw [List.map_cons, List.nodup_cons]
    have hmap : (s.g_threads_steque ++ s.g_dead_threads_steque).map
        (fun p => ((gtthread_create thread s).2.mem p).id) =
        ids_of s (s.g_threads_steque ++ s.g_dead_threads_steque) := by
      apply List.map_congr_left
      intro p hp
      show ((gtthread_create thread s).2.mem p).id = (s.mem p).id
      rw [hoth p (hne p hp)]
    rw [hmap]
    refine ⟨?_, hnd⟩
    intro hin
    obtain ⟨p, hp, he⟩ := List.mem_map.1 hin
    have := hlt p hp
    rw [hm] at he
    simp only at he
    omega
  · intro p hp
    rw [hn]
    rcases (hmem' p).1 hp with h | h
    · rw [h, hm]; simp
    · rw [hoth p (hne p h)]
      exact Nat.lt_succ_of_lt (hlt p h)
  · rw [hn, hnext]
  · intro p hp
    rw [hd] at hp
    rw [hoth p (hne p (List.mem_append_right _ hp))]
    exact h3 p hp
  · intro p hp hj
    rcases (hmem' p).1 hp with h | h
    · rw [h, hm] at hj
      simp at hj
    · rw [hoth p (hne p h)] at hj ⊢
      obtain ⟨j, hj1, hj2, hj3⟩ := h4 p h hj
      refine ⟨j, hj1, by rw [hd]; exact hj2, ?_⟩
      rw [hoth j (hne j (List.mem_append_right _ hj2))]
      exact hj3

/-- A step keeps the invariant of thread ids. -/
theorem step_frame_ids (n : Nat) (s s' : Sched) (hF : StepFrame s s') (hI : ThreadIdsInv n s) :
    ThreadIdsInv n s' := by
  obtain ⟨hid, hn, hperm⟩ := hF
  obtain ⟨hnd, hlt, hnext⟩ := hI
  have hmap : ids_of s' (s'.g_threads_steque ++ s'.g_dead_threads_steque) =
      ids_of s (s'.g_threads_steque ++ s'.g_dead_threads_steque) := by
    apply List.map_congr_left
    intro p _
    exact hid p
  refine ⟨?_, ?_, by rw [hn, hnext]⟩
  · rw [hmap]
    exact (List.Perm.nodup_iff (hperm.map _)).2 hnd
  · intro p hp
    rw [hid, hn]
    exact hlt p (hperm.subset hp)

/-- The invariants hold along every run from a state that has them. -/
theorem runN_invariants (s0 : Sched) (k : Nat) (hI0 : ThreadIdsInv k s0) (hJ0 : JoinInv s0) :
    ∀ (n : Nat) (s : Sched), RunN s0 n s → ThreadIdsInv (k + n) s ∧ JoinInv s := by
  intro n s h
  induction h with
  | start => exact ⟨hI0, hJ0⟩
  | create thread _ hfr hfd ih => exact create_invariants _ _ thread hfr hfd ih.1 ih.2
  | step _ hstep ih =>
    have hk := keeps_step _ _ hstep
    exact ⟨step_frame_ids _ _ _ hk.1 ih.1, hk.2 ih.2⟩

/-- The invariants hold in every reachable state. -/
theorem reachable_invariants (n : Nat) (s : Sched) (h : Reachable n s) :
    ThreadIdsInv n s ∧ JoinInv s := by
  obtain ⟨period, main_thread, s0, h0, hrun⟩ := h
  obtain ⟨hI, hJ⟩ := init_invariants period main_thread s0 h0
  have := runN_invariants _ 0 hI hJ n s hrun
  rwa [Nat.zero_add] at this

/-! ## The signal mask after a cooperative dispatch -/

/-- A cooperative dispatch that comes back to its caller without a context switch has
blocked the signal on entry and has not unblocked it. -/
theorem yield_helper_returned_mask (s s' : Sched)
    (h : yield_helper true s = .returned () s') : s'.vtalrm_blocked = true := by
  cases hrun : s.g_threads_steque with
  | nil =>
    exfalso
    simp [yield_helper, sigprocmask_block, steque_size, hrun, steque_pop] at h
  | cons old rest =>
    cases rest with
    | nil =>
      rw [yield_helper_single true s old hrun] at h
      simp only [if_true, Outcome.returned.injEq, true_and] at h
      rw [← h]
      rfl
    | cons h1 rq =>
      obtain ⟨s3, nt, gone, hsw, hfr, _, _⟩ :=
        cancel_sweep_frame (steque_size (h1 :: rq) + 1)
          { s with g_threads_steque := h1 :: rq, vtalrm_blocked := true } none
          (by simp [steque_size])
      rw [yield_helper_eq true s old h1 rq hrun, hsw] at h
      simp only at h
      rw [dispatch_tail_eq] at h
      have hmask : (dispatch_moved old s3).vtalrm_blocked = true := by
        rw [dispatch_moved_mask]
        exact hfr.mask_eq
      cases hq : (dispatch_moved old s3).g_threads_steque with
      | nil =>
        rw [hq] at h
        simp at h
      | cons f r =>
        rw [hq] at h
        simp only at h
        split at h
        · simp only [if_true, Outcome.returned.injEq, true_and] at h
          rw [← h]
          exact hmask
        · cases nt <;> simp at h

/-- C23 at its failing inputs.  The initial thread, alone in the run queue and with the
signal unblocked, calls `gtthread_yield`: the call returns to it with the signal blocked.
Thread 0 calls `gtthread_yield` with the signal unblocked while a cancel is pending for
the only other runnable thread: the sweep cancels thread 1, thread 0 is the front of the
run queue again, and the call returns to it with the signal blocked.  The same holds for
every `alarm_safe_yield` that returns without a context switch, and a `gtthread_cancel` of
the caller that returns passes the blocked signal on to its caller. -/
theorem cooperative_yield_returns_masked :
    (ex_single.vtalrm_blocked = false ∧ (gtthread_yield ex_single).isReturned = true ∧
      (gtthread_yield ex_single).state?.map (fun s' => s'.vtalrm_blocked) = some true) ∧
    (ex_two_pending.vtalrm_blocked = false ∧
      (gtthread_yield ex_two_pending).isReturned = true ∧
      (gtthread_yield ex_two_pending).state?.map
        (fun s' => (s'.vtalrm_blocked, s'.g_threads_steque)) = some (true, [100])) ∧
    (∀ s s', alarm_safe_yield s = .returned () s' → s'.vtalrm_blocked = true) ∧
    (∀ (thread : gtthread_t) (s s' : Sched) (self : Nat) (rest : List Nat),
      s.g_threads_steque = self :: rest → thread.id = (s.mem self).id →
      gtthread_cancel thread s = .returned 0 s' → s'.vtalrm_blocked = true) := by
  refine ⟨⟨rfl, by decide, by decide⟩, ⟨rfl, by decide, by decide⟩,
    fun s s' h => yield_helper_returned_mask s s' h, ?_⟩
  intro thread s s' self rest hrun he h
  rw [gtthread_cancel_self thread s self rest hrun he] at h
  cases hy : yield_helper true (with_cancel s (s.g_cancelatorium ++ [thread.id])) with
  | returned r s1 =>
    rw [hy] at h
    simp only [Outcome.andThen, Outcome.returned.injEq, true_and] at h
    rw [← h]
    exact yield_helper_returned_mask _ s1 hy
  | switched s1 o n => rw [hy] at h; simp [Outcome.andThen] at h
  | exited c s1 => rw [hy] at h; simp [Outcome.andThen] at h
  | err e => rw [hy] at h; simp [Outcome.andThen] at h

/-! ## The join queue after a cancellation -/

/-- C21 at its failing input.  The initial thread creates a thread and waits for it in
`gtthread_join`; the new thread cancels the initial thread and yields.  The state reached
is reachable through the API; in it the record of the initial thread is finished with the
cancelled return value and is in the dead queue, is not in the run queue, and is still in
the join queue. -/
theorem cancelled_waiter_stays_in_join_queue :
    Reachable 1 ex_run_waiter_cancelled ∧
    ex_run_joining.g_join_steque = [100] ∧ ex_run_joining.g_threads_steque = [101, 100] ∧
    ex_run_waiter_cancelled.g_join_steque = [100] ∧
    ex_run_waiter_cancelled.g_dead_threads_steque = [100] ∧
    ex_run_waiter_cancelled.g_threads_steque = [101] ∧
    (ex_run_waiter_cancelled.mem 100).is_finished = 1 ∧
    (ex_run_waiter_cancelled.mem 100).retval = CANCELED := by
  refine ⟨⟨0, 100, ex_boot, rfl, ?_⟩, by decide, by decide, by decide, by decide, by decide,
    by decide, by decide⟩
  exact RunN.step
    (RunN.step
      (RunN.step (RunN.create 101 RunN.start (by decide) (by decide))
        (Step.join 1 (ex_run_created.mem 101) none
          (rfl : (gtthread_join 1 (ex_run_created.mem 101) none ex_run_created).next? =
            some ex_run_joining)))
      (Step.cancel (ex_run_joining.mem 100)
        (rfl : (gtthread_cancel (ex_run_joining.mem 100) ex_run_joining).next? =
          some ex_run_waiter_pending)))
    (Step.yield (rfl : (gtthread_yield ex_run_waiter_pending).next? =
      some ex_run_waiter_cancelled))

/-! ## The cancel queue along a run -/

/-- A named step is a step. -/
theorem call_step (c : Call) (s s' : Sched) (h : c.next s = some s') : Step s s' := by
  cases c with
  | yield => exact Step.yield h
  | alarm =>
    simp only [Call.next] at h
    split at h
    · rename_i hb
      exact Step.alarm hb h
    · cases h
  | join fuel thread status => exact Step.join fuel thread status h
  | join_resume fuel self status =>
    simp only [Call.next] at h
    split at h
    · rename_i hb
      exact Step.join_resume fuel self status hb.1 hb.2 h
    · cases h
  | exit retval => exact Step.exit retval h
  | cancel thread => exact Step.cancel thread h
  | start_routine_returns r t =>
    simp only [Call.next] at h
    split at h
    · rename_i hb
      exact Step.start_routine_returns r t hb h
    · cases h

/-- A step is a named step. -/
theorem step_call (s s' : Sched) (h : Step s s') : ∃ c : Call, c.next s = some s' := by
  cases h with
  | yield h => exact ⟨.yield, h⟩
  | alarm hb h => exact ⟨.alarm, by simp only [Call.next, hb, if_true]; exact h⟩
  | join fuel thread status h => exact ⟨.join fuel thread status, h⟩
  | join_resume fuel self status h1 h2 h =>
    exact ⟨.join_resume fuel self status, by
      simp only [Call.next]; rw [if_pos ⟨h1, h2⟩]; exact h⟩
  | exit retval h => exact ⟨.exit retval, h⟩
  | cancel thread h => exact ⟨.cancel thread, h⟩
  | start_routine_returns r t h1 h =>
    exact ⟨.start_routine_returns r t, by simp only [Call.next]; rw [if_pos h1]; exact h⟩

/-- No transition at all is quiet. -/
theorem quiet_refl (self : Nat) (s : Sched) : Quiet self s s :=
  ⟨rfl, List.Perm.refl _, rfl, fun _ _ => rfl, rfl, rfl, rfl⟩

/-- Quiet parts of a call compose. -/
theorem quiet_trans {self : Nat} {a b c : Sched} (h1 : Quiet self a b) (h2 : Quiet self b c) :
    Quiet self a c :=
  ⟨h2.run_eq.trans h1.run_eq, h2.dead_perm.trans h1.dead_perm,
    h2.next_id_eq.trans h1.next_id_eq,
    fun p hp => (h2.others p hp).trans (h1.others p hp),
    h2.id_eq.trans h1.id_eq, h2.finished_eq.trans h1.finished_eq,
    h2.retval_eq.trans h1.retval_eq⟩

/-- A transition that writes no record and at most permutes the dead queue is quiet. -/
theorem quiet_of_same_mem (self : Nat) (s s' : Sched)
    (hr : s'.g_threads_steque = s.g_threads_steque)
    (hd : s'.g_dead_threads_steque.Perm s.g_dead_threads_steque)
    (hn : s'.g_thread_id = s.g_thread_id) (hmem : s'.mem = s.mem) : Quiet self s s' :=
  ⟨hr, hd, hn, fun p _ => by rw [hmem], by rw [hmem], by rw [hmem], by rw [hmem]⟩

/-- The parts of a call by one thread compose. -/
theorem act_frame_trans {a : Nat} {s s1 s2 : Sched} (h1 : ActFrame a s s1)
    (h2 : ActFrame a s1 s2) : ActFrame a s s2 :=
  { perm := h2.perm.trans h1.perm
    run_sub := fun p hp => h1.run_sub p (h2.run_sub p hp)
    dead_sub := fun p hp => h2.dead_sub p (h1.dead_sub p hp)
    next_id_eq := h2.next_id_eq.trans h1.next_id_eq
    id_eq := fun p => (h2.id_eq p).trans (h1.id_eq p)
    result_kept := fun p hp => by
      have hp1 : p ∉ s1.g_threads_steque := fun h => hp (h1.run_sub p h)
      obtain ⟨e1, e2⟩ := h1.result_kept p hp
      obtain ⟨e3, e4⟩ := h2.result_kept p hp1
      exact ⟨e3.trans e1, e4.trans e2⟩
    wait_kept := fun p hp => (h2.wait_kept p hp).trans (h1.wait_kept p hp)
    join_kept := fun p hp => by
      rcases h2.join_kept p hp with ⟨e1, e2⟩ | ⟨e1, g, hg, e2, e3⟩
      · rcases h1.join_kept p hp with ⟨f1, f2⟩ | ⟨f1, g, hg, f2, f3⟩
        · exact Or.inl ⟨e1.trans f1, e2.trans f2⟩
        · exact Or.inr ⟨e1.trans f1, g, hg, e2.trans f2, f3⟩
      · refine Or.inr ⟨e1, g, h1.run_sub g hg, e2, ?_⟩
        rw [← h1.id_eq g, e3, h1.wait_kept p hp] }

/-- A quiet part of a call by `self` leaves alone what `ActFrame` says. -/
theorem act_frame_of_quiet (self : Nat) (s s' : Sched) (h : Quiet self s s') :
    ActFrame self s s' :=
  { perm := by rw [h.run_eq]; exact List.Perm.append_left _ h.dead_perm
    run_sub := fun p hp => by rw [← h.run_eq]; exact hp
    dead_sub := fun p hp => h.dead_perm.symm.subset hp
    next_id_eq := h.next_id_eq
    id_eq := fun p => by
      by_cases hp : p = self
      · rw [hp]; exact h.id_eq
      · rw [h.others p hp]
    result_kept := fun p _ => by
      by_cases hp : p = self
      · rw [hp]; exact ⟨h.retval_eq, h.finished_eq⟩
      · rw [h.others p hp]; exact ⟨rfl, rfl⟩
    wait_kept := fun p hp => by rw [h.others p hp]
    join_kept := fun p hp => by rw [h.others p hp]; exact Or.inl ⟨rfl, rfl⟩ }

/-- A quiet part of a call keeps the finished records of the run queue in the dead queue. -/
theorem fin_in_dead_of_quiet (self : Nat) (s s' : Sched) (h : Quiet self s s')
    (hf : FinInDead s) : FinInDead s' := by
  intro p hp hfin
  rw [h.run_eq] at hp
  refine h.dead_perm.symm.subset (hf p hp ?_)
  by_cases hps : p = self
  · rw [hps, ← h.finished_eq, ← hps]; exact hfin
  · rw [← h.others p hps]; exact hfin

/-- Different records keep different ids where the ids and the records of the two queues
are kept. -/
theorem ids_inj_of_frame (a : Nat) (s s' : Sched) (h : ActFrame a s s') (hi : IdsInj s) :
    IdsInj s' := by
  intro p hp q hq he
  rw [h.id_eq, h.id_eq] at he
  exact hi p (h.perm.subset hp) q (h.perm.subset hq) he

/-- A write to the record `self` that leaves its id, its finished flag and its return
value alone, with whatever signal mask and join queue, is quiet. -/
theorem quiet_of_update (self : Nat) (s s' : Sched)
    (hr : s'.g_threads_steque = s.g_threads_steque)
    (hd : s'.g_dead_threads_steque = s.g_dead_threads_steque)
    (hn : s'.g_thread_id = s.g_thread_id)
    (hmem : ∀ p, p ≠ self → s'.mem p = s.mem p)
    (hid : (s'.mem self).id = (s.mem self).id)
    (hfin : (s'.mem self).is_finished = (s.mem self).is_finished)
    (hret : (s'.mem self).retval = (s.mem self).retval) : Quiet self s s' :=
  ⟨hr, List.Perm.of_eq hd, hn, hmem, hid, hfin, hret⟩

/-- The scan of the dead queue in `gtthread_join` is quiet. -/
theorem quiet_join_dead_loop (self : Nat) :
    ∀ (fuel i : Nat) (s s' : Sched) (b : Bool),
      join_dead_loop self fuel i s = .ok (s', b) → Quiet self s s' := by
  intro fuel
  induction fuel with
  | zero => intro i s s' b h; simp [join_dead_loop] at h
  | succ fuel ih =>
    intro i s s' b h
    rw [join_dead_loop] at h
    by_cases hi : i < steque_size s.g_dead_threads_steque
    · rw [if_pos hi] at h
      cases hq : s.g_dead_threads_steque with
      | nil => simp [steque_size, hq] at hi
      | cons curr t =>
        simp only [sigprocmask_block, sigprocmask_unblock, hq, steque_front] at h
        by_cases hc : (s.mem curr).id = (s.mem self).wait_tid
        · rw [if_pos hc] at h
          simp only [Except.ok.injEq, Prod.mk.injEq] at h
          obtain ⟨h1, _⟩ := h
          subst h1
          refine quiet_of_update self s _ rfl (by simp [store, hq]) rfl ?_ ?_ ?_ ?_
          · intro p hp
            simp [store, Function.update, hp]
          · simp [store]
          · simp [store]
          · simp [store]
        · rw [if_neg hc] at h
          refine quiet_trans ?_ (ih _ _ _ _ h)
          refine quiet_of_same_mem self s _ rfl ?_ rfl rfl
          simp only [steque_cycle]
          rw [hq]
          exact (List.perm_append_comm : (t ++ [curr]).Perm ([curr] ++ t))
    · rw [if_neg hi] at h
      simp only [Except.ok.injEq, Prod.mk.injEq] at h
      rw [← h.1]
      exact quiet_refl self s

/-- The scan of the join queue for a mutual join is quiet. -/
theorem quiet_join_mutual_loop (self : Nat) :
    ∀ (fuel i : Nat) (s s' : Sched) (b : Bool),
      join_mutual_loop self fuel i s = .ok (s', b) → Quiet self s s' := by
  intro fuel
  induction fuel with
  | zero => intro i s s' b h; simp [join_mutual_loop] at h
  | succ fuel ih =>
    intro i s s' b h
    rw [join_mutual_loop] at h
    by_cases hi : i < steque_size s.g_join_steque
    · rw [if_pos hi] at h
      cases hq : s.g_join_steque with
      | nil => simp [steque_size, hq] at hi
      | cons curr t =>
        simp only [sigprocmask_block, sigprocmask_unblock, hq, steque_front] at h
        by_cases hc : (s.mem curr).wait_tid = (s.mem self).id ∧
            (s.mem curr).id = (s.mem self).wait_tid
        · rw [if_pos hc] at h
          simp only [Except.ok.injEq, Prod.mk.injEq] at h
          obtain ⟨h1, _⟩ := h
          subst h1
          refine quiet_of_update self s _ rfl rfl rfl ?_ ?_ ?_ ?_
          · intro p hp
            simp [store, Function.update, hp]
          · simp [store]
          · simp [store]
          · simp [store]
        · rw [if_neg hc] at h
          refine quiet_trans ?_ (ih _ _ _ _ h)
          exact quiet_of_same_mem self s _ rfl (List.Perm.refl _) rfl rfl
    · rw [if_neg hi] at h
      simp only [Except.ok.injEq, Prod.mk.injEq] at h
      rw [← h.1]
      exact quiet_refl self s

/-- The loop of `gtthread_join` that takes the caller out of the join queue is quiet. -/
theorem quiet_join_remove_loop (self : Nat) :
    ∀ (fuel i : Nat) (s s' : Sched),
      join_remove_loop self fuel i s = .ok s' → Quiet self s s' := by
  intro fuel
  induction fuel with
  | zero => intro i s s' h; simp [join_remove_loop] at h
  | succ fuel ih =>
    intro i s s' h
    rw [join_remove_loop] at h
    by_cases hi : i < steque_size s.g_join_steque
    · rw [if_pos hi] at h
      cases hq : s.g_join_steque with
      | nil => simp [steque_size, hq] at hi
      | cons curr t =>
        simp only [sigprocmask_block, sigprocmask_unblock, hq, steque_front, steque_pop] at h
        by_cases hc : gtthread_equal (s.mem self) (s.mem curr) = true
        · rw [if_pos hc] at h
          simp only [Except.ok.injEq] at h
          subst h
          exact quiet_of_same_mem self s _ rfl (List.Perm.refl _) rfl rfl
        · rw [if_neg hc] at h
          refine quiet_trans ?_ (ih _ _ _ h)
          split
          · exact quiet_of_same_mem self s _ rfl (List.Perm.refl _) rfl rfl
          · exact quiet_of_same_mem self s _ rfl (List.Perm.refl _) rfl rfl
    · rw [if_neg hi] at h
      simp only [Except.ok.injEq] at h
      rw [← h]
      exact quiet_refl self s

/-- The state in which `gtthread_join` has reset the join fields of the caller is reached
by a quiet part of the call. -/
theorem quiet_join_reset (self : Nat) (s : Sched) :
    Quiet self s (sigprocmask_unblock (store (store (store (sigprocmask_block s) self
      (fun t => { t with joinee := none })) self (fun t => { t with wait_tid := NO_TID }))
      self (fun t => { t with is_joined := -1 }))) := by
  refine quiet_of_update self s _ rfl rfl rfl ?_ ?_ ?_ ?_
  · intro p hp
    simp [store, Function.update, hp, sigprocmask_block, sigprocmask_unblock]
  · simp [store, sigprocmask_block, sigprocmask_unblock]
  · simp [store, sigprocmask_block, sigprocmask_unblock]
  · simp [store, sigprocmask_block, sigprocmask_unblock]

/-- The end of `gtthread_join` ends in no context switch. -/
theorem join_finish_no_switch (self : Nat) (status : Option Nat) (found : Bool) (s : Sched) :
    (gtthread_join_finish self status found s).switch? = none := by
  unfold gtthread_join_finish
  dsimp only
  repeat' split
  all_goals rfl

/-- The end of `gtthread_join` is quiet. -/
theorem quiet_join_finish (self : Nat) (status : Option Nat) (found : Bool) (s s' : Sched)
    (h : (gtthread_join_finish self status found s).next? = some s') : Quiet self s s' := by
  unfold gtthread_join_finish at h
  simp only at h
  split at h
  · simp [Outcome.next?] at h
  · cases found with
    | true =>
      simp only [Bool.not_true, Bool.false_eq_true, if_false, Outcome.next?,
        Option.some.injEq] at h
      rw [← h]
      exact quiet_join_reset self s
    | false =>
      simp only [Bool.not_false, if_true] at h
      split at h
      · simp [Outcome.next?] at h
      · rename_i s6 h6
        simp only [Outcome.next?, Option.some.injEq] at h
        rw [← h]
        exact quiet_trans (quiet_join_reset self s) (quiet_join_remove_loop self _ _ _ _ h6)

/-- A dispatch that `DispatchFrame` describes leaves alone what `ActFrame` says, whoever
makes the call. -/
theorem act_frame_of_dispatch (a : Nat) (s s' : Sched) (old : Nat) (gone rest : List Nat)
    (hD : DispatchFrame s s' old gone rest) : ActFrame a s s' := by
  have hin : ∀ g, (g ∈ gone ∨ (g = old ∧ (s'.mem old).is_finished ≠ 0)) →
      g ∈ s.g_threads_steque := by
    intro g hg
    rw [hD.run_split]
    rcases hg with hg | ⟨hg, _⟩
    · exact List.mem_cons_of_mem _ (List.mem_append_left _ hg)
    · rw [hg]; exact List.mem_cons_self _ _
  refine
    { perm := ?_
      run_sub := ?_
      dead_sub := ?_
      next_id_eq := hD.next_id_eq
      id_eq := hD.id_eq
      result_kept := ?_
      wait_kept := fun p _ => hD.wait_tid_eq p
      join_kept := ?_ }
  · rw [hD.run_eq, hD.dead_eq, hD.run_split, List.perm_iff_count]
    intro x
    by_cases hf : (s'.mem old).is_finished ≠ 0
    · rw [if_pos hf, if_pos hf]
      simp only [List.count_append, List.count_cons, List.count_nil]
      omega
    · rw [if_neg hf, if_neg hf]
      simp only [List.count_append, List.count_cons, List.count_nil]
      omega
  · intro p hp
    rw [hD.run_eq] at hp
    rw [hD.run_split]
    rcases List.mem_append.1 hp with h | h
    · exact List.mem_cons_of_mem _ (List.mem_append_right _ h)
    · by_cases hf : (s'.mem old).is_finished ≠ 0
      · rw [if_pos hf] at h; cases h
      · rw [if_neg hf, List.mem_singleton] at h
        rw [h]; exact List.mem_cons_self _ _
  · intro p hp
    rw [hD.dead_eq]
    exact List.mem_append_left _ (List.mem_append_left _ hp)
  · intro p hp
    have hg : p ∉ gone := fun h => hp (hin p (Or.inl h))
    obtain ⟨h1, h2⟩ := hD.others_kept p hg
    exact ⟨h2, h1⟩
  · intro p _
    by_cases hC : p ∈ s.g_join_steque ∧
        ∃ g, (g ∈ gone ∨ (g = old ∧ (s'.mem old).is_finished ≠ 0)) ∧
          (s.mem p).wait_tid = (s.mem g).id
    · obtain ⟨hw, g, hg, hwg⟩ := hC
      obtain ⟨h1, j, hj1, hj2, hj3⟩ := hD.marked p hw g hg hwg
      exact Or.inr ⟨h1, j, hin j hj2, hj1, hj3⟩
    · exact Or.inl (hD.kept p (by
        by_cases hw : p ∈ s.g_join_steque
        · exact Or.inr (fun g hg he => hC ⟨hw, g, hg, he⟩)
        · exact Or.inl hw))

/-- A dispatch leaves the finished records of the run queue in the dead queue, when those
behind the caller were there before. -/
theorem fin_in_dead_of_dispatch (s s' : Sched) (old : Nat) (gone rest : List Nat)
    (hD : DispatchFrame s s' old gone rest)
    (hf : ∀ p ∈ s.g_threads_steque, p ≠ old → (s.mem p).is_finished ≠ 0 →
      p ∈ s.g_dead_threads_steque) : FinInDead s' := by
  intro p hp hfin
  rw [hD.dead_eq]
  by_cases hg : p ∈ gone
  · exact List.mem_append_left _ (List.mem_append_right _ hg)
  · by_cases hpo : p = old
    · rw [hpo] at hfin ⊢
      rw [if_pos hfin]
      exact List.mem_append_right _ (List.mem_singleton_self _)
    · have hk := (hD.others_kept p hg).1
      have hps : p ∈ s.g_threads_steque := by
        rw [hD.run_eq] at hp
        rw [hD.run_split]
        rcases List.mem_append.1 hp with h | h
        · exact List.mem_cons_of_mem _ (List.mem_append_right _ h)
        · by_cases hfo : (s'.mem old).is_finished ≠ 0
          · rw [if_pos hfo] at h; cases h
          · rw [if_neg hfo, List.mem_singleton] at h
            exact absurd h hpo
      exact List.mem_append_left _ (List.mem_append_left _
        (hf p hps hpo (by rw [← hk]; exact hfin)))

/-- A dispatch by the running thread `a`, from a state in which different records bear
different ids: it leaves alone what `ActFrame` says; the finished records of the run queue
are in the dead queue afterwards, when they were before or when another thread is in the
run queue and those behind the caller were; and the thread that runs afterwards is at the
front of the run queue. -/
theorem yield_helper_facts (is_alarm_safe : Bool) (s s' : Sched) (a : Nat)
    (hfront : steque_front s.g_threads_steque = some a) (hinj : IdsInj s)
    (h : (yield_helper is_alarm_safe s).next? = some s') :
    ActFrame a s s' ∧
    ((FinInDead s ∨ (2 ≤ s.g_threads_steque.length ∧
        ∀ p ∈ s.g_threads_steque, p ≠ a → (s.mem p).is_finished ≠ 0 →
          p ∈ s.g_dead_threads_steque)) → FinInDead s') ∧
    steque_front s'.g_threads_steque =
      some (resumed_of (yield_helper is_alarm_safe s).switch? a) := by
  cases hrun : s.g_threads_steque with
  | nil => rw [hrun] at hfront; cases hfront
  | cons old rest =>
    have hao : a = old := by
      rw [hrun] at hfront
      simp only [steque_front, Option.some.injEq] at hfront
      exact hfront.symm
    subst hao
    cases rest with
    | nil =>
      rw [yield_helper_single is_alarm_safe s a hrun] at h ⊢
      simp only [Outcome.next?, Option.some.injEq] at h
      have hq : Quiet a s s' := by
        rw [← h]
        cases is_alarm_safe
        · exact quiet_refl a s
        · exact quiet_of_same_mem a s _ rfl (List.Perm.refl _) rfl rfl
      refine ⟨act_frame_of_quiet a s s' hq, ?_, ?_⟩
      · rintro (hf | ⟨hlen, _⟩)
        · exact fin_in_dead_of_quiet a s s' hq hf
        · simp at hlen
      · rw [hq.run_eq]
        exact hfront
    | cons h1 rq =>
      obtain ⟨gone, rest, s1, hD, _, hst, hexit, hrest⟩ :=
        yield_helper_dispatch is_alarm_safe s a h1 rq hrun
      have hs1 : s1 = s' := by
        have := state_of_next _ _ h
        rw [hst] at this
        exact Option.some.inj this
      subst hs1
      refine ⟨act_frame_of_dispatch a s s1 a gone rest hD, ?_, ?_⟩
      · intro hf
        apply fin_in_dead_of_dispatch s s1 a gone rest hD
        rcases hf with hf | ⟨_, hf⟩
        · exact fun p hp _ hfin => hf p hp hfin
        · exact fun p hp => hf p (hrun ▸ hp)
      · cases hq : s1.g_threads_steque with
        | nil =>
          rw [hexit hq] at h
          simp [Outcome.next?] at h
        | cons f r =>
          obtain ⟨hret, hsw⟩ := hrest f r hq
          by_cases he : (s.mem f).id = (s.mem a).id
          · rw [hret he]
            have hfr : f ∈ s.g_threads_steque :=
              (act_frame_of_dispatch a s s1 a gone rest hD).run_sub f
                (by rw [hq]; exact List.mem_cons_self _ _)
            have hfa : f = a :=
              hinj f (List.mem_append_left _ hfr) a
                (List.mem_append_left _ (by rw [hrun]; exact List.mem_cons_self _ _)) he
            simp [steque_front, Outcome.switch?, resumed_of, hfa]
          · rw [(hsw he).1]
            simp [steque_front, Outcome.switch?, resumed_of]

/-- A quiet part of a call by the running thread has the facts of a step without a
context switch. -/
theorem step_facts_of_quiet (a : Nat) (s s' : Sched) (hq : Quiet a s s')
    (hfront : steque_front s.g_threads_steque = some a) : StepFacts a s none s' :=
  ⟨act_frame_of_quiet a s s' hq, fin_in_dead_of_quiet a s s' hq, by
    rw [hq.run_eq]; exact hfront⟩

/-- A part of a call that ends without a context switch, followed by the rest of the call,
has the facts of a step. -/
theorem step_facts_trans {a : Nat} {s s1 s2 : Sched} {sw : Option (Nat × Nat)}
    (h1 : StepFacts a s none s1) (h2 : StepFacts a s1 sw s2) : StepFacts a s sw s2 :=
  ⟨act_frame_trans h1.1 h2.1, fun hf => h2.2.1 (h1.2.1 hf), h2.2.2⟩

/-- A dispatch by the running thread has the facts of a step. -/
theorem yield_helper_step_facts (is_alarm_safe : Bool) (s s' : Sched) (a : Nat)
    (hfront : steque_front s.g_threads_steque = some a) (hinj : IdsInj s)
    (h : (yield_helper is_alarm_safe s).next? = some s') :
    StepFacts a s (yield_helper is_alarm_safe s).switch? s' := by
  obtain ⟨h1, h2, h3⟩ := yield_helper_facts is_alarm_safe s s' a hfront hinj h
  exact ⟨h1, fun hf => h2 (Or.inl hf), h3⟩

/-- The waiting loop of `gtthread_join` and the end of the call, run by the running
thread, have the facts of a step. -/
theorem join_wait_facts (self : Nat) (status : Option Nat) :
    ∀ (fuel : Nat) (s s' : Sched), steque_front s.g_threads_steque = some self → IdsInj s →
      (gtthread_join_wait self status fuel s).next? = some s' →
      StepFacts self s (gtthread_join_wait self status fuel s).switch? s' := by
  intro fuel
  induction fuel with
  | zero => intro s s' _ _ h; simp [gtthread_join_wait, Outcome.next?] at h
  | succ fuel ih =>
    intro s s' hfront hinj h
    rw [gtthread_join_wait] at h ⊢
    by_cases hj : (s.mem self).is_joined = 0
    · rw [if_pos hj] at h ⊢
      cases hy : alarm_safe_yield s with
      | returned r s1 =>
        rw [hy] at h
        simp only [Outcome.andThen] at h ⊢
        have hy' : yield_helper true s = .returned r s1 := hy
        have hk := yield_helper_step_facts true s s1 self hfront hinj (by rw [hy']; rfl)
        rw [hy'] at hk
        have hfront1 : steque_front s1.g_threads_steque = some self := hk.2.2
        exact step_facts_trans hk
          (ih s1 s' hfront1 (ids_inj_of_frame self s s1 hk.1 hinj) h)
      | switched s1 o n =>
        rw [hy] at h
        simp only [Outcome.andThen, Outcome.next?, Option.some.injEq] at h
        have hy' : yield_helper true s = .switched s1 o n := hy
        have hk := yield_helper_step_facts true s s1 self hfront hinj (by rw [hy']; rfl)
        rw [hy'] at hk
        rw [← h]
        exact hk
      | exited c s1 =>
        rw [hy] at h
        simp [Outcome.andThen, Outcome.next?] at h
      | err e =>
        rw [hy] at h
        simp [Outcome.andThen, Outcome.next?] at h
    · rw [if_neg hj] at h ⊢
      rw [join_finish_no_switch]
      exact step_facts_of_quiet self s s' (quiet_join_finish self status false s s' h) hfront

/-- How `gtthread_join` goes on after its scans: it stops on an undefined operation, or a
quiet part of the call leads to a state from which it returns 1, or ends as after a find
in the dead queue, or enters the waiting loop. -/
theorem gtthread_join_cases (fuel : Nat) (thread : gtthread_t) (status : Option Nat)
    (s : Sched) (self : Nat) (rest : List Nat) (hrun : s.g_threads_steque = self :: rest) :
    (∃ e, gtthread_join fuel thread status s = .err e) ∨
    ∃ s1, Quiet self s s1 ∧
      (gtthread_join fuel thread status s = .returned (1, status) s1 ∨
       gtthread_join fuel thread status s = gtthread_join_finish self status true s1 ∨
       gtthread_join fuel thread status s = gtthread_join_wait self status fuel s1) := by
  have key : ∀ o, o = gtthread_join fuel thread status s →
      (∃ e, o = .err e) ∨
      ∃ s1, Quiet self s s1 ∧
        (o = .returned (1, status) s1 ∨ o = gtthread_join_finish self status true s1 ∨
          o = gtthread_join_wait self status fuel s1) := by
    intro o ho
    unfold gtthread_join at ho
    simp only [sigprocmask_block, sigprocmask_unblock, hrun, steque_front] at ho
    split at ho
    · refine Or.inr ⟨_, ?_, Or.inl ho⟩
      exact quiet_of_same_mem self s _ (by simp [hrun]) (List.Perm.refl _) rfl rfl
    · have hk6 : Quiet self s
          { store (store { s with g_threads_steque := self :: rest, vtalrm_blocked := true }
              self (fun t => { t with is_joined := 0 })) self
              (fun t => { t with wait_tid := thread.id }) with vtalrm_blocked := true } := by
        refine quiet_of_update self s _ (by simp [store, hrun]) rfl rfl ?_ ?_ ?_ ?_
        · intro p hp
          simp [store, Function.update, hp]
        · simp [store]
        · simp [store]
        · simp [store]
      split at ho
      · exact Or.inl ⟨_, ho⟩
      · rename_i s7 found hdl
        have hk7 : Quiet self s s7 := quiet_trans hk6 (quiet_join_dead_loop self _ _ _ _ _ hdl)
        cases found with
        | true =>
          simp only [Bool.not_true, Bool.false_eq_true, if_false] at ho
          exact Or.inr ⟨s7, hk7, Or.inr (Or.inl ho)⟩
        | false =>
          simp only [Bool.not_false, if_true] at ho
          split at ho
          · exact Or.inl ⟨_, ho⟩
          · rename_i s8 hml
            exact Or.inr ⟨s8, quiet_trans hk7 (quiet_join_mutual_loop self _ _ _ _ _ hml),
              Or.inl ho⟩
          · rename_i s8 hml
            have hk8 : Quiet self s s8 :=
              quiet_trans hk7 (quiet_join_mutual_loop self _ _ _ _ _ hml)
            refine Or.inr ⟨_, ?_, Or.inr (Or.inr ho)⟩
            exact quiet_trans hk8
              (quiet_of_same_mem self s8 _ rfl (List.Perm.refl _) rfl rfl)
  exact key _ rfl

/-- A quiet part of a call keeps different ids on different records. -/
theorem ids_inj_of_quiet (a : Nat) (s s' : Sched) (h : Quiet a s s') (hi : IdsInj s) :
    IdsInj s' := ids_inj_of_frame a s s' (act_frame_of_quiet a s s' h) hi

/-- `gtthread_join` by the running thread has the facts of a step. -/
theorem join_facts (fuel : Nat) (thread : gtthread_t) (status : Option Nat) (s s' : Sched)
    (a : Nat) (hfront : steque_front s.g_threads_steque = some a) (hinj : IdsInj s)
    (h : (gtthread_join fuel thread status s).next? = some s') :
    StepFacts a s (gtthread_join fuel thread status s).switch? s' := by
  cases hrun : s.g_threads_steque with
  | nil => rw [hrun] at hfront; cases hfront
  | cons self rest =>
    have ha : a = self := by
      rw [hrun] at hfront
      simp only [steque_front, Option.some.injEq] at hfront
      exact hfront.symm
    subst ha
    rcases gtthread_join_cases fuel thread status s a rest hrun with
      ⟨e, he⟩ | ⟨s1, hq, he | he | he⟩
    · rw [he] at h
      simp [Outcome.next?] at h
    · rw [he] at h ⊢
      simp only [Outcome.next?, Option.some.injEq] at h
      rw [← h]
      exact step_facts_of_quiet a s s1 hq hfront
    · rw [he] at h ⊢
      rw [join_finish_no_switch]
      exact step_facts_of_quiet a s s'
        (quiet_trans hq (quiet_join_finish a status true s1 s' h)) hfront
    · rw [he] at h ⊢
      have hf1 : steque_front s1.g_threads_steque = some a := by
        rw [hq.run_eq]; exact hfront
      exact step_facts_trans (step_facts_of_quiet a s s1 hq hfront)
        (join_wait_facts a status fuel s1 s' hf1 (ids_inj_of_quiet a s s1 hq hinj) h)

/-- A write to the record `a` of the run queue that leaves its id alone, with the queues
as they were, leaves alone what `ActFrame` says. -/
theorem act_frame_of_mark (a : Nat) (s s' : Sched)
    (hr : s'.g_threads_steque = s.g_threads_steque)
    (hd : s'.g_dead_threads_steque = s.g_dead_threads_steque)
    (hn : s'.g_thread_id = s.g_thread_id)
    (hmem : ∀ p, p ≠ a → s'.mem p = s.mem p)
    (hid : (s'.mem a).id = (s.mem a).id)
    (ha : a ∈ s.g_threads_steque) : ActFrame a s s' :=
  { perm := by rw [hr, hd]
    run_sub := fun p hp => by rw [← hr]; exact hp
    dead_sub := fun p hp => by rw [hd]; exact hp
    next_id_eq := hn
    id_eq := fun p => by
      by_cases hp : p = a
      · rw [hp]; exact hid
      · rw [hmem p hp]
    result_kept := fun p hp => by
      have hpa : p ≠ a := fun h => hp (h ▸ ha)
      rw [hmem p hpa]
      exact ⟨rfl, rfl⟩
    wait_kept := fun p hp => by rw [hmem p hp]
    join_kept := fun p hp => by rw [hmem p hp]; exact Or.inl ⟨rfl, rfl⟩ }

/-- The front of a queue is in the queue. -/
theorem mem_of_front {α : Type} (q : List α) (x : α) (h : steque_front q = some x) :
    x ∈ q := by
  cases q with
  | nil => cases h
  | cons y t =>
    simp only [steque_front, Option.some.injEq] at h
    rw [h]
    exact List.mem_cons_self _ _

/-- `gtthread_exit` by the running thread, after a write to its record that leaves the id
alone, has the facts of a step. -/
theorem exit_facts_after (retval : Nat) (s m s' : Sched) (a : Nat)
    (hfront : steque_front s.g_threads_steque = some a) (hinj : IdsInj s)
    (hr : m.g_threads_steque = s.g_threads_steque)
    (hd : m.g_dead_threads_steque = s.g_dead_threads_steque)
    (hn : m.g_thread_id = s.g_thread_id)
    (hmem : ∀ p, p ≠ a → m.mem p = s.mem p)
    (hid : (m.mem a).id = (s.mem a).id)
    (h : (gtthread_exit retval m).next? = some s') :
    StepFacts a s (gtthread_exit retval m).switch? s' := by
  have ha : a ∈ s.g_threads_steque := mem_of_front _ _ hfront
  have hfm : ActFrame a s m := act_frame_of_mark a s m hr hd hn hmem hid ha
  have hfrontm : steque_front m.g_threads_steque = some a := by rw [hr]; exact hfront
  cases hrun : m.g_threads_steque with
  | nil => rw [hrun] at hfrontm; cases hfrontm
  | cons old rest =>
    have hao : a = old := by
      rw [hrun] at hfrontm
      simp only [steque_front, Option.some.injEq] at hfrontm
      exact hfrontm.symm
    subst hao
    cases rest with
    | nil =>
      obtain ⟨s1, h1⟩ := gtthread_exit_alone retval m a hrun
      rw [h1] at h
      simp [Outcome.next?] at h
    | cons h1 rq =>
      rw [gtthread_exit_eq_marked retval m a h1 rq hrun] at h ⊢
      have hfe : ActFrame a m (exit_marked retval m a) := by
        refine act_frame_of_mark a m _ rfl rfl rfl ?_ ?_ (by rw [hr]; exact ha)
        · intro p hp
          simp [exit_marked, Function.update, hp]
        · simp [exit_marked]
      have hfse : ActFrame a s (exit_marked retval m a) := act_frame_trans hfm hfe
      obtain ⟨k1, k2, k3⟩ := yield_helper_facts true (exit_marked retval m a) s' a
        hfrontm (ids_inj_of_frame a s _ hfse hinj) h
      refine ⟨act_frame_trans hfse k1, ?_, k3⟩
      intro hf
      apply k2
      refine Or.inr ⟨?_, ?_⟩
      · show 2 ≤ m.g_threads_steque.length
        rw [hrun]
        simp
      · intro p hp hpa hfin
        have hpm : (exit_marked retval m a).mem p = s.mem p := by
          rw [← hmem p hpa]
          simp [exit_marked, Function.update, hpa]
        rw [hpm] at hfin
        show p ∈ m.g_dead_threads_steque
        rw [hd]
        exact hf p (by rw [← hr]; exact hp) hfin

/-- `gtthread_exit` by the running thread has the facts of a step. -/
theorem exit_facts (retval : Nat) (s s' : Sched) (a : Nat)
    (hfront : steque_front s.g_threads_steque = some a) (hinj : IdsInj s)
    (h : (gtthread_exit retval s).next? = some s') :
    StepFacts a s (gtthread_exit retval s).switch? s' :=
  exit_facts_after retval s s s' a hfront hinj rfl rfl rfl (fun _ _ => rfl) rfl h

/-- The trampoline, from the return of the start routine of the running thread on, has
the facts of a step. -/
theorem apply_facts (func_result : Nat) (s s' : Sched) (a : Nat)
    (hfront : steque_front s.g_threads_steque = some a) (hinj : IdsInj s)
    (h : (apply func_result a s).next? = some s') :
    StepFacts a s (apply func_result a s).switch? s' := by
  unfold apply at h ⊢
  refine exit_facts_after NULL s _ s' a hfront hinj rfl rfl rfl ?_ ?_ h
  · intro p hp
    simp [store, Function.update, hp]
  · simp [store]

/-- `gtthread_cancel` by the running thread has the facts of a step. -/
theorem cancel_facts (thread : gtthread_t) (s s' : Sched) (a : Nat)
    (hfront : steque_front s.g_threads_steque = some a) (hinj : IdsInj s)
    (h : (gtthread_cancel thread s).next? = some s') :
    StepFacts a s (gtthread_cancel thread s).switch? s' := by
  cases hrun : s.g_threads_steque with
  | nil => rw [hrun] at hfront; cases hfront
  | cons self rest =>
    have ha : a = self := by
      rw [hrun] at hfront
      simp only [steque_front, Option.some.injEq] at hfront
      exact hfront.symm
    subst ha
    have hq : Quiet a s (with_cancel s (s.g_cancelatorium ++ [thread.id])) :=
      quiet_of_same_mem a s _ rfl (List.Perm.refl _) rfl rfl
    have hsq := step_facts_of_quiet a s _ hq hfront
    by_cases he : thread.id = (s.mem a).id
    · rw [gtthread_cancel_self thread s a rest hrun he] at h ⊢
      cases hy : yield_helper true (with_cancel s (s.g_cancelatorium ++ [thread.id])) with
      | returned r s1 =>
        rw [hy] at h
        simp only [Outcome.andThen, Outcome.next?, Option.some.injEq] at h
        have hk := yield_helper_step_facts true _ s1 a hsq.2.2
          (ids_inj_of_quiet a s _ hq hinj) (by rw [hy]; rfl)
        rw [hy] at hk
        rw [← h]
        exact step_facts_trans hsq hk
      | switched s1 o n =>
        rw [hy] at h
        simp only [Outcome.andThen, Outcome.next?, Option.some.injEq] at h
        have hk := yield_helper_step_facts true _ s1 a hsq.2.2
          (ids_inj_of_quiet a s _ hq hinj) (by rw [hy]; rfl)
        rw [hy] at hk
        rw [← h]
        exact step_facts_trans hsq hk
      | exited c s1 =>
        rw [hy] at h
        simp [Outcome.andThen, Outcome.next?] at h
      | err e =>
        rw [hy] at h
        simp [Outcome.andThen, Outcome.next?] at h
    · rw [gtthread_cancel_other thread s a rest hrun he] at h ⊢
      simp only [Outcome.next?, Option.some.injEq] at h
      rw [← h]
      exact hsq

/-- Every named step made by the running thread `a`, in a state in which different records
bear different ids, has the facts of a step. -/
theorem call_facts (c : Call) (s s' : Sched) (a : Nat)
    (hfront : steque_front s.g_threads_steque = some a) (hinj : IdsInj s)
    (h : c.next s = some s') : StepFacts a s (c.switch? s) s' := by
  cases c with
  | yield => exact yield_helper_step_facts true s s' a hfront hinj h
  | alarm =>
    simp only [Call.next] at h
    split at h
    · exact yield_helper_step_facts false s s' a hfront hinj h
    · cases h
  | join fuel thread status => exact join_facts fuel thread status s s' a hfront hinj h
  | join_resume fuel self status =>
    simp only [Call.next] at h
    split at h
    · rename_i hb
      have : self = a := Option.some.inj (hb.1.symm.trans hfront)
      subst this
      exact join_wait_facts self status fuel s s' hfront hinj h
    · cases h
  | exit retval => exact exit_facts retval s s' a hfront hinj h
  | cancel thread => exact cancel_facts thread s s' a hfront hinj h
  | start_routine_returns r t =>
    simp only [Call.next] at h
    split at h
    · rename_i hb
      have : t = a := Option.some.inj (hb.symm.trans hfront)
      subst this
      exact apply_facts r s s' t hfront hinj h
    · cases h

/-! ## The invariants of every run -/

/-- The state after `gtthread_init` at program start has the invariant of every run, with
the initial thread running. -/
theorem init_run_inv (period : Int) (main_thread : Nat) (s0 : Sched)
    (h0 : s0.g_thread_id = 0) :
    RunInv 1 (gtthread_init period main_thread s0) main_thread := by
  obtain ⟨hr, hd, _, _, hn, _, hm, _⟩ := gtthread_init_facts period main_thread s0
  have hmem : ∀ p, p ∈ (gtthread_init period main_thread s0).g_threads_steque ++
      (gtthread_init period main_thread s0).g_dead_threads_steque → p = main_thread := by
    intro p hp
    rw [hr, hd] at hp
    simpa using hp
  refine ⟨by rw [hr]; rfl, ?_, ?_, by rw [hn, h0], ?_⟩
  · intro p hp q hq _
    rw [hmem p hp, hmem q hq]
  · intro p hp
    rw [hmem p hp, hm, hn]
    simp
  · intro p hp hfin
    rw [hr] at hp
    simp only [List.mem_singleton] at hp
    rw [hp, hm] at hfin
    simp at hfin

/-- A `gtthread_create`, on whatever record, keeps the invariant of every run, with one
more id issued and the same thread running. -/
theorem create_run_inv (k : Nat) (s : Sched) (r thread : Nat) (h : RunInv k s r) :
    RunInv (k + 1) (gtthread_create thread s).2 r := by
  obtain ⟨hfront, hinj, hbelow, hnext, hfin⟩ := h
  obtain ⟨_, hr, hd, _, _, hn, _, hm, hoth⟩ := gtthread_create_facts thread s
  have hmem' : ∀ p, p ∈ (gtthread_create thread s).2.g_threads_steque ++
      (gtthread_create thread s).2.g_dead_threads_steque →
      p = thread ∨ p ∈ s.g_threads_steque ++ s.g_dead_threads_steque := by
    intro p hp
    rw [hr, hd] at hp
    simp only [List.mem_append, List.mem_singleton] at hp ⊢
    tauto
  have hid : ∀ p, p ∈ (gtthread_create thread s).2.g_threads_steque ++
      (gtthread_create thread s).2.g_dead_threads_steque → p ≠ thread →
      ((gtthread_create thread s).2.mem p).id < s.g_thread_id := by
    intro p hp hne
    rw [hoth p hne]
    rcases hmem' p hp with h | h
    · exact absurd h hne
    · exact hbelow p h
  have hidt : ((gtthread_create thread s).2.mem thread).id = s.g_thread_id := by rw [hm]
  refine ⟨?_, ?_, ?_, by rw [hn, hnext], ?_⟩
  · rw [hr]
    cases hq : s.g_threads_steque with
    | nil => rw [hq] at hfront; cases hfront
    | cons x t => rw [hq] at hfront; exact hfront
  · intro p hp q hq he
    by_cases hpt : p = thread
    · by_cases hqt : q = thread
      · rw [hpt, hqt]
      · have := hid q hq hqt
        rw [← he, hpt, hidt] at this
        exact absurd this (Nat.lt_irrefl _)
    · by_cases hqt : q = thread
      · have := hid p hp hpt
        rw [he, hqt, hidt] at this
        exact absurd this (Nat.lt_irrefl _)
      · rw [hoth p hpt, hoth q hqt] at he
        rcases hmem' p hp with h | h
        · exact absurd h hpt
        · rcases hmem' q hq with h' | h'
          · exact absurd h' hqt
          · exact hinj p h q h' he
  · intro p hp
    rw [hn]
    by_cases hpt : p = thread
    · rw [hpt, hidt]; exact Nat.lt_succ_self _
    · exact Nat.lt_succ_of_lt (hid p hp hpt)
  · intro p hp hf
    rw [hd]
    by_cases hpt : p = thread
    · rw [hpt, hm] at hf
      simp at hf
    · rw [hoth p hpt] at hf
      rw [hr] at hp
      rcases List.mem_append.1 hp with h | h
      · exact hfin p h hf
      · rw [List.mem_singleton] at h
        exact absurd h hpt

/-- A named step keeps the invariant of every run; the thread that runs afterwards is the
one the step switched to, if any. -/
theorem call_run_inv (k : Nat) (c : Call) (s s' : Sched) (r : Nat) (h : RunInv k s r)
    (hnext : c.next s = some s') : RunInv k s' (c.resumed s r) := by
  obtain ⟨hfront, hinj, hbelow, hn, hfin⟩ := h
  obtain ⟨hF, hf, hfr⟩ := call_facts c s s' r hfront hinj hnext
  refine ⟨hfr, ids_inj_of_frame r s s' hF hinj, ?_, by rw [hF.next_id_eq, hn], hf hfin⟩
  intro p hp
  rw [hF.id_eq, hF.next_id_eq]
  exact hbelow p (hF.perm.subset hp)

/-- The invariant of every run holds along every run from a state that has it. -/
theorem runs_inv (ok : Sched → Nat → Prop) (s0 : Sched) (r0 k : Nat) (h0 : RunInv k s0 r0) :
    ∀ (n : Nat) (s : Sched) (r : Nat), Runs ok s0 r0 n s r → RunInv (k + n) s r := by
  intro n s r h
  induction h with
  | start => exact h0
  | create thread _ _ ih => exact create_run_inv _ _ _ thread ih
  | call c _ hnext ih => exact call_run_inv _ c _ _ _ ih hnext

/-- A run is a run under every weaker condition on the records given to
`gtthread_create`. -/
theorem runs_mono (ok ok' : Sched → Nat → Prop) (hok : ∀ s p, ok s p → ok' s p) (s0 : Sched)
    (r0 : Nat) : ∀ (n : Nat) (s : Sched) (r : Nat), Runs ok s0 r0 n s r →
      Runs ok' s0 r0 n s r := by
  intro n s r h
  induction h with
  | start => exact Runs.start
  | create thread _ hc ih => exact Runs.create thread ih (hok _ _ hc)
  | call c _ hnext ih => exact Runs.call c ih hnext

/-- Along a run in which no `gtthread_create` is given the record `thread`, the record
keeps its id. -/
theorem runs_keeps_id (thread : Nat) (s0 : Sched) (r0 : Nat) :
    ∀ (n : Nat) (s : Sched) (r : Nat), Runs (other_record thread) s0 r0 n s r →
      (s.mem thread).id = (s0.mem thread).id := by
  intro n s r h
  induction h with
  | start => rfl
  | create q _ hq ih =>
    have hne : thread ≠ q := fun he => hq he.symm
    rw [(gtthread_create_facts q _).2.2.2.2.2.2.2.2 thread hne]
    exact ih
  | call c _ hnext ih =>
    rw [(keeps_step _ _ (call_step c _ _ hnext)).1.1 thread]
    exact ih

/-- Along a run in which no `gtthread_create` is given the record `t`, the run queue and
the dead queue together hold `t` as often as they did. -/
theorem runs_keeps_count (t : Nat) (s0 : Sched) (r0 : Nat) :
    ∀ (n : Nat) (s : Sched) (r : Nat), Runs (other_record t) s0 r0 n s r →
      (s.g_threads_steque ++ s.g_dead_threads_steque).count t =
        (s0.g_threads_steque ++ s0.g_dead_threads_steque).count t := by
  intro n s r h
  induction h with
  | start => rfl
  | @create _ s1 _ q _ hq ih =>
    obtain ⟨_, hr, hd, _⟩ := gtthread_create_facts q s1
    have hne : q ≠ t := hq
    rw [hr, hd, ← ih]
    simp only [List.count_append, List.count_cons, List.count_nil]
    have hb : (q == t) = false := by simpa using hne
    simp [hb]
  | call c _ hnext ih =>
    rw [← ih]
    exact ((keeps_step _ _ (call_step c _ _ hnext)).1.2.2).count_eq t

/-- Along a run in which no `gtthread_create` is given the record `t`, a record `t` that is
in the dead queue and not in the run queue stays so, with its return value. -/
theorem runs_keeps_dead (t : Nat) (s0 : Sched) (r0 k : Nat) (hinv : RunInv k s0 r0)
    (hd : t ∈ s0.g_dead_threads_steque) (hr : t ∉ s0.g_threads_steque) :
    ∀ (n : Nat) (s : Sched) (r : Nat), Runs (other_record t) s0 r0 n s r →
      t ∈ s.g_dead_threads_steque ∧ t ∉ s.g_threads_steque ∧
      (s.mem t).retval = (s0.mem t).retval := by
  intro n s r h
  induction h with
  | start => exact ⟨hd, hr, rfl⟩
  | @create _ s1 _ q hprev hq ih =>
    obtain ⟨_, hrq, hdq, _, _, _, _, _, hoth⟩ := gtthread_create_facts q s1
    have hne : t ≠ q := fun he => hq he.symm
    refine ⟨hdq ▸ ih.1, ?_, ?_⟩
    · rw [hrq]
      simp [ih.2.1, hne]
    · rw [hoth t hne]
      exact ih.2.2
  | call c hprev hnext ih =>
    have hI := runs_inv (other_record t) s0 r0 k hinv _ _ _ hprev
    have hF := (call_facts c _ _ _ hI.1 hI.2.1 hnext).1
    refine ⟨hF.dead_sub t ih.1, fun hm => ih.2.1 (hF.run_sub t hm), ?_⟩
    rw [(hF.result_kept t ih.2.1).1]
    exact ih.2.2

/-- A run in which a thread stays suspended is a run. -/
theorem runs_away_runs (j : Nat) (ok : Sched → Nat → Prop) (s0 : Sched) (r0 : Nat) :
    ∀ (n : Nat) (s : Sched) (r : Nat), RunsAway j ok s0 r0 n s r → Runs ok s0 r0 n s r := by
  intro n s r h
  induction h with
  | start => exact Runs.start
  | create q _ _ hq ih => exact Runs.create q ih hq
  | call c _ _ hnext ih => exact Runs.call c ih hnext

/-- While the thread `j` stays suspended, no `gtthread_create` is given the record `t`,
which is in the dead queue and not in the run queue, and the id counter stays at or below
the sentinel that stands for no wait target, a join state 1 of `j` with the joinee `t`,
whose id `j` awaits, is not reset to 0, and the joinee stays. -/
theorem runs_away_keeps_waiter (t j : Nat) (s0 : Sched) (r0 k : Nat) (hinv : RunInv k s0 r0)
    (hd : t ∈ s0.g_dead_threads_steque) (hr : t ∉ s0.g_threads_steque)
    (hj : (s0.mem j).is_joined = 1) (hjoinee : (s0.mem j).joinee = some t)
    (hw : (s0.mem j).wait_tid = (s0.mem t).id) :
    ∀ (n : Nat) (s : Sched) (r : Nat), RunsAway j (other_record t) s0 r0 n s r →
      s.g_thread_id ≤ NO_TID →
      (s.mem j).is_joined ≠ 0 ∧ (s.mem j).joinee = some t ∧
      ((s.mem j).wait_tid = (s.mem t).id ∨ (s.mem j).wait_tid = NO_TID) := by
  intro n s r h
  induction h with
  | start =>
    intro _
    exact ⟨by rw [hj]; decide, hjoinee, Or.inl hw⟩
  | @create _ s1 _ q hprev _ hq ih =>
    intro hb
    obtain ⟨_, _, _, _, _, hn, _, hm, hoth⟩ := gtthread_create_facts q s1
    have ih1 := ih (by rw [hn] at hb; omega)
    have hqt : t ≠ q := fun he => hq he.symm
    by_cases hqj : j = q
    · subst hqj
      rw [hm]
      refine ⟨?_, ih1.2.1, Or.inr rfl⟩
      show (-1 : Int) ≠ 0
      decide
    · rw [hoth j hqj, hoth t hqt]
      exact ih1
  | @call _ s1 s2 r1 c hprev hne hnext ih =>
    intro hb
    have hR := runs_away_runs j _ s0 r0 _ _ _ hprev
    have hI := runs_inv (other_record t) s0 r0 k hinv _ _ _ hR
    have hD := runs_keeps_dead t s0 r0 k hinv hd hr _ _ _ hR
    have hF := (call_facts c _ _ _ hI.1 hI.2.1 hnext).1
    have hb1 : s1.g_thread_id ≤ NO_TID := by rw [← hF.next_id_eq]; exact hb
    have ih1 := ih hb1
    have hjr : j ≠ r1 := fun he => hne he.symm
    have hwait : (s2.mem j).wait_tid = (s1.mem j).wait_tid := hF.wait_kept j hjr
    refine ⟨?_, ?_, ?_⟩
    · rcases hF.join_kept j hjr with ⟨e1, _⟩ | ⟨e1, _⟩
      · rw [e1]; exact ih1.1
      · rw [e1]; decide
    · rcases hF.join_kept j hjr with ⟨_, e2⟩ | ⟨_, g, hg, e2, e3⟩
      · rw [e2]; exact ih1.2.1
      · rcases ih1.2.2 with hw1 | hw1
        · have hgt : g = t := by
            refine hI.2.1 g (List.mem_append_left _ hg) t (List.mem_append_right _ hD.1) ?_
            rw [e3, hw1]
          rw [e2, hgt]
        · exfalso
          have hlt := hI.2.2.1 g (List.mem_append_left _ hg)
          rw [e3, hw1] at hlt
          omega
    · rw [hwait, hF.id_eq t]
      exact ih1.2.2

/-- The joins that follow a state `s'` in which the thread `f` runs and the record `t` is
in the dead queue, and not in the run queue, with the return value `v`.  As long as no
`gtthread_create` is given the record `t`, it stays in the dead queue with that value, and
a `gtthread_join` on a handle with its id writes `v` and returns 0.  And a thread `j`
with the join state 1 and the joinee `t`, whose id it awaits, writes `v` and returns 0
when it goes on in the waiting loop of `gtthread_join`, after a run in which it stayed
suspended, no `gtthread_create` was given the record `t`, and the id counter has stayed at
or below the sentinel that stands for no wait target. -/
theorem joins_after_exit (v t K : Nat) (s' : Sched) (f : Nat) (hinv : RunInv K s' f)
    (hd : t ∈ s'.g_dead_threads_steque) (hr : t ∉ s'.g_threads_steque)
    (hret : (s'.mem t).retval = v) :
    (∀ (k2 : Nat) (s2 : Sched) (r2 : Nat), Runs (other_record t) s' f k2 s2 r2 →
      t ∈ s2.g_dead_threads_steque ∧ (s2.mem t).retval = v ∧
      ∀ (fuel : Nat) (thread : gtthread_t) (x : Nat), thread.id = (s'.mem t).id →
        ∃ s3, gtthread_join fuel thread (some x) s2 = .returned (0, some v) s3) ∧
    (∀ (j : Nat), (s'.mem j).is_joined = 1 → (s'.mem j).joinee = some t →
      (s'.mem j).wait_tid = (s'.mem t).id →
      ∀ (k2 : Nat) (s2 : Sched) (r2 : Nat), RunsAway j (other_record t) s' f k2 s2 r2 →
        s2.g_thread_id ≤ NO_TID → ∀ (fuel x : Nat),
          ∃ s3, gtthread_join_wait j (some x) (fuel + 1) s2 = .returned (0, some v) s3) := by
  refine ⟨?_, ?_⟩
  · intro k2 s2 r2 hrun
    have hD := runs_keeps_dead t s' f K hinv hd hr k2 s2 r2 hrun
    have hI := runs_inv (other_record t) s' f K hinv k2 s2 r2 hrun
    have hidk := runs_keeps_id t s' f k2 s2 r2 hrun
    refine ⟨hD.1, hD.2.2.trans hret, ?_⟩
    intro fuel thread x hth
    have hfront := hI.1
    cases hq : s2.g_threads_steque with
    | nil => simp [steque_front, hq] at hfront
    | cons self rest =>
      have hself : self = r2 := by simpa [steque_front, hq] using hfront
      obtain ⟨pre, post, hsplit, hnpre⟩ := List.eq_append_cons_of_mem hD.1
      have htd : t ∈ s2.g_threads_steque ++ s2.g_dead_threads_steque :=
        List.mem_append_right _ hD.1
      have hj := gtthread_join_dead_eq fuel thread (some x) s2 self rest pre t post hq
        (by
          rw [hth, ← hidk]
          exact hI.2.2.1 t htd)
        (by
          intro he
          have hst : self = t :=
            hI.2.1 self (List.mem_append_left _ (by rw [hq]; simp)) t htd
              (by rw [← he, hth, hidk])
          exact hD.2.1 (by rw [hq, hst]; simp))
        hsplit
        (by
          intro p hp he
          have hpt : p = t :=
            hI.2.1 p (List.mem_append_right _ (by rw [hsplit]; simp [hp])) t htd
              (by rw [he, hth, hidk])
          exact hnpre (hpt ▸ hp))
        (by rw [hth, hidk])
      rw [hD.2.2, hret] at hj
      exact ⟨_, hj⟩
  · intro j hj hjoinee hw k2 s2 r2 hrun hb fuel x
    have hW := runs_away_keeps_waiter t j s' f K hinv hd hr hj hjoinee hw k2 s2 r2 hrun hb
    have hR := runs_away_runs j _ s' f _ _ _ hrun
    have hD := runs_keeps_dead t s' f K hinv hd hr k2 s2 r2 hR
    obtain ⟨s3, h3⟩ := gtthread_join_wait_done fuel s2 j t x hW.1 hW.2.1
    exact ⟨s3, by rw [h3, hD.2.2, hret]⟩

/-- The state after a step `c` that the thread `t` makes in state `s` and that ends in a
context switch to `f`, leaving the record `t`, which the two queues held once, in the dead
queue: `f` runs, and `t` is not in the run queue. -/
theorem left_after_switch (t K : Nat) (s s' : Sched) (f : Nat) (c : Call) (o : Outcome Unit)
    (hinv : RunInv K s t)
    (hcount : (s.g_threads_steque ++ s.g_dead_threads_steque).count t = 1)
    (hnext : c.next s = o.next?) (hsw : c.switch? s = o.switch?)
    (ho : o = .switched s' t f) (hd : t ∈ s'.g_dead_threads_steque) :
    RunInv K s' f ∧ t ∉ s'.g_threads_steque := by
  have hnext' : c.next s = some s' := by rw [hnext, ho]; rfl
  have hres : c.resumed s t = f := by
    simp [Call.resumed, hsw, ho, Outcome.switch?, resumed_of]
  refine ⟨hres ▸ call_run_inv K c s s' t hinv hnext', ?_⟩
  have hperm := (keeps_step _ _ (call_step c s s' hnext')).1.2.2
  have hc := hperm.count_eq t
  rw [hcount, List.count_append] at hc
  have hpos : 0 < s'.g_dead_threads_steque.count t := List.count_pos_iff.mpr hd
  intro hm
  have hpos2 : 0 < s'.g_threads_steque.count t := List.count_pos_iff.mpr hm
  omega

/-- C4 (as the code has it). Return values reach the joiner.  Take a run from
`gtthread_init` at program start, with `gtthread_create` on whatever records, in which the
`n + 1`-th `gtthread_create` is given a record `t` that is in neither the run queue nor
the dead queue, and no later `gtthread_create` is given `t`; let the thread of `t` run
while another thread is in the run queue.  If its start routine returns `v` (the
trampoline stores `v` and calls `gtthread_exit(NULL)`), or if it calls `gtthread_exit(v)`
with `v` not null, then the call ends the process or ends in a context switch, and the
record `t` is then in the dead queue, finished, with `retval = v` and its id `n + 1`, and
every thread that waits on this id in the join queue is marked with `t` as its joinee: the
null argument of the trampoline's exit does not overwrite `v`.  After the context switch,
as long as no `gtthread_create` is given `t`, the record stays in the dead queue with
`retval = v`, and every `gtthread_join` of the running thread on a handle with the id
`n + 1` writes `v` to `*status` and returns 0.  And a thread `j` that waited on the id
in the join queue writes `v` to `*status` and returns 0 when it goes on in its waiting
loop, after a run in which `j` stayed suspended and no `gtthread_create` was given the
record `t` (the id counter being at or below `NO_TID`, the `-1` that stands for no wait
target). -/
theorem exit_value_reaches_joiner (v : Nat) (period : Int) (main_thread : Nat) (s0 : Sched)
    (n : Nat) (sa : Sched) (ra t k : Nat) (s : Sched) (h : Nat) (rq : List Nat)
    (o : Outcome Unit) (h0 : s0.g_thread_id = 0)
    (h1 : Runs any_record (gtthread_init period main_thread s0) main_thread n sa ra)
    (hnew : new_record sa t)
    (h2 : Runs (other_record t) (gtthread_create t sa).2 ra k s t)
    (hrun : s.g_threads_steque = t :: h :: rq)
    (ho : o = apply v t s ∨ (v ≠ NULL ∧ o = gtthread_exit v s)) :
    ∃ s', (o = .exited 0 s' ∨ ∃ f, o = .switched s' t f) ∧
      t ∈ s'.g_dead_threads_steque ∧ (s'.mem t).retval = v ∧
      (s'.mem t).is_finished = 1 ∧ (s'.mem t).id = n + 1 ∧
      (∀ j ∈ s.g_join_steque, (s.mem j).wait_tid = n + 1 →
        (s'.mem j).is_joined = 1 ∧ (s'.mem j).joinee = some t) ∧
      (∀ (f k2 : Nat) (s2 : Sched) (r2 : Nat), o = .switched s' t f →
        Runs (other_record t) s' f k2 s2 r2 →
        t ∈ s2.g_dead_threads_steque ∧ (s2.mem t).retval = v ∧
        ∀ (fuel : Nat) (thread : gtthread_t) (x : Nat), thread.id = n + 1 →
          ∃ s3, gtthread_join fuel thread (some x) s2 = .returned (0, some v) s3) ∧
      (∀ (j f k2 : Nat) (s2 : Sched) (r2 : Nat), o = .switched s' t f →
        j ∈ s.g_join_steque → (s.mem j).wait_tid = n + 1 →
        RunsAway j (other_record t) s' f k2 s2 r2 → s2.g_thread_id ≤ NO_TID →
        ∀ (fuel x : Nat),
          ∃ s3, gtthread_join_wait j (some x) (fuel + 1) s2 = .returned (0, some v) s3) := by
  have hinv1 := runs_inv any_record _ main_thread 1
    (init_run_inv period main_thread s0 h0) n sa ra h1
  have hinv2 := runs_inv (other_record t) _ ra (1 + n + 1)
    (create_run_inv (1 + n) sa ra t hinv1) k s t h2
  have hid : (s.mem t).id = n + 1 := by
    rw [runs_keeps_id t _ ra k s t h2, (gtthread_create_facts t sa).2.2.2.2.2.2.2.1]
    show sa.g_thread_id = n + 1
    rw [hinv1.2.2.2.1, Nat.add_comm]
  have hcount : (s.g_threads_steque ++ s.g_dead_threads_steque).count t = 1 := by
    rw [runs_keeps_count t _ ra k s t h2, (gtthread_create_facts t sa).2.1,
      (gtthread_create_facts t sa).2.2.1]
    simp [List.count_append, List.count_eq_zero_of_not_mem hnew.1,
      List.count_eq_zero_of_not_mem hnew.2]
  have hids : ∀ p ∈ h :: rq, (s.mem p).id ≠ (s.mem t).id := by
    intro p hp he
    have hpt : p = t :=
      hinv2.2.1 p (List.mem_append_left _ (by rw [hrun]; exact List.mem_cons_of_mem _ hp))
        t (List.mem_append_left _ (by rw [hrun]; simp)) he
    have ht : t ∈ h :: rq := hpt ▸ hp
    have hpos : 0 < (h :: rq).count t := List.count_pos_iff.mpr ht
    rw [hrun, List.cons_append, List.count_cons_self, List.count_append] at hcount
    omega
  have hfront : steque_front s.g_threads_steque = some t := hinv2.1
  have hcase : ∃ c : Call, c.next s = o.next? ∧ c.switch? s = o.switch? ∧
      ∃ s', (o = .exited 0 s' ∨ ∃ f, o = .switched s' t f) ∧
        t ∈ s'.g_dead_threads_steque ∧ (s'.mem t).retval = v ∧
        (s'.mem t).is_finished = 1 ∧ (s'.mem t).id = (s.mem t).id ∧
        (∀ j ∈ s.g_join_steque, (s.mem j).wait_tid = (s.mem t).id →
          (s'.mem j).is_joined = 1 ∧ (s'.mem j).joinee = some t) ∧
        (∀ p, (s'.mem p).wait_tid = (s.mem p).wait_tid) := by
    rcases ho with ho | ⟨hv, ho⟩
    · refine ⟨.start_routine_returns v t, ?_, ?_, ?_⟩
      · rw [ho]
        simp [Call.next, hfront]
      · rw [ho]
        rfl
      · have hmem : ∀ p,
            ((store s t (fun r => { r with retval := v })).mem p).id = (s.mem p).id ∧
            ((store s t (fun r => { r with retval := v })).mem p).wait_tid =
              (s.mem p).wait_tid := by
          intro p
          by_cases hp : p = t
          · subst hp; simp [store]
          · simp [store, Function.update_noteq hp]
        obtain ⟨s', hout, hd, hret, hfin, hid', hw, hwt⟩ :=
          gtthread_exit_reaches_dead NULL (store s t (fun r => { r with retval := v })) t h rq
            hrun
            (by
              intro p hp
              rw [(hmem p).1, (hmem t).1]
              exact hids p hp)
        refine ⟨s', ho ▸ hout, hd, ?_, hfin, hid'.trans (hmem t).1, ?_, ?_⟩
        · rw [hret]
          simp [store]
        · intro j hj hwj
          refine hw j hj ?_
          rw [(hmem j).2, (hmem t).1]
          exact hwj
        · intro p
          rw [hwt p, (hmem p).2]
    · refine ⟨.exit v, ?_, ?_, ?_⟩
      · rw [ho]
        rfl
      · rw [ho]
        rfl
      · obtain ⟨s', hout, hd, hret, hfin, hid', hw, hwt⟩ :=
          gtthread_exit_reaches_dead v s t h rq hrun hids
        exact ⟨s', ho ▸ hout, hd, by rw [hret, if_pos hv], hfin, hid', hw, hwt⟩
  obtain ⟨c, hnext, hsw, s', hout, hd, hret, hfin, hid', hmark, hwt⟩ := hcase
  refine ⟨s', hout, hd, hret, hfin, hid'.trans hid, ?_, ?_, ?_⟩
  · intro j hj hw
    exact hmark j hj (hw.trans hid.symm)
  · intro f k2 s2 r2 hsw' hrun2
    obtain ⟨hinv', hr'⟩ := left_after_switch t _ s s' f c o hinv2 hcount hnext hsw hsw' hd
    obtain ⟨hd2, hret2, hjoin⟩ :=
      (joins_after_exit v t _ s' f hinv' hd hr' hret).1 k2 s2 r2 hrun2
    exact ⟨hd2, hret2, fun fuel thread x hth =>
      hjoin fuel thread x (hth.trans (hid'.trans hid).symm)⟩
  · intro j f k2 s2 r2 hsw' hj hw hrun2 hb fuel x
    obtain ⟨hinv', hr'⟩ := left_after_switch t _ s s' f c o hinv2 hcount hnext hsw hsw' hd
    have hm := hmark j hj (hw.trans hid.symm)
    exact (joins_after_exit v t _ s' f hinv' hd hr' hret).2 j hm.1 hm.2
      (by rw [hwt j, hw, hid', hid]) k2 s2 r2 hrun2 hb fuel x

/-- The instance of C4 with `v = 42`: the initial thread creates a thread and waits for it
in `gtthread_join`; the start routine of the thread returns 42.  The join of the initial
thread, when it goes on, delivers 42, and so does a new join on the thread afterwards. -/
theorem exit_value_reaches_joiner_witness :
    Runs any_record (gtthread_init 0 100 ex_boot) 100 0 ex_run_init 100 ∧
    new_record ex_run_init 101 ∧
    Runs (other_record 101) (gtthread_create 101 ex_run_init).2 100 0 ex_wait_joining 101 ∧
    ex_wait_joining.g_threads_steque = [101, 100] ∧
    apply 42 101 ex_wait_joining = .switched ex_wait_returned 101 100 ∧
    101 ∈ ex_wait_returned.g_dead_threads_steque ∧ (ex_wait_returned.mem 101).retval = 42 ∧
    ((ex_wait_returned.mem 100).is_joined = 1 ∧ (ex_wait_returned.mem 100).joinee = some 101) ∧
    (∃ s3, gtthread_join_wait 100 (some 7) 1 ex_wait_returned = .returned (0, some 42) s3) ∧
    Runs (other_record 101) ex_wait_returned 100 0 ex_wait_done 100 ∧
    (∃ s3, gtthread_join 0 (fresh_record 1) (some 9) ex_wait_done = .returned (0, some 42) s3) := by
  have h1 : Runs any_record (gtthread_init 0 100 ex_boot) 100 0 ex_run_init 100 := Runs.start
  have hnew : new_record ex_run_init 101 := by
    show 101 ∉ ex_run_init.g_threads_steque ∧ 101 ∉ ex_run_init.g_dead_threads_steque
    decide
  have h2 : Runs (other_record 101) (gtthread_create 101 ex_run_init).2 100 0
      ex_wait_joining 101 :=
    Runs.call (.join 1 (ex_run_created.mem 101) (some 7)) Runs.start
      (rfl : Call.next (.join 1 (ex_run_created.mem 101) (some 7)) ex_run_created =
        some ex_wait_joining)
  have he : apply 42 101 ex_wait_joining = .switched ex_wait_returned 101 100 := rfl
  have h3 : Runs (other_record 101) ex_wait_returned 100 0 ex_wait_done 100 :=
    Runs.call (.join_resume 1 100 (some 7)) Runs.start
      (rfl : Call.next (.join_resume 1 100 (some 7)) ex_wait_returned = some ex_wait_done)
  obtain ⟨s', hout, hd, hret, _, _, hmark, hjoin, hwaiter⟩ :=
    exit_value_reaches_joiner 42 0 100 ex_boot 0 ex_run_init 100 101 0 ex_wait_joining 100 []
      (apply 42 101 ex_wait_joining) rfl h1 hnew h2 rfl (Or.inl rfl)
  have hs : s' = ex_wait_returned := by
    rcases hout with hx | ⟨f, hx⟩
    · rw [he] at hx
      cases hx
    · rw [he] at hx
      injection hx with e1 _ _
      exact e1.symm
  subst hs
  exact ⟨h1, hnew, h2, rfl, he, hd, hret, hmark 100 (by decide) (by decide),
    hwaiter 100 100 0 _ 100 he (by decide) (by decide) RunsAway.start (by decide) 0 7, h3,
    (hjoin 100 0 ex_wait_done 100 he h3).2.2 0 (fresh_record 1) 9 rfl⟩

/-- C4 (counterexample). Three runs through the API from `gtthread_init` at program start.
In the first, thread 1 waits in `gtthread_join` for thread 2, the start routine of
thread 2 returns 7, which reaches the dead queue with its record, and the initial thread
calls `gtthread_create` on that record and yields: the join of thread 1 goes on, returns
0 and writes 0.  In the second, the initial thread calls `gtthread_create` twice on the
record at 101 and yields; the thread of that record calls `gtthread_exit(7)`, which puts
the record into the dead queue with the value 7 and returns to the caller, and then
`gtthread_exit(9)`: a join of the initial thread on the handle returns 0 and writes 9.
In the third, the initial thread creates a thread and exits; the start routine of the
thread, which runs alone, returns 42, and the process exits with an empty dead queue. -/
theorem exit_value_lost_on_shared_record :
    (Runs any_record ex_run_init 100 3 ex_lost_resumed 101 ∧
      102 ∈ ex_lost_returned.g_dead_threads_steque ∧ (ex_lost_returned.mem 102).retval = 7 ∧
      (ex_lost_returned.mem 101).is_joined = 1 ∧
      (ex_lost_returned.mem 101).joinee = some 102 ∧
      ∃ s3, gtthread_join_wait 101 (some 5) 1 ex_lost_resumed = .returned (0, some 0) s3) ∧
    (Runs any_record ex_run_init 100 2 ex_reuse_exit_left 100 ∧
      (gtthread_exit 7 ex_reuse_yielded).isReturned = true ∧
      101 ∈ ex_reuse_exit_returned.g_dead_threads_steque ∧
      (ex_reuse_exit_returned.mem 101).retval = 7 ∧
      ∃ s3, gtthread_join 0 (ex_reuse_exit_left.mem 101) (some 5) ex_reuse_exit_left =
        .returned (0, some 9) s3) ∧
    (Runs any_record ex_run_init 100 1 ex_run_main_left 101 ∧
      ex_run_main_left.g_threads_steque = [101] ∧
      ∃ s3, apply 42 101 ex_run_main_left = .exited 0 s3 ∧
        s3.g_dead_threads_steque = []) := by
  refine ⟨⟨?_, by decide, by decide, by decide, by decide, ⟨_, rfl⟩⟩,
    ⟨?_, by decide, by decide, by decide, ⟨_, rfl⟩⟩, ⟨?_, by decide, ⟨_, rfl, rfl⟩⟩⟩
  · exact Runs.call .yield
      (Runs.create 102
        (Runs.call (.start_routine_returns 7 102)
          (Runs.call (.join 1 (ex_three_yielded.mem 102) (some 5))
            (Runs.call .yield
              (Runs.create 102 (Runs.create 101 Runs.start trivial) trivial)
              (rfl : Call.next .yield ex_three = some ex_three_yielded))
            (rfl : Call.next (.join 1 (ex_three_yielded.mem 102) (some 5)) ex_three_yielded =
              some ex_lost_joining))
          (rfl : Call.next (.start_routine_returns 7 102) ex_lost_joining =
            some ex_lost_returned))
        trivial)
      (rfl : Call.next .yield ex_lost_recreated = some ex_lost_resumed)
  · exact Runs.call (.exit 9)
      (Runs.call (.exit 7)
        (Runs.call .yield
          (Runs.create 101 (Runs.create 101 Runs.start trivial) trivial)
          (rfl : Call.next .yield ex_reuse_created = some ex_reuse_yielded))
        (rfl : Call.next (.exit 7) ex_reuse_yielded = some ex_reuse_exit_returned))
      (rfl : Call.next (.exit 9) ex_reuse_exit_returned = some ex_reuse_exit_left)
  · exact Runs.call (.exit 0) (Runs.create 101 Runs.start trivial)
      (rfl : Call.next (.exit 0) ex_run_created = some ex_run_main_left)

end GTThreads
